import Mathlib

/-!
Adjoint Monte Carlo kernel of Profugus/Alea

A shallow embedding of `Alea/mc_solvers/AdjointMcParallelReduce.i.hh` (the fused
parallel-reduce solver) and of the start distribution shared with
`AdjointMcEventKernel.i.hh`.

Conventions of the embedding

* `SCALAR` (a C++ `double`) is the field `ℚ`: every statement is one of exact arithmetic.
* `LO` (a signed local ordinal) and `int` are `ℤ`; the sentinel of the sampler is `-1`.
* A `const SCALAR *` is the list of the values stored from the pointer onwards; the
  length travels separately, as in the source.  A read outside the list yields `0`,
  a write outside the list is dropped.
* A random generator is the stream of the uniform draws it will hand out.
* `SCALAR_TRAITS::pow` belongs to Teuchos; it is a parameter `pow` of the builder.
-/

namespace alea

/-- The scalar type of the solver, in exact arithmetic. -/
abbrev SCALAR := ℚ

/-- A generator state: the stream of draws still to come. -/
abbrev generator_type := ℕ → SCALAR

/-- The draw `Kokkos::rand<generator_type,SCALAR>::draw(gen)`: the head of the stream,
together with the advanced generator. -/
def draw (gen : generator_type) : SCALAR × generator_type :=
  (gen 0, fun n => gen (n + 1))

/-- Read `a[i]` through a pointer `a`. -/
def rd {α : Type} [Zero α] (a : List α) (i : ℤ) : α :=
  if i < 0 then 0 else a.getD i.toNat 0

/-- The update `y[i] += v`. -/
def add_at (y : List SCALAR) (i : ℤ) (v : SCALAR) : List SCALAR :=
  if 0 ≤ i then y.set i.toNat (rd y i + v) else y

/-- The flat sparse-row view `MC_Data_View` read by the kernel. -/
structure MC_Data_View where
  /-- tally contribution values -/
  H : List SCALAR
  /-- row-local cumulative distributions -/
  P : List SCALAR
  /-- transition weight multipliers -/
  W : List SCALAR
  /-- destination state indices -/
  inds : List ℤ
  /-- row starts, one more entry than there are rows -/
  offsets : List ℤ

/-- The data members of `AdjointMcParallelReduce` read or written by the kernel. -/
structure AdjointMcParallelReduce where
  /-- number of rows, `offsets.size()-1` -/
  value_count : ℕ
  /-- sparse-row view -/
  d_mc_data : MC_Data_View
  /-- polynomial coefficients -/
  d_coeffs : List SCALAR
  /-- start cdf, rebuilt by every solve -/
  d_start_cdf : List SCALAR
  /-- start weights, rebuilt by every solve -/
  d_start_wt : List SCALAR
  /-- number of histories of a solve -/
  d_num_histories : ℤ
  /-- largest stage, `d_coeffs.size()-1` -/
  d_max_history_length : ℤ
  /-- estimator flag -/
  d_use_expected_value : Bool
  /-- exponent of the start distribution -/
  d_start_wt_factor : SCALAR
  /-- relative weight cutoff -/
  d_wt_cutoff : SCALAR

/-- Modelled from the spec: the loop of the device-callable `lower_bound` (see
`lower_bound` below), a bisection.  `first` is the offset of the left end of the live
range, `count` its length; each round probes the middle element and keeps the half that
can still hold the first element strictly greater than `val`. -/
def lower_bound_loop (cdf : List SCALAR) (val : SCALAR) : ℕ → ℕ → ℕ → ℕ
  | 0, first, _ => first
  | fuel + 1, first, count =>
    if count = 0 then first
    else
      let step := count / 2
      let it := first + step
      if cdf.getD it 0 ≤ val then
        lower_bound_loop cdf val fuel (it + 1) (count - (step + 1))
      else
        lower_bound_loop cdf val fuel first step

/-- Modelled from the spec: the device-callable `lower_bound` of `MC_Components.hh`, which
`getNewState` calls, is not among the sources.  The spec (4.1) describes the search as an
iterative search without recursion or allocation over a contiguous sorted array that finds
the first element strictly greater than the draw, and the end of the range when there is
none; it is modelled as the bisection over `[first, first + count)` with that comparison.
The result is the offset `elem - cdf` of the returned pointer.  A round at least halves
`count`, so `count` rounds are enough. -/
def lower_bound (cdf : List SCALAR) (count : ℤ) (val : SCALAR) : ℤ :=
  (lower_bound_loop cdf val count.toNat 0 count.toNat : ℕ)

/-- The sampler `getNewState`: draw, search the cdf, and return `-1` when the search ends
at `cdf + cdf_length`, the offset of the element found otherwise.  The generator is
passed by reference in the source; the advanced generator is returned here. -/
def getNewState (cdf : List SCALAR) (cdf_length : ℤ) (gen : generator_type) :
    ℤ × generator_type :=
  let rand := (draw gen).1
  let elem := lower_bound cdf cdf_length rand
  if elem = cdf_length then (-1, (draw gen).2) else (elem, (draw gen).2)

/-- The row slice returned by `getNewRow`: four pointers into the flat arrays and the
length of the row. -/
structure Row where
  /-- pointer into `H` -/
  h_vals : List SCALAR
  /-- pointer into `P` -/
  p_vals : List SCALAR
  /-- pointer into `W` -/
  w_vals : List SCALAR
  /-- pointer into `inds` -/
  inds : List ℤ
  /-- number of entries of the row -/
  row_length : ℤ

/-- The row accessor `getNewRow`: the slice of row `state` starts at `offsets(state)` and
has `offsets(state+1) - offsets(state)` entries. -/
def getNewRow (s : AdjointMcParallelReduce) (state : ℤ) : Row :=
  let off := rd s.d_mc_data.offsets state
  { h_vals := s.d_mc_data.H.drop off.toNat
    p_vals := s.d_mc_data.P.drop off.toNat
    w_vals := s.d_mc_data.W.drop off.toNat
    inds := s.d_mc_data.inds.drop off.toNat
    row_length := rd s.d_mc_data.offsets (state + 1) - off }

/-- The tally `tallyContribution`: under the expected-value estimator every entry of the
row adds `wt * h_vals[i]` to `y[inds[i]]` (entry `0` first, then the loop from `1`); under
the collision estimator `wt` is added to `y[state]`. -/
def tallyContribution (s : AdjointMcParallelReduce) (state : ℤ) (wt : SCALAR)
    (h_vals : List SCALAR) (inds : List ℤ) (row_length : ℤ) (y : List SCALAR) :
    List SCALAR :=
  if s.d_use_expected_value then
    if row_length > 0 then
      (List.range' 1 (row_length.toNat - 1)).foldl
        (fun acc i => add_at acc (inds.getD i 0) (wt * h_vals.getD i 0))
        (add_at y (inds.getD 0 0) (wt * h_vals.getD 0 0))
    else y
  else add_at y state wt

/-- The first two statements of a round of the transport loop: fetch the row of `state`
(`getNewRow`) and tally `d_coeffs(stage)*weight` into `y` (`tallyContribution`). -/
def tally_step (s : AdjointMcParallelReduce) (state : ℤ) (stage : ℤ) (weight : SCALAR)
    (y : List SCALAR) : List SCALAR :=
  let row := getNewRow s state
  tallyContribution s state (rd s.d_coeffs stage * weight) row.h_vals row.inds
    row.row_length y

/-- The loop `while(true)` of `operator()`: tally, stop at the stage cutoff, stop at the
weight cutoff, sample the row cdf, stop on `-1`, otherwise move on with the new weight,
state and stage.  The first argument bounds the number of rounds; `none` is returned only
when it is used up before the loop has left through one of its `break`s. -/
def transport (s : AdjointMcParallelReduce) :
    ℕ → ℤ → SCALAR → SCALAR → ℤ → generator_type → List SCALAR → Option (List SCALAR)
  | 0, _, _, _, _, _, _ => none
  | fuel + 1, state, weight, initial_weight, stage, gen, y =>
    let row := getNewRow s state
    let y1 := tally_step s state stage weight y
    if stage ≥ s.d_max_history_length then some y1
    else if |weight / initial_weight| < s.d_wt_cutoff then some y1
    else
      let new_ind := (getNewState row.p_vals row.row_length gen).1
      let gen1 := (getNewState row.p_vals row.row_length gen).2
      if new_ind = -1 then some y1
      else
        transport s fuel (rd row.inds new_ind) (weight * rd row.w_vals new_ind)
          initial_weight (stage + 1) gen1 y1

/-- The functor call `operator()`, one history (`histories_per_thread = 1`): sample the
start state, leave `y` alone when the sampler returns `-1` or the start weight is zero,
otherwise transport the particle.  The stage grows by one per round and the loop leaves
once it reaches `d_max_history_length`, so `d_max_history_length - stage + 1` rounds are
allowed (one when the difference is negative). -/
def operator_call (s : AdjointMcParallelReduce) (gen : generator_type) (y : List SCALAR) :
    Option (List SCALAR) :=
  let state := (getNewState s.d_start_cdf s.value_count gen).1
  let gen1 := (getNewState s.d_start_cdf s.value_count gen).2
  if state = -1 then some y
  else if |rd s.d_start_wt state| = 0 then some y
  else
    let weight := rd s.d_start_wt state
    let initial_weight := weight
    let stage : ℤ := if s.d_use_expected_value then 1 else 0
    transport s ((s.d_max_history_length - stage).toNat + 1) state weight initial_weight
      stage gen1 y

/-- The reduction identity `init`: every slot of the buffer is `0`. -/
def init (s : AdjointMcParallelReduce) : List SCALAR :=
  List.replicate s.value_count 0

/-- The reduction `join`: `update[i] = update[i] + input[i]` for `i < value_count`. -/
def join (s : AdjointMcParallelReduce) (update input : List SCALAR) : List SCALAR :=
  (List.range s.value_count).foldl
    (fun acc i => acc.set i (acc.getD i 0 + input.getD i 0)) update

/-- The call `Kokkos::parallel_reduce(policy,*this,y_mirror)` over the range
`[0, d_num_histories)`, in the serial schedule: one buffer set up by `init`, the functor
called on it for every member in turn.  History `i` draws from the generator `pool i`
that the pool hands to it. -/
def parallel_reduce (s : AdjointMcParallelReduce) (pool : ℕ → generator_type) :
    Option (List SCALAR) :=
  (List.range s.d_num_histories.toNat).foldlM
    (fun acc i => operator_call s (pool i) acc) (init s)

/-- The running sum of `std::partial_sum` after the first element. -/
def partial_sum_from (acc : SCALAR) : List SCALAR → List SCALAR
  | [] => []
  | a :: l => (acc + a) :: partial_sum_from (acc + a) l

/-- The in-place prefix sum `std::partial_sum`. -/
def partial_sum : List SCALAR → List SCALAR
  | [] => []
  | a :: l => a :: partial_sum_from a l

/-- The buffer after the first loop of `build_initial_distribution`:
`pow(magnitude(x[i]), d_start_wt_factor)` for `i < value_count`. -/
def start_raw (pow : SCALAR → SCALAR → SCALAR) (s : AdjointMcParallelReduce)
    (x : List SCALAR) : List SCALAR :=
  (List.range s.value_count).map (fun i => pow |x.getD i 0| s.d_start_wt_factor)

/-- The value `pdf_sum`: `std::accumulate` over the buffer, from `0.0`. -/
def pdf_sum (pow : SCALAR → SCALAR → SCALAR) (s : AdjointMcParallelReduce)
    (x : List SCALAR) : SCALAR :=
  (start_raw pow s x).foldl (fun a b => a + b) 0

/-- The buffer after the first `std::transform`: every entry divided by `pdf_sum`. -/
def start_pdf (pow : SCALAR → SCALAR → SCALAR) (s : AdjointMcParallelReduce)
    (x : List SCALAR) : List SCALAR :=
  (start_raw pow s x).map (fun v => v / pdf_sum pow s x)

/-- The weights written by the second `std::transform`, which runs over the entries of
`x`; entries of the weight buffer beyond them keep what they held. -/
def start_weights (pow : SCALAR → SCALAR → SCALAR) (s : AdjointMcParallelReduce)
    (x : List SCALAR) : List SCALAR :=
  let wt := List.zipWith (fun a b => if b = 0 then 0 else a / b) x (start_pdf pow s x)
  wt ++ s.d_start_wt.drop wt.length

/-- Modelled from the spec: the macro `ENSURE` of the design-by-contract header is not
among the sources.  The spec (4.2 step 2, and 7) makes a failed check a fatal precondition
failure, reported at once: the check yields `none` and nothing after it runs. -/
def ENSURE (c : Bool) : Option Unit :=
  if c then some () else none

/-- The builder `build_initial_distribution`: raw values, their sum, the check
`ENSURE( pdf_sum > 0.0 )`, the pdf, the weights from the pdf, and last the prefix sum over
the pdf buffer. -/
def build_initial_distribution (pow : SCALAR → SCALAR → SCALAR)
    (s : AdjointMcParallelReduce) (x : List SCALAR) : Option AdjointMcParallelReduce :=
  (ENSURE (decide (pdf_sum pow s x > 0))).bind fun _ =>
    some { s with
      d_start_cdf := partial_sum (start_pdf pow s x)
      d_start_wt := start_weights pow s x }

/-- The call `y.update(alpha, A, beta)` of a Tpetra vector: `y = beta*y + alpha*A`. -/
def update (alpha : SCALAR) (A : List SCALAR) (beta : SCALAR) (y : List SCALAR) :
    List SCALAR :=
  (List.range y.length).map (fun i => beta * y.getD i 0 + alpha * A.getD i 0)

/-- The scaling loop of `solve`: `y_data[i] = scale_factor*y_mirror(i)` for
`i < value_count`. -/
def apply_scale (s : AdjointMcParallelReduce) (scale_factor : SCALAR)
    (y_mirror y_data : List SCALAR) : List SCALAR :=
  (List.range s.value_count).foldl
    (fun acc i => acc.set i (scale_factor * y_mirror.getD i 0)) y_data

/-- The orchestrator `solve`.  The result is the solver after the call (`none` after a
fatal failure) and the vector `y` as the caller finds it: `y` is passed by reference, so
it is what it was until the scaling loop writes it. -/
def solve (pow : SCALAR → SCALAR → SCALAR) (pool : ℕ → generator_type)
    (s : AdjointMcParallelReduce) (x y : List SCALAR) :
    Option AdjointMcParallelReduce × List SCALAR :=
  match build_initial_distribution pow s x with
  | none => (none, y)
  | some s1 =>
    match parallel_reduce s1 pool with
    | none => (none, y)
    | some y_mirror =>
      let scale_factor : SCALAR := 1 / (s1.d_num_histories : SCALAR)
      let y1 := apply_scale s1 scale_factor y_mirror y
      if s1.d_use_expected_value then
        (some s1, update (rd s1.d_coeffs 0) x 1 y1)
      else (some s1, y1)

/-- A cdf pointer is non-decreasing over its first `L` entries. -/
def nondecreasing (cdf : List SCALAR) (L : ℕ) : Prop :=
  ∀ j : ℕ, j < L → ∀ i : ℕ, i ≤ j → cdf.getD i 0 ≤ cdf.getD j 0

instance (cdf : List SCALAR) (L : ℕ) : Decidable (nondecreasing cdf L) := by
  unfold nondecreasing; infer_instance

/-- A small solver used to evaluate the model: two states, row `0` = `{0 ↦ 1/2, 1 ↦ 1}`
(as a cdf), row `1` empty. -/
def demo (ev : Bool) (cutoff : SCALAR) : AdjointMcParallelReduce :=
  { value_count := 2
    d_mc_data :=
      { H := [1/2, 1/3], P := [1/2, 1], W := [2, 3], inds := [0, 1], offsets := [0, 2, 2] }
    d_coeffs := [1, 1/2, 1/4]
    d_start_cdf := [0, 0]
    d_start_wt := [0, 0]
    d_num_histories := 2
    d_max_history_length := 2
    d_use_expected_value := ev
    d_start_wt_factor := 1
    d_wt_cutoff := cutoff }

/-- The solver `demo ev cutoff` after `build_initial_distribution` on `x = [3, -1]` with
exponent `1`: start cdf `[3/4, 1]`, start weights `[4, -4]`. -/
def demo_started (ev : Bool) (cutoff : SCALAR) : AdjointMcParallelReduce :=
  { demo ev cutoff with d_start_cdf := [3/4, 1], d_start_wt := [4, -4] }

/-- The power `pow(a, p)` for an exponent `p` that is a natural number; it instantiates
the parameter `pow` where the model is evaluated. -/
def pow_nat (a p : SCALAR) : SCALAR :=
  a ^ p.num.toNat

/-- A pool whose generators all draw `1/4` for ever. -/
def demo_pool : ℕ → generator_type :=
  fun _ _ => 1/4

/-- The vector added by one call of `tallyContribution`. -/
def tally_delta (ev : Bool) (state : ℤ) (wt : SCALAR) (h_vals : List SCALAR)
    (inds : List ℤ) (row_length : ℤ) (j : ℕ) : SCALAR :=
  if ev then
    ∑ k in Finset.range row_length.toNat,
      (if (j : ℤ) = inds.getD k 0 then wt * h_vals.getD k 0 else 0)
  else if (j : ℤ) = state then wt else 0

/-- A map on buffers of length `N` that keeps the length and adds a fixed vector `d`. -/
def Shift (N : ℕ) (F : List SCALAR → List SCALAR) (d : ℕ → SCALAR) : Prop :=
  ∀ y, y.length = N → (F y).length = N ∧ ∀ j, j < N → (F y).getD j 0 = y.getD j 0 + d j

/-- A fallible map on buffers of length `N` that always succeeds, keeps the length and
adds a fixed vector `d`. -/
def ShiftO (N : ℕ) (G : List SCALAR → Option (List SCALAR)) (d : ℕ → SCALAR) : Prop :=
  ∀ y, y.length = N →
    ∃ y1, G y = some y1 ∧ y1.length = N ∧ ∀ j, j < N → y1.getD j 0 = y.getD j 0 + d j

/-- How a round of the transport loop ends: at the stage cutoff, at the weight cutoff, on a
row sample of `-1`, or with a transition through the sampled row position. -/
inductive Leave where
  | stage_cutoff
  | weight_cutoff
  | absorbed
  | moved (new_ind : ℤ)
  deriving DecidableEq

/-- The record of one round of the transport loop: state, weight and stage at its tally,
and the way the round ends. -/
structure Round where
  /-- state at the tally -/
  state : ℤ
  /-- weight at the tally -/
  weight : SCALAR
  /-- stage at the tally -/
  stage : ℤ
  /-- how the round ends -/
  leave : Leave
  deriving DecidableEq

/-- The rounds of the loop `while(true)` of `operator()`: the same tests in the same order
as `transport`, recording every round in place of tallying it. -/
def transport_rounds (s : AdjointMcParallelReduce) :
    ℕ → ℤ → SCALAR → SCALAR → ℤ → generator_type → Option (List Round)
  | 0, _, _, _, _, _ => none
  | fuel + 1, state, weight, initial_weight, stage, gen =>
    let row := getNewRow s state
    if stage ≥ s.d_max_history_length then
      some [{ state := state, weight := weight, stage := stage, leave := Leave.stage_cutoff }]
    else if |weight / initial_weight| < s.d_wt_cutoff then
      some [{ state := state, weight := weight, stage := stage, leave := Leave.weight_cutoff }]
    else
      let new_ind := (getNewState row.p_vals row.row_length gen).1
      let gen1 := (getNewState row.p_vals row.row_length gen).2
      if new_ind = -1 then
        some [{ state := state, weight := weight, stage := stage, leave := Leave.absorbed }]
      else
        (transport_rounds s fuel (rd row.inds new_ind) (weight * rd row.w_vals new_ind)
          initial_weight (stage + 1) gen1).map
          (fun l => { state := state, weight := weight, stage := stage,
                      leave := Leave.moved new_ind } :: l)

/-- The stage at which a history starts: `1` under the expected-value estimator, `0` under
the collision estimator. -/
def start_stage (s : AdjointMcParallelReduce) : ℤ :=
  if s.d_use_expected_value then 1 else 0

/-- The rounds of one call of `operator()`: none when the history does not start. -/
def operator_rounds (s : AdjointMcParallelReduce) (gen : generator_type) :
    Option (List Round) :=
  let state := (getNewState s.d_start_cdf s.value_count gen).1
  let gen1 := (getNewState s.d_start_cdf s.value_count gen).2
  if state = -1 then some []
  else if |rd s.d_start_wt state| = 0 then some []
  else
    transport_rounds s ((s.d_max_history_length - start_stage s).toNat + 1) state
      (rd s.d_start_wt state) (rd s.d_start_wt state) (start_stage s) gen1

/-- The tallies of a list of rounds, applied to `y` in order. -/
def tally_rounds (s : AdjointMcParallelReduce) (l : List Round) (y : List SCALAR) :
    List SCALAR :=
  l.foldl (fun acc r => tally_step s r.state r.stage r.weight acc) y

/-- The entry of `W` by which a round multiplies the weight: `W[k]` on a transition
through row position `k`, `1` when the round ends the history. -/
def Round.factor (s : AdjointMcParallelReduce) (r : Round) : SCALAR :=
  match r.leave with
  | Leave.moved k => rd (getNewRow s r.state).w_vals k
  | _ => 1

/-- The round takes a transition. -/
def Round.moves (r : Round) : Bool :=
  match r.leave with
  | Leave.moved _ => true
  | _ => false

/-- The trivial 1x1 system of the spec (8): one state, one self-loop row with `P = [1]`,
`W = [1]`, `H = [1]`, coefficients `[c0, c1]`, collision estimator, no weight cutoff,
`max_history_length = 1`; `n` histories and exponent `p`. -/
def trivial_system (c0 c1 : SCALAR) (n : ℤ) (p : SCALAR) : AdjointMcParallelReduce :=
  { value_count := 1
    d_mc_data := { H := [1], P := [1], W := [1], inds := [0], offsets := [0, 1] }
    d_coeffs := [c0, c1]
    d_start_cdf := [0]
    d_start_wt := [0]
    d_num_histories := n
    d_max_history_length := 1
    d_use_expected_value := false
    d_start_wt_factor := p
    d_wt_cutoff := 0 }

/-- The trivial system after `build_initial_distribution` on `x = [x0]`: start cdf `[1]`,
start weight `[x0]`. -/
def trivial_started (c0 c1 : SCALAR) (n : ℤ) (p x0 : SCALAR) : AdjointMcParallelReduce :=
  { trivial_system c0 c1 n p with d_start_cdf := [1], d_start_wt := [x0] }

/-- The entries of the Teuchos parameter list that the two solvers read; `none` is an
entry that is not set, for which `get` returns the default given in the call. -/
structure ParameterList where
  /-- seed of the random pool -/
  random_seed : Option ℤ
  /-- number of histories -/
  num_histories : Option ℤ
  /-- name of the estimator -/
  estimator : Option String
  /-- exponent of the start distribution -/
  start_weight_factor : Option SCALAR
  /-- relative weight cutoff -/
  weight_cutoff : Option SCALAR
  /-- verbosity -/
  verbosity : Option String

/-- Modelled from the spec: the macro `VALIDATE` of the design-by-contract header is not
among the sources.  The spec (4.5, 7) makes a failed validation a fatal configuration
error, reported before any simulation work starts: the check yields `none` and nothing
after it runs. -/
def VALIDATE (c : Bool) : Option Unit :=
  if c then some () else none

/-- The constructor of `AdjointMcParallelReduce`: the member initialisers, then the
parameters read from the list with their defaults, with the estimator validated.  (The
seed and the verbosity only feed the random pool and the printing.) -/
def AdjointMcParallelReduce.construct (mc_data : MC_Data_View) (coeffs : List SCALAR)
    (pl : ParameterList) : Option AdjointMcParallelReduce :=
  let value_count := mc_data.offsets.length - 1
  let d_max_history_length : ℤ := (coeffs.length : ℤ) - 1
  let d_num_histories := pl.num_histories.getD 1000
  let estimator := pl.estimator.getD "expected_value"
  (VALIDATE (decide (estimator = "collision" ∨ estimator = "expected_value"))).bind fun _ =>
    some
      { value_count := value_count
        d_mc_data := mc_data
        d_coeffs := coeffs
        d_start_cdf := List.replicate value_count 0
        d_start_wt := List.replicate value_count 0
        d_num_histories := d_num_histories
        d_max_history_length := d_max_history_length
        d_use_expected_value := decide (estimator = "expected_value")
        d_start_wt_factor := pl.start_weight_factor.getD 1
        d_wt_cutoff := pl.weight_cutoff.getD 0 }

/-- The data members of `AdjointMcEventKernel` that its constructor and `solve` use. -/
structure AdjointMcEventKernel where
  /-- number of rows, `offsets.size()-1` -/
  d_N : ℕ
  /-- sparse-row view -/
  d_mc_data : MC_Data_View
  /-- polynomial coefficients -/
  d_coeffs : List SCALAR
  /-- start cdf, rebuilt by every solve -/
  d_start_cdf : List SCALAR
  /-- start weights, rebuilt by every solve -/
  d_start_wt : List SCALAR
  /-- number of histories of a solve -/
  d_num_histories : ℤ
  /-- largest stage, `d_coeffs.size()-1` -/
  d_max_history_length : ℤ
  /-- estimator flag -/
  d_use_expected_value : Bool
  /-- exponent of the start distribution -/
  d_start_wt_factor : SCALAR

/-- The constructor of `AdjointMcEventKernel`: as for the fused solver, with a second
validation that rejects the expected-value estimator; no weight cutoff is read. -/
def AdjointMcEventKernel.construct (mc_data : MC_Data_View) (coeffs : List SCALAR)
    (pl : ParameterList) : Option AdjointMcEventKernel :=
  let d_N := mc_data.offsets.length - 1
  let d_max_history_length : ℤ := (coeffs.length : ℤ) - 1
  let d_num_histories := pl.num_histories.getD 1000
  let estimator := pl.estimator.getD "expected_value"
  (VALIDATE (decide (estimator = "collision" ∨ estimator = "expected_value"))).bind fun _ =>
    let d_use_expected_value : Bool := decide (estimator = "expected_value")
    (VALIDATE (!d_use_expected_value)).bind fun _ =>
      some
        { d_N := d_N
          d_mc_data := mc_data
          d_coeffs := coeffs
          d_start_cdf := List.replicate d_N 0
          d_start_wt := List.replicate d_N 0
          d_num_histories := d_num_histories
          d_max_history_length := d_max_history_length
          d_use_expected_value := d_use_expected_value
          d_start_wt_factor := pl.start_weight_factor.getD 1 }

/-- A parameter list that sets only the estimator. -/
def estimator_only (e : Option String) : ParameterList :=
  { random_seed := none, num_histories := none, estimator := e,
    start_weight_factor := none, weight_cutoff := none, verbosity := none }

/-- Modelled from the spec: the sampler of spec 4.1 as the kernels of the event shape call
it, the draw being handed in (their source, `MC_Components.hh`, is not among the sources):
the search of `lower_bound`, `-1` for NONE. -/
def sample (cdf : List SCALAR) (cdf_length : ℤ) (rand : SCALAR) : ℤ :=
  if lower_bound cdf cdf_length rand = cdf_length then -1 else lower_bound cdf cdf_length rand

/-- Modelled from the spec: one entry of `History_Data` (`MC_Components.hh`, not among the
sources), the history state of spec 3: state index (`-1`, NONE, once the history has
terminated), weight and stage. -/
structure History where
  /-- current state, `-1` when terminated -/
  state : ℤ
  /-- current weight -/
  weight : SCALAR
  /-- current stage -/
  stage : ℤ
  deriving DecidableEq

/-- Modelled from the spec: the kernel `InitHistory` (`MC_Components.hh`, not among the
sources) for one history, spec 4.3 SAMPLING_START: sample the start cdf with the draw of
the history; on NONE or a zero start weight the history is terminated, otherwise it starts
with the start weight at stage `0` (collision estimator). -/
def InitHistory (rand : SCALAR) (start_cdf start_wt : List SCALAR) : History :=
  let state := sample start_cdf start_cdf.length rand
  if state = -1 then { state := -1, weight := 0, stage := 0 }
  else if |rd start_wt state| = 0 then { state := -1, weight := 0, stage := 0 }
  else { state := state, weight := rd start_wt state, stage := 0 }

/-- Modelled from the spec: the kernel `StateTransition` (`MC_Components.hh`, not among the
sources) for one history, spec 4.3 TRANSPORTING steps 4 and 5: a terminated history stays
as it is; a live one samples the cdf of its row with its draw, terminates on NONE, and
otherwise multiplies its weight by `W[k]`, moves to `inds[k]` and raises its stage.  The
kernel is constructed from the draws, the history data and the matrix view only. -/
def StateTransition (mc_data : MC_Data_View) (rand : SCALAR) (h : History) : History :=
  if h.state = -1 then h
  else
    let off := rd mc_data.offsets h.state
    let row_length := rd mc_data.offsets (h.state + 1) - off
    let new_ind := sample (mc_data.P.drop off.toNat) row_length rand
    if new_ind = -1 then { h with state := -1 }
    else
      { state := rd (mc_data.inds.drop off.toNat) new_ind
        weight := h.weight * rd (mc_data.W.drop off.toNat) new_ind
        stage := h.stage + 1 }

/-- Modelled from the spec: the kernel `CollisionTally` (`MC_Components.hh`, not among the
sources) for one history, spec 4.3 step 2: a live history adds `coeffs[stage] * weight` to
the output entry of its state. -/
def CollisionTally (coeffs : List SCALAR) (h : History) (y : List SCALAR) : List SCALAR :=
  if h.state = -1 then y else add_at y h.state (rd coeffs h.stage * h.weight)

/-- The call `Kokkos::parallel_for(policy,coll_tally)`: the tally of every history, the
atomic additions taken in the order of the histories. -/
def tally_all (coeffs : List SCALAR) (hist : List History) (y : List SCALAR) : List SCALAR :=
  hist.foldl (fun acc h => CollisionTally coeffs h acc) y

/-- The call `Kokkos::parallel_for(policy,transition)` after `fill_random`: history `i`
moves with the draw `randoms i`. -/
def transition_all (mc_data : MC_Data_View) (randoms : ℕ → SCALAR) (n : ℕ)
    (hist : List History) : List History :=
  List.zipWith (fun i h => StateTransition mc_data (randoms i) h) (List.range n) hist

/-- The fused solver with the data of an event-kernel solver and a given weight cutoff. -/
def AdjointMcEventKernel.as_fused (k : AdjointMcEventKernel) (cutoff : SCALAR) :
    AdjointMcParallelReduce :=
  { value_count := k.d_N
    d_mc_data := k.d_mc_data
    d_coeffs := k.d_coeffs
    d_start_cdf := k.d_start_cdf
    d_start_wt := k.d_start_wt
    d_num_histories := k.d_num_histories
    d_max_history_length := k.d_max_history_length
    d_use_expected_value := k.d_use_expected_value
    d_start_wt_factor := k.d_start_wt_factor
    d_wt_cutoff := cutoff }

/-- The builder `AdjointMcEventKernel::build_initial_distribution`: the text of the fused
builder with `d_N` for `value_count`, embedded through it. -/
def AdjointMcEventKernel.build_initial_distribution (pow : SCALAR → SCALAR → SCALAR)
    (k : AdjointMcEventKernel) (x : List SCALAR) : Option AdjointMcEventKernel :=
  (alea.build_initial_distribution pow (k.as_fused 0) x).map fun s1 =>
    { k with d_start_cdf := s1.d_start_cdf, d_start_wt := s1.d_start_wt }

/-- The rounds of `AdjointMcEventKernel::solve` between the start distribution and the
scaling: the initial states and their tally, then for `i = 1 .. d_max_history_length` a
transition of all histories and a tally.  Round `i` fills `randoms` afresh: history `j`
gets the draw number `i` of its stream `pool j`. -/
def AdjointMcEventKernel.run (k : AdjointMcEventKernel) (pool : ℕ → generator_type) :
    List History × List SCALAR :=
  let n := k.d_num_histories.toNat
  let y_device := List.replicate k.d_N (0 : SCALAR)
  let hist0 := (List.range n).map (fun j => InitHistory (pool j 0) k.d_start_cdf k.d_start_wt)
  let y0 := tally_all k.d_coeffs hist0 y_device
  (List.range' 1 k.d_max_history_length.toNat).foldl
    (fun p i =>
      let hist1 := transition_all k.d_mc_data (fun j => pool j i) n p.1
      (hist1, tally_all k.d_coeffs hist1 p.2))
    (hist0, y0)

/-- The orchestrator `AdjointMcEventKernel::solve`; the result is the solver after the
call (`none` after a fatal failure) and the vector `y` as the caller finds it. -/
def AdjointMcEventKernel.solve (pow : SCALAR → SCALAR → SCALAR)
    (pool : ℕ → generator_type) (k : AdjointMcEventKernel) (x y : List SCALAR) :
    Option AdjointMcEventKernel × List SCALAR :=
  match k.build_initial_distribution pow x with
  | none => (none, y)
  | some k1 =>
    let y_mirror := (k1.run pool).2
    let scale_factor : SCALAR := 1 / (k1.d_num_histories : SCALAR)
    let y1 := (List.range k1.d_N).foldl
      (fun acc i => acc.set i (scale_factor * y_mirror.getD i 0)) y
    if k1.d_use_expected_value then
      (some k1, update (rd k1.d_coeffs 0) x 1 y1)
    else (some k1, y1)

/-- The state of a history of the event shape after `r` transitions, for the start state
`h` and the draws `g 0, g 1, ...` of its transitions. -/
def walk (mc_data : MC_Data_View) (g : generator_type) (h : History) : ℕ → History
  | 0 => h
  | r + 1 => StateTransition mc_data (g r) (walk mc_data g h r)

/-- The amount that the tally of a history in state `h` adds to output entry `j`. -/
def History.tally (coeffs : List SCALAR) (h : History) (j : ℕ) : SCALAR :=
  if h.state = -1 then 0 else if (j : ℤ) = h.state then rd coeffs h.stage * h.weight else 0

/-- The data of the solver `demo false cutoff` as an event-kernel solver (which has no
cutoff). -/
def demo_event : AdjointMcEventKernel :=
  { d_N := 2
    d_mc_data :=
      { H := [1/2, 1/3], P := [1/2, 1], W := [2, 3], inds := [0, 1], offsets := [0, 2, 2] }
    d_coeffs := [1, 1/2, 1/4]
    d_start_cdf := [0, 0]
    d_start_wt := [0, 0]
    d_num_histories := 2
    d_max_history_length := 2
    d_use_expected_value := false
    d_start_wt_factor := 1 }

/-- The matrix view of the solver `demo`. -/
def demo_data : MC_Data_View :=
  { H := [1/2, 1/3], P := [1/2, 1], W := [2, 3], inds := [0, 1], offsets := [0, 2, 2] }

/-- A parameter list with two histories, the collision estimator and a weight cutoff. -/
def demo_pl (cutoff : SCALAR) : ParameterList :=
  { random_seed := none, num_histories := some 2, estimator := some "collision",
    start_weight_factor := none, weight_cutoff := some cutoff, verbosity := none }


/-- The round evaluates the weight-cutoff test `abs(weight/initial_weight) < d_wt_cutoff`:
every round but one that has already left at the stage cutoff. -/
def Round.tests_cutoff (r : Round) : Bool :=
  match r.leave with
  | Leave.stage_cutoff => false
  | _ => true

/-- The quotients `weight/initial_weight` of the loop `while(true)` of `operator()`: the
same tests in the same order as `transport`, recording the pair `(weight, initial_weight)`
at every evaluation of the weight-cutoff test in place of tallying. -/
def transport_ratios (s : AdjointMcParallelReduce) :
    ℕ → ℤ → SCALAR → SCALAR → ℤ → generator_type → Option (List (SCALAR × SCALAR))
  | 0, _, _, _, _, _ => none
  | fuel + 1, state, weight, initial_weight, stage, gen =>
    let row := getNewRow s state
    if stage ≥ s.d_max_history_length then some []
    else if |weight / initial_weight| < s.d_wt_cutoff then some [(weight, initial_weight)]
    else
      let new_ind := (getNewState row.p_vals row.row_length gen).1
      let gen1 := (getNewState row.p_vals row.row_length gen).2
      if new_ind = -1 then some [(weight, initial_weight)]
      else
        (transport_ratios s fuel (rd row.inds new_ind) (weight * rd row.w_vals new_ind)
          initial_weight (stage + 1) gen1).map
          (fun l => (weight, initial_weight) :: l)

/-- The quotients `weight/initial_weight` evaluated by one call of `operator()`: none when
the history does not start. -/
def operator_ratios (s : AdjointMcParallelReduce) (gen : generator_type) :
    Option (List (SCALAR × SCALAR)) :=
  let state := (getNewState s.d_start_cdf s.value_count gen).1
  let gen1 := (getNewState s.d_start_cdf s.value_count gen).2
  if state = -1 then some []
  else if |rd s.d_start_wt state| = 0 then some []
  else
    let weight := rd s.d_start_wt state
    let initial_weight := weight
    let stage : ℤ := if s.d_use_expected_value then 1 else 0
    transport_ratios s ((s.d_max_history_length - stage).toNat + 1) state weight
      initial_weight stage gen1

/-- The solver `demo_started true 0` with the one-element coefficient sequence `[1]`, for
which the constructor sets `d_max_history_length = 0`. -/
def demo_single : AdjointMcParallelReduce :=
  { demo_started true 0 with d_coeffs := [1], d_max_history_length := 0 }

/-- The sparse-row view of the solver is well formed: `offsets` has `value_count + 1`
entries, starts at `0`, does not decrease and ends at the common length of `H`, `P`, `W` and
`inds`, and every entry of `inds` is a state of `[0, value_count)`. -/
def well_formed (s : AdjointMcParallelReduce) : Prop :=
  s.d_mc_data.offsets.length = s.value_count + 1 ∧
  s.d_mc_data.offsets.getD 0 0 = 0 ∧
  (∀ i : ℕ, i < s.value_count →
    s.d_mc_data.offsets.getD i 0 ≤ s.d_mc_data.offsets.getD (i + 1) 0) ∧
  s.d_mc_data.offsets.getD s.value_count 0 = (s.d_mc_data.inds.length : ℤ) ∧
  s.d_mc_data.H.length = s.d_mc_data.inds.length ∧
  s.d_mc_data.P.length = s.d_mc_data.inds.length ∧
  s.d_mc_data.W.length = s.d_mc_data.inds.length ∧
  ∀ e : ℤ, e ∈ s.d_mc_data.inds → 0 ≤ e ∧ e < s.value_count

instance (s : AdjointMcParallelReduce) : Decidable (well_formed s) := by
  unfold well_formed; infer_instance

/-- The round `r` with its weight multiplied by `c`. -/
def Round.scale (c : SCALAR) (r : Round) : Round :=
  { r with weight := c * r.weight }
end alea

/-!
Cross sections (`Matprop/xs/XS.cc`), the axial KDE kernel
(`MC/mc/Axial_KDE_Kernel.cc`) and the mesh geometry (`MC/geometry/Mesh_Geometry.hh`)

Hash tables are association lists keyed by the material id, sets are lists; a
`std::vector` is a list.  Scalars are rationals, as above.
-/

namespace profugus

/-- Modelled from the spec: the macro `REQUIRE` of the design-by-contract header is not
among the sources.  As for the other contract checks (spec 7, precondition failures), a
failed requirement is fatal: the check yields `none` and nothing after it runs. -/
def REQUIRE (c : Bool) : Option Unit :=
  if c then some () else none

/-- Modelled from the spec: the macro `CHECK` of the design-by-contract header is not among
the sources; it is taken as the other contract checks are, a failed check being fatal. -/
def CHECK (c : Bool) : Option Unit :=
  if c then some () else none

/-- The call `v.clear()` of a `std::vector`. -/
def vec_clear {α : Type} (_v : List α) : List α :=
  []

/-- The call `v.resize(n)` of a `std::vector`: the first `n` elements are kept and
value-initialised elements `d` fill up to `n`. -/
def vec_resize {α : Type} (v : List α) (n : ℕ) (d : α) : List α :=
  v.take n ++ List.replicate (n - v.length) d

/-- The hash table `Hash_Vector`: material id to a vector of group data. -/
abbrev Hash_Vector := List (ℤ × List ℚ)

/-- The hash table `Hash_Matrix`: material id to a group-to-group matrix. -/
abbrev Hash_Matrix := List (ℤ × List (List ℚ))

/-- A set of material ids. -/
abbrev Set_Int := List ℤ

/-- The data members of `XS`. -/
structure XS where
  /-- Pn order -/
  d_pn : ℤ
  /-- number of groups -/
  d_Ng : ℤ
  /-- number of materials -/
  d_Nm : ℕ
  /-- 1-D cross sections, one table per type -/
  d_totals : List Hash_Vector
  /-- scattering cross sections, one table per moment -/
  d_scatter : List Hash_Matrix
  /-- material ids inserted, per type -/
  d_inst_totals : List Set_Int
  /-- material ids inserted, per moment -/
  d_inst_scat : List Set_Int
  /-- group velocities -/
  d_v : List ℚ
  /-- group bounds -/
  d_bnds : List ℚ

/-- The member `XS::set`.  `END_XS_TYPES` is the last enumerator of the cross-section
types, declared in `XS.hh`; `d_v.size(n)` of a Teuchos dense vector gives a zero vector of
length `n`. -/
def XS.set (END_XS_TYPES : ℕ) (xs : XS) (Pn_order num_groups : ℤ) : Option XS :=
  (REQUIRE (decide (Pn_order ≥ 0))).bind fun _ =>
  (REQUIRE (decide (num_groups > 0))).bind fun _ =>
    let xs1 : XS := { xs with d_pn := Pn_order, d_Ng := num_groups, d_Nm := 0 }
    -- clear data
    let xs2 : XS := { xs1 with
      d_totals := vec_clear xs1.d_totals
      d_scatter := vec_clear xs1.d_scatter
      d_inst_totals := vec_clear xs1.d_inst_totals
      d_inst_scat := vec_clear xs1.d_inst_scat }
    -- resize totals
    let xs3 : XS := { xs2 with
      d_totals := vec_resize xs2.d_totals END_XS_TYPES []
      d_inst_totals := vec_resize xs2.d_inst_totals END_XS_TYPES [] }
    -- resize scattering order vector
    let xs4 : XS := { xs3 with
      d_scatter := vec_resize xs3.d_scatter (xs3.d_pn + 1).toNat []
      d_inst_scat := vec_resize xs3.d_inst_scat (xs3.d_pn + 1).toNat [] }
    -- resize velocities
    some { xs4 with
      d_v := List.replicate xs4.d_Ng.toNat 0
      d_bnds := List.replicate (xs4.d_Ng + 1).toNat 0 }

/-- An `XS` object holding data, used to evaluate the model. -/
def xs_demo : XS :=
  { d_pn := 1, d_Ng := 2, d_Nm := 1
    d_totals := [[(3, [1, 2])], []]
    d_scatter := [[(3, [[1, 0], [0, 1]])], []]
    d_inst_totals := [[3], []]
    d_inst_scat := [[3], []]
    d_v := [1, 2]
    d_bnds := [3, 2, 1] }

/-- A point `Space_Vector(x, y, z)`. -/
structure Space_Vector where
  /-- component `def::X` -/
  x : ℚ
  /-- component `def::Y` -/
  y : ℚ
  /-- component `def::Z` -/
  z : ℚ
  deriving DecidableEq

/-- The values of `geometry::Boundary_State`. -/
inductive Boundary_State where
  | INSIDE
  | OUTSIDE
  | REFLECT
  deriving DecidableEq

/-- The geometry interface used by the kernel: the queries on a point. -/
structure Geometry where
  /-- cell holding the point -/
  cell : Space_Vector → ℤ
  /-- material at the point -/
  matid : Space_Vector → ℕ
  /-- boundary state of the point -/
  boundary_state : Space_Vector → Boundary_State

/-- The physics interface used by the kernel. -/
structure Physics where
  /-- whether a material is fissionable -/
  is_fissionable : ℕ → Bool

/-- The members of `Axial_KDE_Kernel` and of its base that the sampling uses.  The two
counters are mutable members, changed by the `const` sampling functions. -/
structure Axial_KDE_Kernel where
  /-- geometry -/
  b_geometry : Geometry
  /-- physics -/
  b_physics : Physics
  /-- bandwidth of each cell -/
  b_bndwidth_map : List (ℤ × ℚ)
  /-- number of positions sampled -/
  b_num_sampled : ℕ
  /-- number of positions accepted -/
  b_num_accepted : ℕ

/-- How a sampling call ends: with a position, with the assertion thrown after the
rejections, or in a failed contract check. -/
inductive Sample_Result where
  | returned (pos : Space_Vector)
  | thrown
  | check_failed
  deriving DecidableEq

/-- The candidate built in a round: the original `X` and `Y`, and `Z` moved by
`epsilon*bandwidth/2.0`. -/
def new_pos (orig_position : Space_Vector) (epsilon bandwidth : ℚ) : Space_Vector :=
  { x := orig_position.x, y := orig_position.y,
    z := orig_position.z + epsilon * bandwidth / 2 }

/-- The loop `do ... while (failures != 1000)` of `sample_position_fiss_rej`, followed by
the statements after it.  The generator is the stream of the values that
`sampler::sample_epan(rng)` will return.  The first argument bounds the number of rounds;
`none` is returned only when it is used up. -/
def fiss_rej_loop (k : Axial_KDE_Kernel) (orig_position : Space_Vector) (cellid : ℤ) :
    ℕ → ℕ → (ℕ → ℚ) → Option (Sample_Result × Axial_KDE_Kernel)
  | 0, _, _ => none
  | fuel + 1, failures, rng =>
    -- Sample Epanechnikov kernel
    let epsilon := rng 0
    let rng1 : ℕ → ℚ := fun n => rng (n + 1)
    -- Get the bandwidth
    match CHECK (decide ((k.b_bndwidth_map.filter (fun e => e.1 = cellid)).length = 1)) with
    | none => some (Sample_Result.check_failed, k)
    | some _ =>
      let bandwidth := (k.b_bndwidth_map.lookup cellid).getD 0
      match CHECK (decide (bandwidth ≥ 0)) with
      | none => some (Sample_Result.check_failed, k)
      | some _ =>
        let p := new_pos orig_position epsilon bandwidth
        if k.b_geometry.boundary_state p = Boundary_State.INSIDE ∧
            k.b_physics.is_fissionable (k.b_geometry.matid p) = true then
          -- Accept: sampled point is fissionable
          some (Sample_Result.returned p,
            { k with b_num_sampled := k.b_num_sampled + (failures + 1)
                     b_num_accepted := k.b_num_accepted + 1 })
        else
          let failures1 := failures + 1
          if failures1 ≠ 1000 then
            fiss_rej_loop k orig_position cellid fuel failures1 rng1
          else
            -- No luck
            some (Sample_Result.thrown,
              { k with b_num_sampled := k.b_num_sampled + failures1 })

/-- The member `sample_position_fiss_rej`: the cell of the original position, then the
rejection loop from `failures = 0`, which has at most 1000 rounds. -/
def sample_position_fiss_rej (k : Axial_KDE_Kernel) (orig_position : Space_Vector)
    (rng : ℕ → ℚ) : Option (Sample_Result × Axial_KDE_Kernel) :=
  let cellid := k.b_geometry.cell orig_position
  fiss_rej_loop k orig_position cellid 1000 0 rng

/-- The candidate of round `n` is accepted: it is INSIDE the geometry and its material is
fissionable. -/
def accepted (k : Axial_KDE_Kernel) (orig_position : Space_Vector) (bandwidth : ℚ)
    (rng : ℕ → ℚ) (n : ℕ) : Prop :=
  k.b_geometry.boundary_state (new_pos orig_position (rng n) bandwidth) =
      Boundary_State.INSIDE ∧
    k.b_physics.is_fissionable
      (k.b_geometry.matid (new_pos orig_position (rng n) bandwidth)) = true

instance (k : Axial_KDE_Kernel) (orig_position : Space_Vector) (bandwidth : ℚ)
    (rng : ℕ → ℚ) (n : ℕ) : Decidable (accepted k orig_position bandwidth rng n) := by
  unfold accepted; infer_instance

/-- A kernel on a slab geometry, used to evaluate the model: one cell, INSIDE for
`0 ≤ z ≤ 10`, material `1` (fissionable) for `z ≥ 5` and material `0` below; bandwidth
`2`. -/
def kde_demo : Axial_KDE_Kernel :=
  { b_geometry :=
      { cell := fun _ => 7
        matid := fun p => if p.z ≥ 5 then 1 else 0
        boundary_state := fun p =>
          if 0 ≤ p.z ∧ p.z ≤ 10 then Boundary_State.INSIDE else Boundary_State.OUTSIDE }
    b_physics := { is_fissionable := fun m => decide (m = 1) }
    b_bndwidth_map := [(7, 2)]
    b_num_sampled := 10
    b_num_accepted := 4 }

/-- A stream of kernel samples: `-1` twice, then `1/2` for ever. -/
def kde_stream : ℕ → ℚ :=
  fun n => if n < 2 then -1 else 1/2

/-! ## The mesh geometry (`MC/geometry/Mesh_Geometry.hh`) -/

/-- The faces of a mesh state, `Geo_State_t::NONE` and the six faces that
`move_to_surface` names.  The header `Mesh_State.hh` that declares them is not among the
sources; the values of the enumerators enter the functions below as a parameter. -/
inductive Face where
  | NONE
  | MINUS_X
  | PLUS_X
  | MINUS_Y
  | PLUS_Y
  | MINUS_Z
  | PLUS_Z
  deriving DecidableEq

/-- A triple of cell indices along `def::I`, `def::J`, `def::K` (the type of `ijk`, of
`next_ijk` and of `extents`). -/
structure Dim_Vector where
  /-- component `def::I` -/
  I : ℤ
  /-- component `def::J` -/
  J : ℤ
  /-- component `def::K` -/
  K : ℤ
  deriving DecidableEq

/-- The members of `Mesh_State` (`Geo_State_t`) that the functions below read or write. -/
structure Mesh_State where
  /-- position -/
  d_r : Space_Vector
  /-- direction -/
  d_dir : Space_Vector
  /-- cell index -/
  ijk : Dim_Vector
  /-- cell index across the next surface -/
  next_ijk : Dim_Vector
  /-- distance to the next surface -/
  next_dist : ℚ
  /-- face through which the particle leaves -/
  exiting_face : Face
  /-- face on which the particle reflects -/
  reflecting_face : Face
  deriving DecidableEq

/-- The members of `Mesh_Geometry` that the functions below read: the extents
`d_mesh.extents()` of the underlying mesh and the reflecting flags. -/
structure Mesh_Geometry where
  /-- number of cells along each axis, `d_mesh.extents()` -/
  extents : Dim_Vector
  /-- reflecting flags, one per face -/
  d_reflect : List ℤ
  deriving DecidableEq

/-- The private member `move`.  The test
`soft_equiv(vector_magnitude(state.d_dir), 1.0, 1.0e-6)` is made of two functions that are
not among the sources; it is the parameter `unit_dir`, applied to the direction. -/
def Mesh_Geometry.move (unit_dir : Space_Vector → Bool) (dist : ℚ) (state : Mesh_State) :
    Option Mesh_State :=
  (REQUIRE (decide (dist ≥ 0))).bind fun _ =>
  (REQUIRE (unit_dir state.d_dir)).bind fun _ =>
    -- advance the particle (unrolled loop)
    some { state with
      d_r := { x := state.d_r.x + dist * state.d_dir.x
               y := state.d_r.y + dist * state.d_dir.y
               z := state.d_r.z + dist * state.d_dir.z } }

/-- The test `d_reflect[F - face_start]` of `move_to_surface`, with
`face_start = Geo_State_t::MINUS_X`; `face` gives the values of the enumerators.  A read
outside the vector yields `0`. -/
def Mesh_Geometry.reflects (face : Face → ℤ) (g : Mesh_Geometry) (F : Face) : Bool :=
  let face_start := face Face.MINUS_X
  if face F - face_start < 0 then false
  else decide (g.d_reflect.getD (face F - face_start).toNat 0 ≠ 0)

/-- One branch of the chain of `move_to_surface`: the exiting face is set to `F`, and the
reflecting face too when the flag of `F` is set. -/
def Mesh_Geometry.leave_through (face : Face → ℤ) (g : Mesh_Geometry) (F : Face)
    (state : Mesh_State) : Mesh_State :=
  let state1 := { state with exiting_face := F }
  if g.reflects face F then { state1 with reflecting_face := F } else state1

/-- The member `move_to_surface`: move by `next_dist`, reset the two faces, walk the chain
of tests on `next_ijk` (low side `< 0`, high side `== extents`, for `I`, `J`, `K` in turn),
and update the cell index when no reflecting face was set. -/
def Mesh_Geometry.move_to_surface (unit_dir : Space_Vector → Bool) (face : Face → ℤ)
    (g : Mesh_Geometry) (state : Mesh_State) : Option Mesh_State :=
  (Mesh_Geometry.move unit_dir state.next_dist state).bind fun state0 =>
    -- Set exiting and reflecting faces
    let state1 := { state0 with exiting_face := Face.NONE, reflecting_face := Face.NONE }
    let extents := g.extents
    let state2 :=
      if state1.next_ijk.I < 0 then g.leave_through face Face.MINUS_X state1
      else if state1.next_ijk.I = extents.I then g.leave_through face Face.PLUS_X state1
      else if state1.next_ijk.J < 0 then g.leave_through face Face.MINUS_Y state1
      else if state1.next_ijk.J = extents.J then g.leave_through face Face.PLUS_Y state1
      else if state1.next_ijk.K < 0 then g.leave_through face Face.MINUS_Z state1
      else if state1.next_ijk.K = extents.K then g.leave_through face Face.PLUS_Z state1
      else state1
    -- If we're not reflecting, update cell index
    if state2.reflecting_face = Face.NONE then some { state2 with ijk := state2.next_ijk }
    else some state2

/-- The member `boundary_state` on a mesh state. -/
def Mesh_Geometry.boundary_state (g : Mesh_Geometry) (state : Mesh_State) : Boundary_State :=
  let extents := g.extents
  if state.reflecting_face ≠ Face.NONE then Boundary_State.REFLECT
  else if state.ijk.I = -1 ∨ state.ijk.J = -1 ∨ state.ijk.K = -1 ∨
      state.ijk.I = extents.I ∨ state.ijk.J = extents.J ∨ state.ijk.K = extents.K then
    Boundary_State.OUTSIDE
  else Boundary_State.INSIDE

/-- Enumerator values used to evaluate the model: the six faces in the order of the flags,
from `0`, and `NONE` after them. -/
def face_demo : Face → ℤ
  | Face.MINUS_X => 0
  | Face.PLUS_X => 1
  | Face.MINUS_Y => 2
  | Face.PLUS_Y => 3
  | Face.MINUS_Z => 4
  | Face.PLUS_Z => 5
  | Face.NONE => 6

/-- A `2 x 2 x 2` mesh geometry whose low `x` face reflects. -/
def mesh_demo : Mesh_Geometry :=
  { extents := { I := 2, J := 2, K := 2 }, d_reflect := [1, 0, 0, 0, 0, 0] }

/-- A state in cell `(0, 1, 1)` about to leave through the low `x` face. -/
def mesh_state_demo : Mesh_State :=
  { d_r := { x := 1/2, y := 3/2, z := 3/2 }
    d_dir := { x := -1, y := 0, z := 0 }
    ijk := { I := 0, J := 1, K := 1 }
    next_ijk := { I := -1, J := 1, K := 1 }
    next_dist := 1/2
    exiting_face := Face.NONE
    reflecting_face := Face.NONE }

/-- The direction has unit length (the exact form of the `soft_equiv` test, used to
evaluate the model). -/
def unit_dir_demo (d : Space_Vector) : Bool :=
  decide (d.x * d.x + d.y * d.y + d.z * d.z = 1)

/-! ## Adding cross sections (`Matprop/xs/XS.cc`) -/

/-- Modelled from the spec: the macro `ENSURE` of the design-by-contract header is not
among the sources; as for the other contract checks (spec 7), a failed check is fatal. -/
def ENSURE (c : Bool) : Option Unit :=
  if c then some () else none

/-- The call `s.count(matid)` of a set of material ids. -/
def set_count (s : Set_Int) (matid : ℤ) : ℕ :=
  if matid ∈ s then 1 else 0

/-- The call `s.insert(matid)` of a set of material ids. -/
def set_insert (s : Set_Int) (matid : ℤ) : Set_Int :=
  if matid ∈ s then s else s ++ [matid]

/-- The call `h.insert(value_type(matid, v))` of a hash table that is not yet completed:
the pair joins the items of the table. -/
def hash_insert {β : Type} (h : List (ℤ × β)) (item : ℤ × β) : List (ℤ × β) :=
  h ++ [item]

/-- The element `v[i]` of a `std::vector` of tables, for an `int` index. -/
def vec_get {α : Type} (v : List (List α)) (i : ℤ) : List α :=
  if i < 0 then [] else v.getD i.toNat []

/-- The assignment to the element `v[i]` of a `std::vector` of tables. -/
def vec_put {α : Type} (v : List (List α)) (i : ℤ) (a : List α) : List (List α) :=
  if i < 0 then v else v.set i.toNat a

/-- The member `XS::add` for 1-D cross sections (`OneDArray` data).  `END_XS_TYPES` is the
last enumerator of the cross-section types, declared in `XS.hh`. -/
def XS.add (END_XS_TYPES : ℕ) (xs : XS) (matid type : ℤ) (data : List ℚ) : Option XS :=
  (REQUIRE (decide ((data.length : ℤ) = xs.d_Ng))).bind fun _ =>
  (REQUIRE (decide (type < END_XS_TYPES))).bind fun _ =>
  (REQUIRE (decide (xs.d_totals.length = END_XS_TYPES))).bind fun _ =>
  (REQUIRE (decide (xs.d_inst_totals.length = END_XS_TYPES))).bind fun _ =>
  (REQUIRE (decide (¬ set_count (vec_get xs.d_inst_totals type) matid ≠ 0))).bind fun _ =>
    -- make a new denseVector to hold the data
    let v := data
    -- insert into hash table based on type
    let xs1 : XS := { xs with
      d_totals := vec_put xs.d_totals type (hash_insert (vec_get xs.d_totals type) (matid, v)) }
    -- indicate that this data has been inserted
    let xs2 : XS := { xs1 with
      d_inst_totals :=
        vec_put xs1.d_inst_totals type (set_insert (vec_get xs1.d_inst_totals type) matid) }
    (ENSURE (decide (set_count (vec_get xs2.d_inst_totals type) matid ≠ 0))).bind fun _ =>
      some xs2

/-- A `Teuchos::TwoDArray<double>`: its two dimensions and its entries by row. -/
structure TwoDArray where
  /-- number of rows -/
  numRows : ℤ
  /-- number of columns -/
  numCols : ℤ
  /-- the rows -/
  rows : List (List ℚ)
  deriving DecidableEq

/-- The entry `data(i, j)` of a `TwoDArray`. -/
def TwoDArray.at (data : TwoDArray) (i j : ℕ) : ℚ :=
  (data.rows.getD i []).getD j 0

/-- The member `XS::add` for scattering cross sections (`TwoDArray` data), the second
overload of `add`.  The fifth requirement reads `d_inst_scat[d_pn]`, as the source does.
The matrix is filled entry by entry and stored by rows here. -/
def XS.add_scattering (xs : XS) (matid pn : ℤ) (data : TwoDArray) : Option XS :=
  (REQUIRE (decide (data.numRows = data.numCols))).bind fun _ =>
  (REQUIRE (decide (data.numRows = xs.d_Ng))).bind fun _ =>
  (REQUIRE (decide (pn ≤ xs.d_pn))).bind fun _ =>
  (REQUIRE (decide ((xs.d_scatter.length : ℤ) = xs.d_pn + 1))).bind fun _ =>
  (REQUIRE (decide (¬ set_count (vec_get xs.d_inst_scat xs.d_pn) matid ≠ 0))).bind fun _ =>
    -- make a new matrix to hold data
    let m : List (List ℚ) :=
      (List.range xs.d_Ng.toNat).map fun i =>
        (List.range xs.d_Ng.toNat).map fun j => data.at i j
    -- insert into the hash table
    let xs1 : XS := { xs with
      d_scatter := vec_put xs.d_scatter pn (hash_insert (vec_get xs.d_scatter pn) (matid, m)) }
    -- indicate that this data has been inserted
    let xs2 : XS := { xs1 with
      d_inst_scat :=
        vec_put xs1.d_inst_scat pn (set_insert (vec_get xs1.d_inst_scat pn) matid) }
    (ENSURE (decide (set_count (vec_get xs2.d_inst_scat pn) matid ≠ 0))).bind fun _ =>
      some xs2

/-- The `1 x 1` scattering data `[[1]]`, used to evaluate the model. -/
def scat_demo : TwoDArray :=
  { numRows := 1, numCols := 1, rows := [[1]] }

/-- An empty `XS` object, before `set`. -/
def xs_empty : XS :=
  { d_pn := 0, d_Ng := 0, d_Nm := 0, d_totals := [], d_scatter := [], d_inst_totals := []
    d_inst_scat := [], d_v := [], d_bnds := [] }

end profugus

/-!
The Cartesian mesh of the device geometry (`MC/cuda_geometry/Cartesian_Mesh.hh`)

`dim_type` is `int`: a value of the 32-bit two's complement integers, the result of an
`int` operation being wrapped into that range (`to_int`).  The header that declares
`cell_type` (`geometry/Definitions.hh`) is not among the sources: a cell index is an
integer, and the conversion of an `int` value to `cell_type` is the parameter `to_cell`.
A division by zero is a failure.
-/

namespace cuda_profugus

/-- The macros `DEVICE_REQUIRE` and `DEVICE_ENSURE` of `cuda_utils/CudaDBC.hh`, which is not
among the sources: a contract check that is fatal when it fails and the checks are compiled
in (`dbc = true`), and that does nothing when they are compiled out. -/
def DEVICE_REQUIRE (dbc : Bool) (c : Bool) : Option Unit :=
  if dbc && !c then none else some ()

/-- The macro `DEVICE_ENSURE`, see `DEVICE_REQUIRE`. -/
def DEVICE_ENSURE (dbc : Bool) (c : Bool) : Option Unit :=
  if dbc && !c then none else some ()

/-- The members of `Cartesian_Mesh` that the index conversions read. -/
structure Cartesian_Mesh where
  /-- number of cells along `x` -/
  d_cells_x : ℤ
  /-- number of cells along `y` -/
  d_cells_y : ℤ
  /-- number of cells along `z` -/
  d_cells_z : ℤ
  /-- total number of cells -/
  d_num_cells : ℤ
  deriving DecidableEq

/-- The value of an integer as an `int`: wrapped into `[-2^31, 2^31)`. -/
def to_int (z : ℤ) : ℤ :=
  (z + 2 ^ 31) % 2 ^ 32 - 2 ^ 31

/-- The sum of two `int` values, an `int`. -/
def int_add (a b : ℤ) : ℤ :=
  to_int (a + b)

/-- The product of two `int` values, an `int`. -/
def int_mul (a b : ℤ) : ℤ :=
  to_int (a * b)

/-- The member `cardinal`: the triple `(i, j, k)` of a cell index.  The products of the
cell counts are `int` products; in `cell / (...)` and `cell % (...)` the `int` operand is
converted to `cell_type`, and the results are converted to `int` when they are assigned to
`k`, `j` and `i`.  The division and the remainder are those of C++, which round towards
zero; a zero divisor ends the call in a failure. -/
def Cartesian_Mesh.cardinal (dbc : Bool) (to_cell : ℤ → ℤ) (m : Cartesian_Mesh) (cell : ℤ) :
    Option (ℤ × ℤ × ℤ) :=
  (DEVICE_REQUIRE dbc (decide (cell < m.d_num_cells))).bind fun _ =>
    let dxy := to_cell (int_mul m.d_cells_x m.d_cells_y)
    if dxy = 0 then none
    else
      let k := to_int (cell.tdiv dxy)
      (DEVICE_ENSURE dbc (decide (k < m.d_cells_z))).bind fun _ =>
        let cell1 := cell.tmod dxy
        let dx := to_cell m.d_cells_x
        if dx = 0 then none
        else
          let j := to_int (cell1.tdiv dx)
          (DEVICE_ENSURE dbc (decide (j < m.d_cells_y))).bind fun _ =>
            let i := to_int (cell1.tmod dx)
            (DEVICE_ENSURE dbc (decide (i < m.d_cells_x))).bind fun _ =>
              some (i, j, k)

/-- The member `index`: the returned flag and the value left in `cell`.  The expression
`i + d_cells_x * (j + d_cells_y * k)` is evaluated in `int` and converted to `cell_type`
by the assignment. -/
def Cartesian_Mesh.index (dbc : Bool) (to_cell : ℤ → ℤ) (m : Cartesian_Mesh) (i j k : ℤ) :
    Option (Bool × ℤ) :=
  (DEVICE_REQUIRE dbc (decide (i < m.d_cells_x))).bind fun _ =>
  (DEVICE_REQUIRE dbc (decide (j < m.d_cells_y))).bind fun _ =>
  (DEVICE_REQUIRE dbc (decide (k < m.d_cells_z))).bind fun _ =>
    if i < m.d_cells_x ∧ j < m.d_cells_y ∧ k < m.d_cells_z then
      let cell :=
        to_cell (int_add i (int_mul m.d_cells_x (int_add j (int_mul m.d_cells_y k))))
      (DEVICE_ENSURE dbc (decide (cell < m.d_num_cells))).bind fun _ =>
        some (true, cell)
    else some (false, to_cell (-1))

/-- The conversion to an unsigned `cell_type` of `w` bits. -/
def to_unsigned (w : ℕ) (z : ℤ) : ℤ :=
  z % 2 ^ w

/-- A `2 x 2 x 1` mesh, used to evaluate the model. -/
def mesh_221 : Cartesian_Mesh :=
  { d_cells_x := 2, d_cells_y := 2, d_cells_z := 1, d_num_cells := 4 }

/-- A `65536 x 65536 x 1` mesh with `num_cells = 2^32`, used to evaluate the model: the
product of its first two cell counts does not fit an `int`. -/
def mesh_wide : Cartesian_Mesh :=
  { d_cells_x := 65536, d_cells_y := 65536, d_cells_z := 1, d_num_cells := 4294967296 }

end cuda_profugus

namespace alea

/-! ## The sampler -/

theorem lower_bound_loop_spec (cdf : List SCALAR) (val : SCALAR) (L : ℕ)
    (hs : nondecreasing cdf L) :
    ∀ (fuel first count : ℕ), count ≤ fuel → first + count ≤ L →
      (∀ i, i < first → cdf.getD i 0 ≤ val) →
      (∀ i, first + count ≤ i → i < L → val < cdf.getD i 0) →
      first ≤ lower_bound_loop cdf val fuel first count ∧
      lower_bound_loop cdf val fuel first count ≤ first + count ∧
      (∀ i, i < lower_bound_loop cdf val fuel first count → cdf.getD i 0 ≤ val) ∧
      (∀ i, lower_bound_loop cdf val fuel first count ≤ i → i < L →
        val < cdf.getD i 0) := by
  intro fuel
  induction fuel with
  | zero =>
    intro first count hc hL hlo hhi
    have hc0 : count = 0 := Nat.le_zero.mp hc
    subst hc0
    simp only [lower_bound_loop]
    exact ⟨le_rfl, by omega, hlo, fun i h1 h2 => hhi i (by omega) h2⟩
  | succ fuel ih =>
    intro first count hc hL hlo hhi
    unfold lower_bound_loop
    by_cases hc0 : count = 0
    · subst hc0
      simp only [if_true]
      exact ⟨le_rfl, by omega, hlo, fun i h1 h2 => hhi i (by omega) h2⟩
    · simp only [hc0, if_false]
      have hstep : count / 2 < count := Nat.div_lt_self (Nat.pos_of_ne_zero hc0) (by decide)
      by_cases hle : cdf.getD (first + count / 2) 0 ≤ val
      · simp only [hle, if_true]
        have h := ih (first + count / 2 + 1) (count - (count / 2 + 1)) (by omega) (by omega)
          (fun i hi => le_trans (hs (first + count / 2) (by omega) i (by omega)) hle)
          (fun i h1 h2 => hhi i (by omega) h2)
        refine ⟨by omega, by omega, h.2.2.1, h.2.2.2⟩
      · simp only [hle, if_false]
        have hlt : val < cdf.getD (first + count / 2) 0 := lt_of_not_le hle
        have h := ih first (count / 2) (by omega) (by omega) hlo
          (fun i h1 h2 => lt_of_lt_of_le hlt (hs i h2 (first + count / 2) h1))
        refine ⟨h.1, by omega, h.2.2.1, h.2.2.2⟩

theorem lower_bound_spec (cdf : List SCALAR) (val : SCALAR) (L : ℕ)
    (hs : nondecreasing cdf L) :
    ∃ r : ℕ, lower_bound cdf L val = r ∧ r ≤ L ∧
      (∀ i, i < r → cdf.getD i 0 ≤ val) ∧ (∀ i, r ≤ i → i < L → val < cdf.getD i 0) := by
  have h := lower_bound_loop_spec cdf val L hs L 0 L le_rfl (by omega)
    (fun i hi => absurd hi (Nat.not_lt_zero i)) (fun i h1 h2 => by omega)
  refine ⟨lower_bound_loop cdf val L 0 L, ?_, by omega, h.2.2.1, h.2.2.2⟩
  simp [lower_bound]


theorem getNewState_fst (cdf : List SCALAR) (L : ℕ) (gen : generator_type)
    (hs : nondecreasing cdf L) :
    ∃ r : ℕ, r ≤ L ∧ (∀ i, i < r → cdf.getD i 0 ≤ gen 0) ∧
      (∀ i, r ≤ i → i < L → gen 0 < cdf.getD i 0) ∧
      (getNewState cdf L gen).1 = if r = L then -1 else (r : ℤ) := by
  obtain ⟨r, hr, hrL, hlo, hhi⟩ := lower_bound_spec cdf (gen 0) L hs
  refine ⟨r, hrL, hlo, hhi, ?_⟩
  simp only [getNewState, draw, hr]
  by_cases h : r = L
  · simp [h]
  · have h2 : ¬ ((r : ℤ) = (L : ℤ)) := fun hc => h (by exact_mod_cast hc)
    simp [h, h2]

/-- C1: on a non-decreasing cdf of length `L` and a draw in `[0,1)` (only `0 ≤ draw` is
used), an index returned by `getNewState` other than `-1` is the smallest index whose cdf
value is greater than the draw, so `cdf[i-1] ≤ draw < cdf[i]` with `cdf[-1]` read as `0`. -/
theorem getNewState_smallest_index_above_draw (cdf : List SCALAR) (L : ℕ)
    (gen : generator_type) (hs : nondecreasing cdf L)
    (h0 : 0 ≤ (draw gen).1)
    (hne : (getNewState cdf L gen).1 ≠ -1) :
    ∃ i : ℕ, (getNewState cdf L gen).1 = i ∧ i < L ∧ (draw gen).1 < cdf.getD i 0 ∧
      (∀ j : ℕ, j < L → (draw gen).1 < cdf.getD j 0 → i ≤ j) ∧
      (if i = 0 then 0 else cdf.getD (i - 1) 0) ≤ (draw gen).1 := by
  obtain ⟨r, hrL, hlo, hhi, hres⟩ := getNewState_fst cdf L gen hs
  by_cases h : r = L
  · rw [hres, if_pos h] at hne
    exact absurd rfl hne
  · rw [if_neg h] at hres
    have hlt : r < L := lt_of_le_of_ne hrL h
    refine ⟨r, hres, hlt, hhi r le_rfl hlt, ?_, ?_⟩
    · intro j _ hj
      by_contra hc
      exact absurd hj (not_lt.mpr (hlo j (by omega)))
    · by_cases hr0 : r = 0
      · simpa [hr0] using h0
      · simp only [hr0, if_false]
        exact hlo (r - 1) (by omega)

/-- C2: on a non-decreasing cdf of length `L` and any draw, those of `[0,1)` among them,
`getNewState` returns `-1` exactly when `L = 0` or the draw is at least `cdf[L-1]`, and an
index of `[0, L)` in every other case. -/
theorem getNewState_none_iff (cdf : List SCALAR) (L : ℕ)
    (gen : generator_type) (hs : nondecreasing cdf L) :
    ((getNewState cdf L gen).1 = -1 ↔ (L = 0 ∨ cdf.getD (L - 1) 0 ≤ (draw gen).1)) ∧
    ((getNewState cdf L gen).1 ≠ -1 →
      0 ≤ (getNewState cdf L gen).1 ∧ (getNewState cdf L gen).1 < L) := by
  obtain ⟨r, hrL, hlo, hhi, hres⟩ := getNewState_fst cdf L gen hs
  by_cases h : r = L
  · rw [hres, if_pos h]
    refine ⟨⟨fun _ => ?_, fun _ => rfl⟩, fun hc => absurd rfl hc⟩
    by_cases hL : L = 0
    · exact Or.inl hL
    · exact Or.inr (hlo (L - 1) (by omega))
  · rw [hres, if_neg h]
    have hlt : r < L := lt_of_le_of_ne hrL h
    refine ⟨⟨fun hc => ?_, fun hc => ?_⟩, fun _ => ⟨by positivity, by exact_mod_cast hlt⟩⟩
    · exfalso
      have h3 : (r : ℤ) = -1 := hc
      omega
    · rcases hc with hc | hc
      · omega
      · exact absurd (hhi (L - 1) (by omega) (by omega)) (not_lt.mpr hc)


/-! ## General lemmas on lists of scalars -/

theorem getD_range_map (f : ℕ → SCALAR) (n i : ℕ) (h : i < n) :
    ((List.range n).map f).getD i 0 = f i := by
  rw [List.getD_eq_getElem _ _ (by simpa using h)]
  simp

theorem foldl_add_eq_sum (l : List SCALAR) (a : SCALAR) :
    l.foldl (fun a b => a + b) a = a + l.sum := by
  induction l generalizing a with
  | nil => simp
  | cons b l ih => simp [List.foldl_cons, ih, add_assoc]

theorem sum_range_map (f : ℕ → SCALAR) (n : ℕ) :
    ((List.range n).map f).sum = ∑ i in Finset.range n, f i := by
  induction n with
  | zero => simp
  | succ n ih => simp [List.range_succ, Finset.sum_range_succ, ih]

theorem take_range_map (f : ℕ → SCALAR) (n m : ℕ) (h : m ≤ n) :
    ((List.range n).map f).take m = (List.range m).map f := by
  rw [← List.map_take, List.take_range, Nat.min_eq_left h]

theorem partial_sum_from_length (acc : SCALAR) (l : List SCALAR) :
    (partial_sum_from acc l).length = l.length := by
  induction l generalizing acc with
  | nil => rfl
  | cons a l ih => simp [partial_sum_from, ih]

theorem partial_sum_length (l : List SCALAR) : (partial_sum l).length = l.length := by
  cases l with
  | nil => rfl
  | cons a l => simp [partial_sum, partial_sum_from_length]

theorem partial_sum_from_getD (acc : SCALAR) (l : List SCALAR) (i : ℕ) (h : i < l.length) :
    (partial_sum_from acc l).getD i 0 = acc + (l.take (i + 1)).sum := by
  induction l generalizing acc i with
  | nil => simp at h
  | cons a l ih =>
    cases i with
    | zero => simp [partial_sum_from]
    | succ i =>
      have h2 : i < l.length := by simpa using h
      have := ih (acc + a) i h2
      simp only [partial_sum_from, List.getD_cons_succ, List.take_succ_cons, List.sum_cons]
      rw [this, add_assoc]

theorem partial_sum_getD (l : List SCALAR) (i : ℕ) (h : i < l.length) :
    (partial_sum l).getD i 0 = (l.take (i + 1)).sum := by
  cases l with
  | nil => simp at h
  | cons a l =>
    cases i with
    | zero => simp [partial_sum]
    | succ i =>
      have h2 : i < l.length := by simpa using h
      simp only [partial_sum, List.getD_cons_succ, List.take_succ_cons, List.sum_cons]
      exact partial_sum_from_getD a l i h2

/-! ## The start distribution -/

theorem start_raw_length (pow : SCALAR → SCALAR → SCALAR) (s : AdjointMcParallelReduce)
    (x : List SCALAR) : (start_raw pow s x).length = s.value_count := by
  simp [start_raw]

theorem start_pdf_length (pow : SCALAR → SCALAR → SCALAR) (s : AdjointMcParallelReduce)
    (x : List SCALAR) : (start_pdf pow s x).length = s.value_count := by
  simp [start_pdf, start_raw_length]

theorem pdf_sum_eq (pow : SCALAR → SCALAR → SCALAR) (s : AdjointMcParallelReduce)
    (x : List SCALAR) :
    pdf_sum pow s x = ∑ j in Finset.range s.value_count, pow |x.getD j 0| s.d_start_wt_factor := by
  rw [pdf_sum, foldl_add_eq_sum, zero_add, start_raw, sum_range_map]

theorem start_pdf_eq (pow : SCALAR → SCALAR → SCALAR) (s : AdjointMcParallelReduce)
    (x : List SCALAR) :
    start_pdf pow s x = (List.range s.value_count).map
      (fun i => pow |x.getD i 0| s.d_start_wt_factor / pdf_sum pow s x) := by
  simp [start_pdf, start_raw, List.map_map, Function.comp_def]

theorem start_pdf_getD (pow : SCALAR → SCALAR → SCALAR) (s : AdjointMcParallelReduce)
    (x : List SCALAR) (i : ℕ) (h : i < s.value_count) :
    (start_pdf pow s x).getD i 0 = pow |x.getD i 0| s.d_start_wt_factor / pdf_sum pow s x := by
  rw [start_pdf_eq, getD_range_map _ _ _ h]

theorem start_cdf_getD (pow : SCALAR → SCALAR → SCALAR) (s : AdjointMcParallelReduce)
    (x : List SCALAR) (i : ℕ) (h : i < s.value_count) :
    (partial_sum (start_pdf pow s x)).getD i 0 =
      ∑ j in Finset.range (i + 1), pow |x.getD j 0| s.d_start_wt_factor / pdf_sum pow s x := by
  rw [partial_sum_getD _ _ (by rw [start_pdf_length]; exact h), start_pdf_eq,
    take_range_map _ _ _ (by omega), sum_range_map]

theorem build_initial_distribution_eq (pow : SCALAR → SCALAR → SCALAR)
    (s : AdjointMcParallelReduce) (x : List SCALAR) (hpos : pdf_sum pow s x > 0) :
    build_initial_distribution pow s x = some { s with
      d_start_cdf := partial_sum (start_pdf pow s x)
      d_start_wt := start_weights pow s x } := by
  unfold build_initial_distribution ENSURE
  rw [decide_eq_true hpos]
  rfl

theorem build_initial_distribution_none (pow : SCALAR → SCALAR → SCALAR)
    (s : AdjointMcParallelReduce) (x : List SCALAR) (hneg : ¬ pdf_sum pow s x > 0) :
    build_initial_distribution pow s x = none := by
  unfold build_initial_distribution ENSURE
  rw [decide_eq_false hneg]
  rfl

theorem start_weights_getD (pow : SCALAR → SCALAR → SCALAR) (s : AdjointMcParallelReduce)
    (x : List SCALAR) (hx : x.length = s.value_count) (i : ℕ) (h : i < s.value_count) :
    (start_weights pow s x).getD i 0 =
      if (start_pdf pow s x).getD i 0 = 0 then 0
      else x.getD i 0 / (start_pdf pow s x).getD i 0 := by
  have hl := start_pdf_length pow s x
  have hz : i < (List.zipWith (fun a b : SCALAR => if b = 0 then 0 else a / b) x
      (start_pdf pow s x)).length := by
    simp [hl, hx, h]
  unfold start_weights
  rw [List.getD_append _ _ _ _ hz, List.getD_eq_getElem _ _ hz, List.getElem_zipWith,
    List.getD_eq_getElem _ _ (by omega : i < x.length),
    List.getD_eq_getElem _ _ (by omega : i < (start_pdf pow s x).length)]

/-- C3: for an input `x` of length `N` whose sum `S` of `|x[i]|^p` is positive,
`build_initial_distribution` succeeds and leaves `start_cdf[i] = Σ_{j ≤ i} |x[j]|^p / S`
and `start_wt[i] = 0` when `|x[i]|^p / S = 0`, `x[i] / (|x[i]|^p / S)` otherwise: the weight
divides by the pdf value of entry `i`, not by the cumulative value stored there later. -/
theorem build_initial_distribution_values (pow : SCALAR → SCALAR → SCALAR)
    (s : AdjointMcParallelReduce) (x : List SCALAR) (hx : x.length = s.value_count)
    (hS : 0 < ∑ j in Finset.range s.value_count, pow |x.getD j 0| s.d_start_wt_factor) :
    ∃ s1, build_initial_distribution pow s x = some s1 ∧
      s1.d_start_cdf.length = s.value_count ∧
      ∀ i, i < s.value_count →
        s1.d_start_cdf.getD i 0 =
          ∑ j in Finset.range (i + 1), pow |x.getD j 0| s.d_start_wt_factor /
            (∑ j in Finset.range s.value_count, pow |x.getD j 0| s.d_start_wt_factor) ∧
        s1.d_start_wt.getD i 0 =
          if pow |x.getD i 0| s.d_start_wt_factor /
              (∑ j in Finset.range s.value_count, pow |x.getD j 0| s.d_start_wt_factor) = 0
          then 0
          else x.getD i 0 / (pow |x.getD i 0| s.d_start_wt_factor /
              (∑ j in Finset.range s.value_count, pow |x.getD j 0| s.d_start_wt_factor)) := by
  have hsum := pdf_sum_eq pow s x
  have hpos : pdf_sum pow s x > 0 := by rw [hsum]; exact hS
  refine ⟨_, build_initial_distribution_eq pow s x hpos, ?_, ?_⟩
  · simp [partial_sum_length, start_pdf_length]
  · intro i hi
    refine ⟨?_, ?_⟩
    · show (partial_sum (start_pdf pow s x)).getD i 0 = _
      rw [start_cdf_getD pow s x i hi, hsum]
    · show (start_weights pow s x).getD i 0 = _
      rw [start_weights_getD pow s x hx i hi, start_pdf_getD pow s x i hi, hsum]

theorem start_cdf_mono (pow : SCALAR → SCALAR → SCALAR) (s : AdjointMcParallelReduce)
    (x : List SCALAR) (hS : 0 < pdf_sum pow s x)
    (hnn : ∀ a : SCALAR, 0 ≤ a → 0 ≤ pow a s.d_start_wt_factor)
    (i j : ℕ) (hij : i ≤ j) (hj : j < s.value_count) :
    (partial_sum (start_pdf pow s x)).getD i 0 ≤ (partial_sum (start_pdf pow s x)).getD j 0 := by
  rw [start_cdf_getD pow s x i (by omega), start_cdf_getD pow s x j hj]
  apply Finset.sum_le_sum_of_subset_of_nonneg
  · exact Finset.range_mono (by omega)
  · intro k _ _
    exact div_nonneg (hnn _ (abs_nonneg _)) hS.le

theorem start_cdf_last (pow : SCALAR → SCALAR → SCALAR) (s : AdjointMcParallelReduce)
    (x : List SCALAR) (hS : 0 < pdf_sum pow s x) (hN : 0 < s.value_count) :
    (partial_sum (start_pdf pow s x)).getD (s.value_count - 1) 0 = 1 := by
  rw [start_cdf_getD pow s x _ (by omega), Nat.sub_add_cancel hN, ← Finset.sum_div,
    ← pdf_sum_eq]
  exact div_self hS.ne'

/-- C4: for a nonzero input `x` (exact arithmetic; `pow` is non-negative, and positive on
positive magnitudes, as `|·|^p` is), `build_initial_distribution` succeeds, the pdf entries
are non-negative and sum to `1`, and the cdf is non-decreasing with every entry in `[0,1]`
and last entry `cdf[N-1] = 1`. -/
theorem build_initial_distribution_normalised (pow : SCALAR → SCALAR → SCALAR)
    (s : AdjointMcParallelReduce) (x : List SCALAR)
    (hnn : ∀ a : SCALAR, 0 ≤ a → 0 ≤ pow a s.d_start_wt_factor)
    (hpw : ∀ a : SCALAR, 0 < a → 0 < pow a s.d_start_wt_factor)
    (hne : ∃ i, i < s.value_count ∧ x.getD i 0 ≠ 0) :
    ∃ s1, build_initial_distribution pow s x = some s1 ∧
      (∀ i, i < s.value_count → 0 ≤ (start_pdf pow s x).getD i 0) ∧
      (start_pdf pow s x).sum = 1 ∧
      nondecreasing s1.d_start_cdf s.value_count ∧
      (∀ i, i < s.value_count → 0 ≤ s1.d_start_cdf.getD i 0 ∧ s1.d_start_cdf.getD i 0 ≤ 1) ∧
      s1.d_start_cdf.getD (s.value_count - 1) 0 = 1 := by
  obtain ⟨i0, hi0, hxi0⟩ := hne
  have hN : 0 < s.value_count := by omega
  have hS : 0 < pdf_sum pow s x := by
    rw [pdf_sum_eq]
    apply Finset.sum_pos'
    · intro k _
      exact hnn _ (abs_nonneg _)
    · exact ⟨i0, Finset.mem_range.mpr hi0, hpw _ (abs_pos.mpr hxi0)⟩
  have hpdf : ∀ i, i < s.value_count → 0 ≤ (start_pdf pow s x).getD i 0 := by
    intro i hi
    rw [start_pdf_getD pow s x i hi]
    exact div_nonneg (hnn _ (abs_nonneg _)) hS.le
  have hlast := start_cdf_last pow s x hS hN
  refine ⟨_, build_initial_distribution_eq pow s x hS, hpdf, ?_, ?_, ?_, hlast⟩
  · rw [start_pdf_eq, sum_range_map, ← Finset.sum_div, ← pdf_sum_eq]
    exact div_self hS.ne'
  · intro j hj i hij
    exact start_cdf_mono pow s x hS hnn i j hij hj
  · intro i hi
    refine ⟨?_, ?_⟩
    · show 0 ≤ (partial_sum (start_pdf pow s x)).getD i 0
      rw [start_cdf_getD pow s x i hi]
      exact Finset.sum_nonneg (fun k _ => div_nonneg (hnn _ (abs_nonneg _)) hS.le)
    · show (partial_sum (start_pdf pow s x)).getD i 0 ≤ 1
      rw [← hlast]
      exact start_cdf_mono pow s x hS hnn i (s.value_count - 1) (by omega) (by omega)


/-! ## Tallies are translations of the output buffer -/

theorem add_at_length (y : List SCALAR) (i : ℤ) (v : SCALAR) :
    (add_at y i v).length = y.length := by
  unfold add_at
  split <;> simp

theorem add_at_getD (y : List SCALAR) (i : ℤ) (v : SCALAR) (j : ℕ) (hj : j < y.length) :
    (add_at y i v).getD j 0 = y.getD j 0 + (if (j : ℤ) = i then v else 0) := by
  unfold add_at rd
  by_cases hi : 0 ≤ i
  · rw [if_pos hi, if_neg (by omega)]
    by_cases hji : (j : ℤ) = i
    · have hj2 : i.toNat = j := by omega
      rw [if_pos hji, hj2, List.getD_eq_getElem _ _ (by simpa using hj)]
      simp
    · have hj2 : i.toNat ≠ j := by omega
      rw [if_neg hji, add_zero, List.getD_eq_getElem _ _ (by simpa using hj),
        List.getD_eq_getElem _ _ hj, List.getElem_set_ne hj2]
  · rw [if_neg hi, if_neg (by omega), add_zero]

theorem Shift_id (N : ℕ) : Shift N (fun y => y) (fun _ => 0) := by
  intro y hy
  exact ⟨hy, fun j _ => by simp⟩

theorem Shift_add_at (N : ℕ) (i : ℤ) (v : SCALAR) :
    Shift N (fun y => add_at y i v) (fun j => if (j : ℤ) = i then v else 0) := by
  intro y hy
  refine ⟨by rw [add_at_length, hy], fun j hj => ?_⟩
  exact add_at_getD y i v j (by omega)

theorem Shift_comp (N : ℕ) (F G : List SCALAR → List SCALAR) (d e : ℕ → SCALAR)
    (hF : Shift N F d) (hG : Shift N G e) : Shift N (fun y => G (F y)) (fun j => d j + e j) := by
  intro y hy
  obtain ⟨h1, h2⟩ := hF y hy
  obtain ⟨h3, h4⟩ := hG (F y) h1
  refine ⟨h3, fun j hj => ?_⟩
  rw [h4 j hj, h2 j hj, add_assoc]

theorem Shift_foldl (N : ℕ) (f : List SCALAR → ℕ → List SCALAR) (e : ℕ → ℕ → SCALAR)
    (hf : ∀ k, Shift N (fun y => f y k) (e k)) (l : List ℕ) :
    Shift N (fun y => l.foldl f y) (fun j => (l.map (fun k => e k j)).sum) := by
  induction l using List.reverseRecOn with
  | nil => exact Shift_id N
  | append_singleton l k ih =>
    have h := Shift_comp N _ _ _ _ ih (hf k)
    intro y hy
    obtain ⟨h1, h2⟩ := h y hy
    refine ⟨by simpa [List.foldl_append] using h1, fun j hj => ?_⟩
    have := h2 j hj
    simp only [List.foldl_append, List.foldl_cons, List.foldl_nil, List.map_append,
      List.map_cons, List.map_nil, List.sum_append, List.sum_cons, List.sum_nil, add_zero]
    exact this

theorem Shift_tallyContribution (N : ℕ) (s : AdjointMcParallelReduce) (state : ℤ)
    (wt : SCALAR) (h_vals : List SCALAR) (inds : List ℤ) (row_length : ℤ) :
    Shift N (fun y => tallyContribution s state wt h_vals inds row_length y)
      (tally_delta s.d_use_expected_value state wt h_vals inds row_length) := by
  unfold tallyContribution tally_delta
  by_cases hev : s.d_use_expected_value = true
  · simp only [hev, if_true]
    by_cases hr : row_length > 0
    · simp only [hr, if_true]
      have h1 := Shift_add_at N (inds.getD 0 0) (wt * h_vals.getD 0 0)
      have h2 := Shift_foldl N
        (fun acc i => add_at acc (inds.getD i 0) (wt * h_vals.getD i 0))
        (fun k j => if (j : ℤ) = inds.getD k 0 then wt * h_vals.getD k 0 else 0)
        (fun k => Shift_add_at N _ _) (List.range' 1 (row_length.toNat - 1))
      have h3 := Shift_comp N _ _ _ _ h1 h2
      intro y hy
      obtain ⟨h4, h5⟩ := h3 y hy
      refine ⟨h4, fun j hj => ?_⟩
      rw [h5 j hj]
      congr 1
      beta_reduce
      obtain ⟨m, hm⟩ : ∃ m, row_length.toNat = m + 1 := ⟨row_length.toNat - 1, by omega⟩
      rw [hm, Finset.sum_range_succ', Nat.add_sub_cancel, add_comm]
      congr 1
      rw [List.range'_eq_map_range, List.map_map, sum_range_map]
      apply Finset.sum_congr rfl
      intro k _
      simp [Nat.add_comm]
    · simp only [hr, if_false]
      have hz : row_length.toNat = 0 := by omega
      rw [hz]
      simpa using Shift_id N
  · simp only [hev]
    exact Shift_add_at N state wt


theorem ShiftO_some (N : ℕ) (F : List SCALAR → List SCALAR) (d : ℕ → SCALAR)
    (hF : Shift N F d) : ShiftO N (fun y => some (F y)) d := by
  intro y hy
  exact ⟨F y, rfl, (hF y hy).1, (hF y hy).2⟩

theorem transport_shift (N : ℕ) (s : AdjointMcParallelReduce) :
    ∀ (fuel : ℕ) (state : ℤ) (weight initial_weight : SCALAR) (stage : ℤ)
      (gen : generator_type), (s.d_max_history_length - stage).toNat < fuel →
      ∃ d, ShiftO N (transport s fuel state weight initial_weight stage gen) d := by
  intro fuel
  induction fuel with
  | zero => intro _ _ _ _ _ h; omega
  | succ fuel ih =>
    intro state weight initial_weight stage gen hfuel
    have ht : Shift N (fun y => tally_step s state stage weight y)
        (tally_delta s.d_use_expected_value state (rd s.d_coeffs stage * weight)
          (getNewRow s state).h_vals (getNewRow s state).inds
          (getNewRow s state).row_length) :=
      Shift_tallyContribution N s state (rd s.d_coeffs stage * weight)
        (getNewRow s state).h_vals (getNewRow s state).inds (getNewRow s state).row_length
    by_cases h1 : stage ≥ s.d_max_history_length
    · refine ⟨(tally_delta s.d_use_expected_value state
        (rd s.d_coeffs stage * weight) (getNewRow s state).h_vals
        (getNewRow s state).inds (getNewRow s state).row_length), ?_⟩
      have := ShiftO_some N _ _ ht
      intro y hy
      simpa only [transport, h1, if_true] using this y hy
    · by_cases h2 : |weight / initial_weight| < s.d_wt_cutoff
      · refine ⟨(tally_delta s.d_use_expected_value state
        (rd s.d_coeffs stage * weight) (getNewRow s state).h_vals
        (getNewRow s state).inds (getNewRow s state).row_length), ?_⟩
        have := ShiftO_some N _ _ ht
        intro y hy
        simpa only [transport, h1, h2, if_true, if_false] using this y hy
      · by_cases h3 : (getNewState (getNewRow s state).p_vals (getNewRow s state).row_length
            gen).1 = -1
        · refine ⟨(tally_delta s.d_use_expected_value state
        (rd s.d_coeffs stage * weight) (getNewRow s state).h_vals
        (getNewRow s state).inds (getNewRow s state).row_length), ?_⟩
          have := ShiftO_some N _ _ ht
          intro y hy
          simpa only [transport, h1, h2, h3, if_true, if_false] using this y hy
        · obtain ⟨d2, hd2⟩ := ih
            (rd (getNewRow s state).inds
              (getNewState (getNewRow s state).p_vals (getNewRow s state).row_length gen).1)
            (weight * rd (getNewRow s state).w_vals
              (getNewState (getNewRow s state).p_vals (getNewRow s state).row_length gen).1)
            initial_weight (stage + 1)
            (getNewState (getNewRow s state).p_vals (getNewRow s state).row_length gen).2
            (by omega)
          refine ⟨fun j => tally_delta s.d_use_expected_value state
            (rd s.d_coeffs stage * weight) (getNewRow s state).h_vals
            (getNewRow s state).inds (getNewRow s state).row_length j + d2 j, ?_⟩
          intro y hy
          obtain ⟨hl, hv⟩ := ht y hy
          obtain ⟨y2, he, hl2, hv2⟩ := hd2 _ hl
          refine ⟨y2, ?_, hl2, fun j hj => ?_⟩
          · simp only [transport, h1, h2, h3, if_false]
            exact he
          · rw [hv2 j hj, hv j hj, add_assoc]

theorem operator_call_shift (N : ℕ) (s : AdjointMcParallelReduce) (gen : generator_type) :
    ∃ d, ShiftO N (operator_call s gen) d := by
  by_cases h1 : (getNewState s.d_start_cdf s.value_count gen).1 = -1
  · refine ⟨fun _ => 0, ?_⟩
    have := ShiftO_some N _ _ (Shift_id N)
    intro y hy
    simpa only [operator_call, h1, if_true] using this y hy
  · by_cases h2 : |rd s.d_start_wt (getNewState s.d_start_cdf s.value_count gen).1| = 0
    · refine ⟨fun _ => 0, ?_⟩
      have := ShiftO_some N _ _ (Shift_id N)
      intro y hy
      simpa only [operator_call, h1, h2, if_true, if_false] using this y hy
    · obtain ⟨d, hd⟩ := transport_shift N s
        ((s.d_max_history_length - (if s.d_use_expected_value then 1 else 0)).toNat + 1)
        (getNewState s.d_start_cdf s.value_count gen).1
        (rd s.d_start_wt (getNewState s.d_start_cdf s.value_count gen).1)
        (rd s.d_start_wt (getNewState s.d_start_cdf s.value_count gen).1)
        (if s.d_use_expected_value then 1 else 0)
        (getNewState s.d_start_cdf s.value_count gen).2 (by omega)
      refine ⟨d, ?_⟩
      intro y hy
      simpa only [operator_call, h1, h2, if_false] using hd y hy

theorem init_length (s : AdjointMcParallelReduce) : (init s).length = s.value_count := by
  simp [init]

theorem init_getD (s : AdjointMcParallelReduce) (j : ℕ) : (init s).getD j 0 = 0 := by
  unfold init
  by_cases h : j < s.value_count
  · rw [List.getD_eq_getElem _ _ (by simpa using h)]
    simp
  · rw [List.getD_eq_default _ _ (by simpa using h)]

theorem foldlM_shift (N : ℕ) (G : ℕ → List SCALAR → Option (List SCALAR))
    (T : ℕ → List SCALAR) (y0 : List SCALAR) (hy0 : y0.length = N)
    (hG : ∀ i, ∃ d, ShiftO N (G i) d) (hT : ∀ i, G i y0 = some (T i)) (n : ℕ) :
    ∃ y1, (List.range n).foldlM (fun acc i => G i acc) y0 = some y1 ∧ y1.length = N ∧
      ∀ j, j < N → y1.getD j 0 =
        y0.getD j 0 + ∑ i in Finset.range n, ((T i).getD j 0 - y0.getD j 0) := by
  induction n with
  | zero => exact ⟨y0, rfl, hy0, fun j _ => by simp⟩
  | succ n ih =>
    obtain ⟨y1, h1, hl1, hv1⟩ := ih
    obtain ⟨d, hd⟩ := hG n
    obtain ⟨y2, h2, hl2, hv2⟩ := hd y1 hl1
    obtain ⟨t, h3, _, hv3⟩ := hd y0 hy0
    have ht : t = T n := by
      have := hT n
      rw [h3] at this
      exact Option.some.inj this
    refine ⟨y2, ?_, hl2, fun j hj => ?_⟩
    · rw [List.range_succ, List.foldlM_append, h1]
      simp [h2]
    · rw [hv2 j hj, hv1 j hj, Finset.sum_range_succ, ← ht, hv3 j hj]
      ring

/-- The tallies of a solve: `parallel_reduce` succeeds, and its result is the elementwise
sum of what every history tallies into a zero buffer. -/
theorem parallel_reduce_sum (s : AdjointMcParallelReduce) (pool : ℕ → generator_type) :
    ∃ (T : ℕ → List SCALAR) (y1 : List SCALAR),
      (∀ i, operator_call s (pool i) (init s) = some (T i)) ∧
      parallel_reduce s pool = some y1 ∧ y1.length = s.value_count ∧
      ∀ j, j < s.value_count →
        y1.getD j 0 = ∑ i in Finset.range s.d_num_histories.toNat, (T i).getD j 0 := by
  have hG : ∀ i, ∃ d, ShiftO s.value_count (operator_call s (pool i)) d :=
    fun i => operator_call_shift s.value_count s (pool i)
  have hT : ∀ i, ∃ t, operator_call s (pool i) (init s) = some t := by
    intro i
    obtain ⟨d, hd⟩ := hG i
    obtain ⟨t, ht, _⟩ := hd (init s) (init_length s)
    exact ⟨t, ht⟩
  choose T hT using hT
  obtain ⟨y1, h1, hl1, hv1⟩ := foldlM_shift s.value_count
    (fun i => operator_call s (pool i)) T (init s) (init_length s) hG hT
    s.d_num_histories.toNat
  refine ⟨T, y1, hT, h1, hl1, fun j hj => ?_⟩
  rw [hv1 j hj, init_getD]
  simp only [sub_zero, zero_add]


/-! ## The orchestrator -/

theorem foldl_set_spec (f : ℕ → SCALAR) (y : List SCALAR) (n : ℕ) :
    ((List.range n).foldl (fun acc i => acc.set i (f i)) y).length = y.length ∧
    ∀ j, j < y.length →
      ((List.range n).foldl (fun acc i => acc.set i (f i)) y).getD j 0 =
        if j < n then f j else y.getD j 0 := by
  induction n with
  | zero => exact ⟨rfl, fun j _ => by simp⟩
  | succ n ih =>
    obtain ⟨hl, hv⟩ := ih
    rw [List.range_succ, List.foldl_append]
    simp only [List.foldl_cons, List.foldl_nil]
    refine ⟨by rw [List.length_set, hl], fun j hj => ?_⟩
    have hj2 : j < ((List.range n).foldl (fun acc i => acc.set i (f i)) y).length := by
      rw [hl]; exact hj
    rw [List.getD_eq_getElem _ _ (by rw [List.length_set]; exact hj2)]
    by_cases hjn : n = j
    · subst hjn
      simp
    · rw [List.getElem_set_ne hjn, ← List.getD_eq_getElem _ 0 hj2, hv j hj]
      by_cases h1 : j < n
      · rw [if_pos h1, if_pos (by omega)]
      · rw [if_neg h1, if_neg (by omega)]

theorem apply_scale_spec (s : AdjointMcParallelReduce) (c : SCALAR)
    (m y : List SCALAR) (hy : y.length = s.value_count) :
    (apply_scale s c m y).length = s.value_count ∧
    ∀ j, j < s.value_count → (apply_scale s c m y).getD j 0 = c * m.getD j 0 := by
  obtain ⟨hl, hv⟩ := foldl_set_spec (fun i => c * m.getD i 0) y s.value_count
  refine ⟨by rw [apply_scale, hl, hy], fun j hj => ?_⟩
  rw [apply_scale, hv j (by omega), if_pos hj]

theorem update_spec (alpha : SCALAR) (A : List SCALAR) (beta : SCALAR) (y : List SCALAR) :
    (update alpha A beta y).length = y.length ∧
    ∀ j, j < y.length →
      (update alpha A beta y).getD j 0 = beta * y.getD j 0 + alpha * A.getD j 0 := by
  refine ⟨by simp [update], fun j hj => ?_⟩
  rw [update, getD_range_map _ _ _ hj]

theorem list_ext_getD (a b : List SCALAR) (h : a.length = b.length)
    (hv : ∀ j, j < a.length → a.getD j 0 = b.getD j 0) : a = b := by
  apply List.ext_getElem h
  intro j h1 h2
  have := hv j h1
  rwa [List.getD_eq_getElem _ _ h1, List.getD_eq_getElem _ _ h2] at this

theorem build_initial_distribution_frame (pow : SCALAR → SCALAR → SCALAR)
    (s s1 : AdjointMcParallelReduce) (x : List SCALAR)
    (hb : build_initial_distribution pow s x = some s1) :
    s1.value_count = s.value_count ∧ s1.d_mc_data = s.d_mc_data ∧ s1.d_coeffs = s.d_coeffs ∧
    s1.d_num_histories = s.d_num_histories ∧
    s1.d_max_history_length = s.d_max_history_length ∧
    s1.d_use_expected_value = s.d_use_expected_value ∧
    s1.d_start_wt_factor = s.d_start_wt_factor ∧ s1.d_wt_cutoff = s.d_wt_cutoff := by
  by_cases hpos : pdf_sum pow s x > 0
  · rw [build_initial_distribution_eq pow s x hpos] at hb
    cases hb
    exact ⟨rfl, rfl, rfl, rfl, rfl, rfl, rfl, rfl⟩
  · rw [build_initial_distribution_none pow s x hpos] at hb
    cases hb

theorem solve_of_build (pow : SCALAR → SCALAR → SCALAR) (pool : ℕ → generator_type)
    (s s1 : AdjointMcParallelReduce) (x y m : List SCALAR)
    (hb : build_initial_distribution pow s x = some s1)
    (hm : parallel_reduce s1 pool = some m) :
    solve pow pool s x y = (some s1,
      if s1.d_use_expected_value then
        update (rd s1.d_coeffs 0) x 1
          (apply_scale s1 (1 / (s1.d_num_histories : SCALAR)) m y)
      else apply_scale s1 (1 / (s1.d_num_histories : SCALAR)) m y) := by
  simp only [solve, hb, hm]
  split <;> rfl

/-- C6: when `solve` returns, `y[j] = (1/num_histories) * T[j]` under the collision
estimator and `y[j] = (1/num_histories) * T[j] + coeffs[0] * x[j]` under the expected-value
estimator, `T` being the elementwise sum of the tallies of the `num_histories` histories;
the vector `y` passed in has no influence on the result. -/
theorem solve_output (pow : SCALAR → SCALAR → SCALAR) (pool : ℕ → generator_type)
    (s : AdjointMcParallelReduce) (x y : List SCALAR)
    (hy : y.length = s.value_count) (hS : 0 < pdf_sum pow s x) :
    ∃ (s1 : AdjointMcParallelReduce) (T : ℕ → List SCALAR) (y1 : List SCALAR),
      build_initial_distribution pow s x = some s1 ∧
      (∀ i, operator_call s1 (pool i) (init s1) = some (T i)) ∧
      solve pow pool s x y = (some s1, y1) ∧
      y1.length = s.value_count ∧
      (∀ j, j < s.value_count → y1.getD j 0 =
        if s.d_use_expected_value then
          1 / (s.d_num_histories : SCALAR) *
            (∑ i in Finset.range s.d_num_histories.toNat, (T i).getD j 0) +
            rd s.d_coeffs 0 * x.getD j 0
        else
          1 / (s.d_num_histories : SCALAR) *
            (∑ i in Finset.range s.d_num_histories.toNat, (T i).getD j 0)) ∧
      (∀ y2 : List SCALAR, y2.length = s.value_count →
        solve pow pool s x y2 = (some s1, y1)) := by
  obtain ⟨s1, hb⟩ : ∃ s1, build_initial_distribution pow s x = some s1 :=
    ⟨_, build_initial_distribution_eq pow s x hS⟩
  obtain ⟨hN, _, hc, hn, _, hev1, _, _⟩ := build_initial_distribution_frame pow s s1 x hb
  obtain ⟨T, m, hT, hm, hml, hmv⟩ := parallel_reduce_sum s1 pool
  have key : ∀ y2 : List SCALAR, y2.length = s.value_count →
      ∃ y1, solve pow pool s x y2 = (some s1, y1) ∧
        y1.length = s.value_count ∧
        ∀ j, j < s.value_count → y1.getD j 0 =
          if s.d_use_expected_value then
            1 / (s.d_num_histories : SCALAR) *
              (∑ i in Finset.range s.d_num_histories.toNat, (T i).getD j 0) +
              rd s.d_coeffs 0 * x.getD j 0
          else
            1 / (s.d_num_histories : SCALAR) *
              (∑ i in Finset.range s.d_num_histories.toNat, (T i).getD j 0) := by
    intro y2 hy2
    obtain ⟨hal, hav⟩ := apply_scale_spec s1 (1 / (s1.d_num_histories : SCALAR)) m y2
      (by rw [hN]; exact hy2)
    refine ⟨_, solve_of_build pow pool s s1 x y2 m hb hm, ?_, fun j hj => ?_⟩
    · split
      · rw [(update_spec _ _ _ _).1, hal, hN]
      · rw [hal, hN]
    · rw [hev1]
      by_cases hev : s.d_use_expected_value = true
      · rw [if_pos hev, if_pos hev, (update_spec _ _ _ _).2 j (by rw [hal, hN]; exact hj),
          hav j (by rw [hN]; exact hj), hmv j (by rw [hN]; exact hj), hc, hn, one_mul]
      · rw [if_neg hev, if_neg hev, hav j (by rw [hN]; exact hj),
          hmv j (by rw [hN]; exact hj), hn]
  obtain ⟨y1, h1, hl1, hv1⟩ := key y hy
  refine ⟨s1, T, y1, hb, hT, h1, hl1, hv1, fun y2 hy2 => ?_⟩
  obtain ⟨y3, h3, hl3, hv3⟩ := key y2 hy2
  rw [h3]
  congr 1
  apply list_ext_getD _ _ (by rw [hl3, hl1])
  intro j hj
  rw [hv3 j (by omega), hv1 j (by omega)]


/-- C5: when the sum of `|x[i]|^p` is not positive, `build_initial_distribution` fails and
so does `solve`, whatever the generators would have drawn, with `y` as it was passed in:
no history has run and no entry of `y` has been written. -/
theorem solve_fails_on_nonpositive_sum (pow : SCALAR → SCALAR → SCALAR)
    (pool : ℕ → generator_type) (s : AdjointMcParallelReduce) (x y : List SCALAR)
    (hS : ∑ j in Finset.range s.value_count, pow |x.getD j 0| s.d_start_wt_factor ≤ 0) :
    build_initial_distribution pow s x = none ∧ solve pow pool s x y = (none, y) := by
  have hb : build_initial_distribution pow s x = none :=
    build_initial_distribution_none pow s x (by rw [pdf_sum_eq]; exact not_lt.mpr hS)
  exact ⟨hb, by simp only [solve, hb]⟩

/-! ## One tally step -/

theorem tally_step_collision_eq (s : AdjointMcParallelReduce) (state stage : ℤ)
    (weight : SCALAR) (y : List SCALAR) (hev : s.d_use_expected_value = false) :
    tally_step s state stage weight y = add_at y state (rd s.d_coeffs stage * weight) := by
  unfold tally_step tallyContribution
  simp only [hev]
  rfl

/-- C8: under the collision estimator one tally step in state `state` at `stage` with weight
`weight` adds `coeffs[stage] * weight` to entry `state` and leaves every other entry as it
was, whatever row `state` holds. -/
theorem tally_step_collision (s : AdjointMcParallelReduce) (state stage : ℤ)
    (weight : SCALAR) (y : List SCALAR) (hev : s.d_use_expected_value = false) :
    tally_step s state stage weight y = add_at y state (rd s.d_coeffs stage * weight) ∧
    (tally_step s state stage weight y).length = y.length ∧
    ∀ j, j < y.length → (tally_step s state stage weight y).getD j 0 =
      if (j : ℤ) = state then y.getD j 0 + rd s.d_coeffs stage * weight else y.getD j 0 := by
  have h := tally_step_collision_eq s state stage weight y hev
  refine ⟨h, by rw [h, add_at_length], fun j hj => ?_⟩
  rw [h, add_at_getD y state _ j hj]
  split <;> simp

/-! ## One history -/

/-- C9: a history whose start sample is `-1`, or whose sampled start weight is zero, ends
at once: `operator()` returns with the buffer it was given, unchanged in every entry. -/
theorem operator_call_no_start (s : AdjointMcParallelReduce) (gen : generator_type)
    (y : List SCALAR)
    (h : (getNewState s.d_start_cdf s.value_count gen).1 = -1 ∨
      rd s.d_start_wt (getNewState s.d_start_cdf s.value_count gen).1 = 0) :
    operator_call s gen y = some y := by
  unfold operator_call
  by_cases h1 : (getNewState s.d_start_cdf s.value_count gen).1 = -1
  · simp only [h1, if_true]
  · rcases h with h | h
    · exact absurd h h1
    · simp only [h1, if_false, h, abs_zero, if_true]

theorem transport_stop (s : AdjointMcParallelReduce) (fuel : ℕ) (state : ℤ)
    (weight initial_weight : SCALAR) (stage : ℤ) (gen : generator_type) (y : List SCALAR)
    (hstop : stage ≥ s.d_max_history_length ∨ |weight / initial_weight| < s.d_wt_cutoff) :
    transport s (fuel + 1) state weight initial_weight stage gen y =
      some (tally_step s state stage weight y) := by
  unfold transport
  by_cases h1 : stage ≥ s.d_max_history_length
  · simp only [h1, if_true]
  · rcases hstop with h | h
    · exact absurd h h1
    · simp only [h1, if_false, h, if_true]

/-- C10: the tally of a stage comes before the stopping checks of that stage: a round of
the transport loop that stops at the stage cutoff or at the weight cutoff returns the
buffer with the tally of that stage added.  With the collision estimator,
`max_history_length ≥ 1` and `weight_cutoff > 1`, a started history tallies once:
`coeffs[0] * start_weight` at its start state. -/
theorem transport_tally_before_stop (s : AdjointMcParallelReduce) (fuel : ℕ) (state : ℤ)
    (weight initial_weight : SCALAR) (stage : ℤ) (gen : generator_type) (y : List SCALAR)
    (hstop : stage ≥ s.d_max_history_length ∨ |weight / initial_weight| < s.d_wt_cutoff) :
    transport s (fuel + 1) state weight initial_weight stage gen y =
      some (tally_step s state stage weight y) ∧
    (∀ (gen0 : generator_type) (y0 : List SCALAR),
      s.d_use_expected_value = false → 1 ≤ s.d_max_history_length → 1 < s.d_wt_cutoff →
      (getNewState s.d_start_cdf s.value_count gen0).1 ≠ -1 →
      rd s.d_start_wt (getNewState s.d_start_cdf s.value_count gen0).1 ≠ 0 →
      operator_call s gen0 y0 =
        some (add_at y0 (getNewState s.d_start_cdf s.value_count gen0).1
          (rd s.d_coeffs 0 *
            rd s.d_start_wt (getNewState s.d_start_cdf s.value_count gen0).1))) := by
  refine ⟨transport_stop s fuel state weight initial_weight stage gen y hstop, ?_⟩
  intro gen0 y0 hev hmax hcut hs0 hw0
  unfold operator_call
  simp only [hs0, if_false, abs_eq_zero, hw0, hev]
  rw [transport_stop s _ _ _ _ _ _ _ (Or.inr (by rw [div_self hw0, abs_one]; exact hcut))]
  rw [tally_step_collision_eq s _ _ _ _ hev]
  simp only [Bool.false_eq_true, if_false]


/-! ## The theorems at concrete inputs -/

theorem getNewState_smallest_index_above_draw_witness :
    nondecreasing [1/4, 1/2, 1] 3 ∧
    ∃ i : ℕ, (getNewState [1/4, 1/2, 1] (3 : ℕ) (fun _ => 1/3)).1 = i ∧ i < 3 ∧
      (draw (fun _ => (1/3 : SCALAR))).1 < [1/4, 1/2, (1 : SCALAR)].getD i 0 ∧
      (∀ j : ℕ, j < 3 → (draw (fun _ => (1/3 : SCALAR))).1 < [1/4, 1/2, (1 : SCALAR)].getD j 0
        → i ≤ j) ∧
      (if i = 0 then 0 else [1/4, 1/2, (1 : SCALAR)].getD (i - 1) 0)
        ≤ (draw (fun _ => (1/3 : SCALAR))).1 :=
  ⟨by decide!, getNewState_smallest_index_above_draw [1/4, 1/2, 1] 3 (fun _ => 1/3)
    (by decide!) (by decide!) (by decide!)⟩

theorem getNewState_none_iff_witness :
    nondecreasing [1/4, 1/2, 3/4] 3 ∧
    (((getNewState [1/4, 1/2, 3/4] (3 : ℕ) (fun _ => 3/4)).1 = -1 ↔
      ((3 : ℕ) = 0 ∨ [1/4, 1/2, (3/4 : SCALAR)].getD (3 - 1) 0
        ≤ (draw (fun _ => (3/4 : SCALAR))).1)) ∧
    ((getNewState [1/4, 1/2, 3/4] (3 : ℕ) (fun _ => 3/4)).1 ≠ -1 →
      0 ≤ (getNewState [1/4, 1/2, 3/4] (3 : ℕ) (fun _ => 3/4)).1 ∧
      (getNewState [1/4, 1/2, 3/4] (3 : ℕ) (fun _ => 3/4)).1 < (3 : ℕ))) :=
  ⟨by decide!, getNewState_none_iff [1/4, 1/2, 3/4] 3 (fun _ => 3/4) (by decide!)⟩

theorem build_initial_distribution_values_witness :
    ([3, -1] : List SCALAR).length = (demo false 0).value_count ∧
    (0 < ∑ j in Finset.range (demo false 0).value_count,
      pow_nat |([3, -1] : List SCALAR).getD j 0| (demo false 0).d_start_wt_factor) ∧
    ∃ s1, build_initial_distribution pow_nat (demo false 0) [3, -1] = some s1 ∧
      s1.d_start_cdf.length = (demo false 0).value_count ∧
      ∀ i, i < (demo false 0).value_count →
        s1.d_start_cdf.getD i 0 =
          ∑ j in Finset.range (i + 1),
            pow_nat |([3, -1] : List SCALAR).getD j 0| (demo false 0).d_start_wt_factor /
            (∑ j in Finset.range (demo false 0).value_count,
              pow_nat |([3, -1] : List SCALAR).getD j 0| (demo false 0).d_start_wt_factor) ∧
        s1.d_start_wt.getD i 0 =
          if pow_nat |([3, -1] : List SCALAR).getD i 0| (demo false 0).d_start_wt_factor /
              (∑ j in Finset.range (demo false 0).value_count,
                pow_nat |([3, -1] : List SCALAR).getD j 0| (demo false 0).d_start_wt_factor) = 0
          then 0
          else ([3, -1] : List SCALAR).getD i 0 /
            (pow_nat |([3, -1] : List SCALAR).getD i 0| (demo false 0).d_start_wt_factor /
              (∑ j in Finset.range (demo false 0).value_count,
                pow_nat |([3, -1] : List SCALAR).getD j 0|
                  (demo false 0).d_start_wt_factor)) :=
  ⟨by decide!, by decide!,
    build_initial_distribution_values pow_nat (demo false 0) [3, -1] (by decide!) (by decide!)⟩

theorem pow_nat_one_nonneg (a : SCALAR) (h : 0 ≤ a) :
    0 ≤ pow_nat a (demo false 0).d_start_wt_factor := by
  simpa [pow_nat, demo] using h

theorem pow_nat_one_pos (a : SCALAR) (h : 0 < a) :
    0 < pow_nat a (demo false 0).d_start_wt_factor := by
  simpa [pow_nat, demo] using h

theorem build_initial_distribution_normalised_witness :
    (∃ i, i < (demo false 0).value_count ∧ ([3, -1] : List SCALAR).getD i 0 ≠ 0) ∧
    ∃ s1, build_initial_distribution pow_nat (demo false 0) [3, -1] = some s1 ∧
      (∀ i, i < (demo false 0).value_count →
        0 ≤ (start_pdf pow_nat (demo false 0) [3, -1]).getD i 0) ∧
      (start_pdf pow_nat (demo false 0) [3, -1]).sum = 1 ∧
      nondecreasing s1.d_start_cdf (demo false 0).value_count ∧
      (∀ i, i < (demo false 0).value_count →
        0 ≤ s1.d_start_cdf.getD i 0 ∧ s1.d_start_cdf.getD i 0 ≤ 1) ∧
      s1.d_start_cdf.getD ((demo false 0).value_count - 1) 0 = 1 :=
  ⟨⟨0, by decide!, by decide!⟩,
    build_initial_distribution_normalised pow_nat (demo false 0) [3, -1]
      pow_nat_one_nonneg pow_nat_one_pos ⟨0, by decide!, by decide!⟩⟩

theorem solve_fails_on_nonpositive_sum_witness :
    (∑ j in Finset.range (demo false 0).value_count,
      pow_nat |([0, 0] : List SCALAR).getD j 0| (demo false 0).d_start_wt_factor ≤ 0) ∧
    build_initial_distribution pow_nat (demo false 0) [0, 0] = none ∧
    solve pow_nat demo_pool (demo false 0) [0, 0] [7, 7] = (none, [7, 7]) :=
  ⟨by decide!, solve_fails_on_nonpositive_sum pow_nat demo_pool (demo false 0) [0, 0] [7, 7]
    (by decide!)⟩

theorem solve_output_witness :
    ([7, 7] : List SCALAR).length = (demo true 0).value_count ∧
    0 < pdf_sum pow_nat (demo true 0) [3, -1] ∧
    ∃ (s1 : AdjointMcParallelReduce) (T : ℕ → List SCALAR) (y1 : List SCALAR),
      build_initial_distribution pow_nat (demo true 0) [3, -1] = some s1 ∧
      (∀ i, operator_call s1 (demo_pool i) (init s1) = some (T i)) ∧
      solve pow_nat demo_pool (demo true 0) [3, -1] [7, 7] = (some s1, y1) ∧
      y1.length = (demo true 0).value_count ∧
      (∀ j, j < (demo true 0).value_count → y1.getD j 0 =
        if (demo true 0).d_use_expected_value then
          1 / ((demo true 0).d_num_histories : SCALAR) *
            (∑ i in Finset.range (demo true 0).d_num_histories.toNat, (T i).getD j 0) +
            rd (demo true 0).d_coeffs 0 * ([3, -1] : List SCALAR).getD j 0
        else
          1 / ((demo true 0).d_num_histories : SCALAR) *
            (∑ i in Finset.range (demo true 0).d_num_histories.toNat, (T i).getD j 0)) ∧
      (∀ y2 : List SCALAR, y2.length = (demo true 0).value_count →
        solve pow_nat demo_pool (demo true 0) [3, -1] y2 = (some s1, y1)) :=
  ⟨by decide!, by decide!,
    solve_output pow_nat demo_pool (demo true 0) [3, -1] [7, 7] (by decide!) (by decide!)⟩

theorem tally_step_collision_witness :
    (demo false 0).d_use_expected_value = false ∧
    tally_step (demo false 0) 0 1 4 [5, 6] = [7, 6] ∧
    tally_step (demo false 0) 0 1 4 [5, 6] =
      add_at [5, 6] 0 (rd (demo false 0).d_coeffs 1 * 4) ∧
    (tally_step (demo false 0) 0 1 4 [5, 6]).length = ([5, 6] : List SCALAR).length ∧
    ∀ j, j < ([5, 6] : List SCALAR).length →
      (tally_step (demo false 0) 0 1 4 [5, 6]).getD j 0 =
      if (j : ℤ) = 0 then ([5, 6] : List SCALAR).getD j 0 + rd (demo false 0).d_coeffs 1 * 4
      else ([5, 6] : List SCALAR).getD j 0 :=
  ⟨by decide!, by decide!, tally_step_collision (demo false 0) 0 1 4 [5, 6] (by decide!)⟩

theorem operator_call_no_start_witness :
    ((getNewState (demo false 0).d_start_cdf (demo false 0).value_count (demo_pool 0)).1 = -1 ∨
      rd (demo false 0).d_start_wt
        (getNewState (demo false 0).d_start_cdf (demo false 0).value_count
          (demo_pool 0)).1 = 0) ∧
    operator_call (demo false 0) (demo_pool 0) [5, 6] = some [5, 6] :=
  ⟨Or.inl (by decide!),
    operator_call_no_start (demo false 0) (demo_pool 0) [5, 6] (Or.inl (by decide!))⟩

theorem transport_tally_before_stop_witness :
    ((0 : ℤ) ≥ (demo_started false 2).d_max_history_length ∨
      |(4 : SCALAR) / 4| < (demo_started false 2).d_wt_cutoff) ∧
    transport (demo_started false 2) (0 + 1) 0 4 4 0 (demo_pool 0) [0, 0] = some [4, 0] ∧
    transport (demo_started false 2) (0 + 1) 0 4 4 0 (demo_pool 0) [0, 0] =
      some (tally_step (demo_started false 2) 0 0 4 [0, 0]) ∧
    operator_call (demo_started false 2) (demo_pool 0) [0, 0] = some [4, 0] ∧
    operator_call (demo_started false 2) (demo_pool 0) [0, 0] =
      some (add_at [0, 0]
        (getNewState (demo_started false 2).d_start_cdf (demo_started false 2).value_count
          (demo_pool 0)).1
        (rd (demo_started false 2).d_coeffs 0 *
          rd (demo_started false 2).d_start_wt
            (getNewState (demo_started false 2).d_start_cdf
              (demo_started false 2).value_count (demo_pool 0)).1)) :=
  ⟨Or.inr (by decide!), by decide!,
    (transport_tally_before_stop (demo_started false 2) 0 0 4 4 0 (demo_pool 0) [0, 0]
      (Or.inr (by decide!))).1,
    by decide!,
    (transport_tally_before_stop (demo_started false 2) 0 0 4 4 0 (demo_pool 0) [0, 0]
      (Or.inr (by decide!))).2 (demo_pool 0) [0, 0] (by decide!) (by decide!) (by decide!)
      (by decide!) (by decide!)⟩


/-! ## The rounds of a history -/

theorem transport_eq_rounds (s : AdjointMcParallelReduce) :
    ∀ (fuel : ℕ) (state : ℤ) (weight initial_weight : SCALAR) (stage : ℤ)
      (gen : generator_type) (y : List SCALAR),
      transport s fuel state weight initial_weight stage gen y =
        (transport_rounds s fuel state weight initial_weight stage gen).map
          (fun l => tally_rounds s l y) := by
  intro fuel
  induction fuel with
  | zero => intro _ _ _ _ _ _; rfl
  | succ fuel ih =>
    intro state weight initial_weight stage gen y
    unfold transport transport_rounds
    by_cases h1 : stage ≥ s.d_max_history_length
    · simp only [h1, if_true, Option.map_some', tally_rounds, List.foldl_cons, List.foldl_nil]
    · by_cases h2 : |weight / initial_weight| < s.d_wt_cutoff
      · simp only [h1, h2, if_true, if_false, Option.map_some', tally_rounds, List.foldl_cons,
          List.foldl_nil]
      · by_cases h3 : (getNewState (getNewRow s state).p_vals (getNewRow s state).row_length
            gen).1 = -1
        · simp only [h1, h2, h3, if_true, if_false, Option.map_some', tally_rounds,
            List.foldl_cons, List.foldl_nil]
        · simp only [h1, h2, h3, if_false, ih, Option.map_map]
          rfl

theorem operator_call_eq_rounds (s : AdjointMcParallelReduce) (gen : generator_type)
    (y : List SCALAR) :
    operator_call s gen y = (operator_rounds s gen).map (fun l => tally_rounds s l y) := by
  unfold operator_call operator_rounds
  by_cases h1 : (getNewState s.d_start_cdf s.value_count gen).1 = -1
  · simp only [h1, if_true, Option.map_some', tally_rounds, List.foldl_nil]
  · by_cases h2 : |rd s.d_start_wt (getNewState s.d_start_cdf s.value_count gen).1| = 0
    · simp only [h1, h2, if_true, if_false, Option.map_some', tally_rounds, List.foldl_nil]
    · simp only [h1, h2, if_false, start_stage]
      exact transport_eq_rounds s _ _ _ _ _ _ _


theorem transport_rounds_bound (s : AdjointMcParallelReduce) :
    ∀ (fuel : ℕ) (state : ℤ) (weight initial_weight : SCALAR) (stage : ℤ)
      (gen : generator_type), (s.d_max_history_length - stage).toNat < fuel →
      ∃ l, transport_rounds s fuel state weight initial_weight stage gen = some l ∧
        l.length ≤ (s.d_max_history_length - stage).toNat + 1 ∧
        (l.filter Round.moves).length + 1 = l.length ∧
        (s.d_wt_cutoff = 0 → ∀ r ∈ l, r.leave ≠ Leave.weight_cutoff) := by
  intro fuel
  induction fuel with
  | zero => intro _ _ _ _ _ h; omega
  | succ fuel ih =>
    intro state weight initial_weight stage gen hfuel
    unfold transport_rounds
    by_cases h1 : stage ≥ s.d_max_history_length
    · simp only [h1, if_true]
      refine ⟨_, rfl, by simp, by simp [Round.moves], ?_⟩
      intro _ r hr
      simp only [List.mem_singleton] at hr
      subst hr
      simp
    · by_cases h2 : |weight / initial_weight| < s.d_wt_cutoff
      · simp only [h1, h2, if_true, if_false]
        refine ⟨_, rfl, by simp, by simp [Round.moves], ?_⟩
        intro hc
        rw [hc] at h2
        exact absurd h2 (not_lt.mpr (abs_nonneg _))
      · by_cases h3 : (getNewState (getNewRow s state).p_vals (getNewRow s state).row_length
            gen).1 = -1
        · simp only [h1, h2, h3, if_true, if_false]
          refine ⟨_, rfl, by simp, by simp [Round.moves], ?_⟩
          intro _ r hr
          simp only [List.mem_singleton] at hr
          subst hr
          simp
        · obtain ⟨l, hl, hlen, hmv, hwc⟩ := ih
            (rd (getNewRow s state).inds
              (getNewState (getNewRow s state).p_vals (getNewRow s state).row_length gen).1)
            (weight * rd (getNewRow s state).w_vals
              (getNewState (getNewRow s state).p_vals (getNewRow s state).row_length gen).1)
            initial_weight (stage + 1)
            (getNewState (getNewRow s state).p_vals (getNewRow s state).row_length gen).2
            (by omega)
          simp only [h1, h2, h3, if_false, hl, Option.map_some']
          refine ⟨_, rfl, ?_, ?_, ?_⟩
          · simp only [List.length_cons]
            omega
          · rw [List.filter_cons_of_pos (by rfl)]
            simp only [List.length_cons]
            omega
          · intro hc r hr
            rcases List.mem_cons.mp hr with h | h
            · subst h
              simp
            · exact hwc hc r h

theorem transport_rounds_fuel (s : AdjointMcParallelReduce) :
    ∀ (fuel : ℕ) (state : ℤ) (weight initial_weight : SCALAR) (stage : ℤ)
      (gen : generator_type) (l : List Round),
      transport_rounds s fuel state weight initial_weight stage gen = some l →
      ∀ fuel1, fuel ≤ fuel1 →
        transport_rounds s fuel1 state weight initial_weight stage gen = some l := by
  intro fuel
  induction fuel with
  | zero => intro _ _ _ _ _ _ h; simp [transport_rounds] at h
  | succ fuel ih =>
    intro state weight initial_weight stage gen l h fuel1 hle
    obtain ⟨f, rfl⟩ : ∃ f, fuel1 = f + 1 := ⟨fuel1 - 1, by omega⟩
    unfold transport_rounds at h ⊢
    by_cases h1 : stage ≥ s.d_max_history_length
    · simpa only [h1, if_true] using h
    · by_cases h2 : |weight / initial_weight| < s.d_wt_cutoff
      · simpa only [h1, h2, if_true, if_false] using h
      · by_cases h3 : (getNewState (getNewRow s state).p_vals (getNewRow s state).row_length
            gen).1 = -1
        · simpa only [h1, h2, h3, if_true, if_false] using h
        · simp only [h1, h2, h3, if_false] at h ⊢
          cases hrec : transport_rounds s fuel
            (rd (getNewRow s state).inds
              (getNewState (getNewRow s state).p_vals (getNewRow s state).row_length gen).1)
            (weight * rd (getNewRow s state).w_vals
              (getNewState (getNewRow s state).p_vals (getNewRow s state).row_length gen).1)
            initial_weight (stage + 1)
            (getNewState (getNewRow s state).p_vals (getNewRow s state).row_length gen).2 with
          | none => rw [hrec] at h; simp at h
          | some l1 =>
            rw [hrec] at h
            rw [ih _ _ _ _ _ l1 hrec f (by omega)]
            exact h

/-- C11: with `weight_cutoff = 0` and `max_history_length = K ≥ 0`, under either estimator
and for every row view and generator, a history leaves its loop after at most `K+1` rounds
(one tally each) and at most `K` transitions, no round ends at the weight cutoff, and
allowing the loop more rounds changes nothing. -/
theorem history_terminates (s : AdjointMcParallelReduce) (gen : generator_type)
    (hK : 0 ≤ s.d_max_history_length) (hcut : s.d_wt_cutoff = 0) :
    ∃ rounds, operator_rounds s gen = some rounds ∧
      (∀ y, operator_call s gen y = some (tally_rounds s rounds y)) ∧
      rounds.length ≤ s.d_max_history_length.toNat + 1 ∧
      (rounds.filter Round.moves).length ≤ s.d_max_history_length.toNat ∧
      (∀ r, r ∈ rounds → r.leave ≠ Leave.weight_cutoff) ∧
      (∀ (w iw : SCALAR), ¬ |w / iw| < s.d_wt_cutoff) ∧
      (∀ (state : ℤ) (w : SCALAR) (gen1 : generator_type) (fuel : ℕ),
        (s.d_max_history_length - start_stage s).toNat + 1 ≤ fuel →
        transport_rounds s fuel state w w (start_stage s) gen1 =
          transport_rounds s ((s.d_max_history_length - start_stage s).toNat + 1)
            state w w (start_stage s) gen1) := by
  have hst : 0 ≤ start_stage s := by
    unfold start_stage
    split <;> decide
  have key : ∃ rounds, operator_rounds s gen = some rounds ∧
      rounds.length ≤ s.d_max_history_length.toNat + 1 ∧
      (rounds.filter Round.moves).length ≤ s.d_max_history_length.toNat ∧
      (∀ r, r ∈ rounds → r.leave ≠ Leave.weight_cutoff) := by
    unfold operator_rounds
    by_cases h1 : (getNewState s.d_start_cdf s.value_count gen).1 = -1
    · simp only [h1, if_true]
      exact ⟨[], rfl, by simp, by simp, by simp⟩
    · by_cases h2 : |rd s.d_start_wt (getNewState s.d_start_cdf s.value_count gen).1| = 0
      · simp only [h1, h2, if_true, if_false]
        exact ⟨[], rfl, by simp, by simp, by simp⟩
      · obtain ⟨l, hl, hlen, hmv, hwc⟩ := transport_rounds_bound s
          ((s.d_max_history_length - start_stage s).toNat + 1)
          (getNewState s.d_start_cdf s.value_count gen).1
          (rd s.d_start_wt (getNewState s.d_start_cdf s.value_count gen).1)
          (rd s.d_start_wt (getNewState s.d_start_cdf s.value_count gen).1)
          (start_stage s) (getNewState s.d_start_cdf s.value_count gen).2 (by omega)
        simp only [h1, h2, if_false, hl]
        exact ⟨l, rfl, by omega, by omega, hwc hcut⟩
  obtain ⟨rounds, hr, hlen, hmv, hwc⟩ := key
  refine ⟨rounds, hr, fun y => ?_, hlen, hmv, hwc, fun w iw => ?_, ?_⟩
  · rw [operator_call_eq_rounds, hr]
    rfl
  · rw [hcut]
    exact not_lt.mpr (abs_nonneg _)
  · intro state w gen1 fuel hfuel
    obtain ⟨l, hl, _⟩ := transport_rounds_bound s
      ((s.d_max_history_length - start_stage s).toNat + 1) state w w (start_stage s) gen1
      (by omega)
    rw [hl]
    exact transport_rounds_fuel s _ _ _ _ _ _ l hl fuel hfuel


theorem transport_rounds_index (s : AdjointMcParallelReduce) :
    ∀ (fuel : ℕ) (state : ℤ) (weight initial_weight : SCALAR) (stage : ℤ)
      (gen : generator_type) (l : List Round),
      transport_rounds s fuel state weight initial_weight stage gen = some l →
      (∃ r0 l1, l = r0 :: l1 ∧ r0.state = state ∧ r0.weight = weight ∧ r0.stage = stage) ∧
      ∀ (n : ℕ) (r : Round), l[n]? = some r →
        r.stage = stage + n ∧
        r.weight = weight * ((l.take n).map (Round.factor s)).prod ∧
        ∀ r1 : Round, l[n + 1]? = some r1 →
          ∃ k, r.leave = Leave.moved k ∧
            r1.weight = r.weight * rd (getNewRow s r.state).w_vals k ∧
            r1.state = rd (getNewRow s r.state).inds k ∧
            r1.stage = r.stage + 1 := by
  intro fuel
  induction fuel with
  | zero => intro _ _ _ _ _ _ h; simp [transport_rounds] at h
  | succ fuel ih =>
    intro state weight initial_weight stage gen l h
    unfold transport_rounds at h
    have single : ∀ lv : Leave,
        l = [{ state := state, weight := weight, stage := stage, leave := lv }] →
        (∃ r0 l1, l = r0 :: l1 ∧ r0.state = state ∧ r0.weight = weight ∧ r0.stage = stage) ∧
        ∀ (n : ℕ) (r : Round), l[n]? = some r →
          r.stage = stage + n ∧
          r.weight = weight * ((l.take n).map (Round.factor s)).prod ∧
          ∀ r1 : Round, l[n + 1]? = some r1 →
            ∃ k, r.leave = Leave.moved k ∧
              r1.weight = r.weight * rd (getNewRow s r.state).w_vals k ∧
              r1.state = rd (getNewRow s r.state).inds k ∧
              r1.stage = r.stage + 1 := by
      intro lv hl
      subst hl
      refine ⟨⟨_, _, rfl, rfl, rfl, rfl⟩, ?_⟩
      intro n r hn
      cases n with
      | zero =>
        simp only [List.getElem?_cons_zero, Option.some.injEq] at hn
        subst hn
        refine ⟨by simp, by simp, ?_⟩
        intro r1 hr1
        simp at hr1
      | succ n => simp at hn
    by_cases h1 : stage ≥ s.d_max_history_length
    · simp only [h1, if_true, Option.some.injEq] at h
      exact single _ h.symm
    · by_cases h2 : |weight / initial_weight| < s.d_wt_cutoff
      · simp only [h1, h2, if_true, if_false, Option.some.injEq] at h
        exact single _ h.symm
      · by_cases h3 : (getNewState (getNewRow s state).p_vals (getNewRow s state).row_length
            gen).1 = -1
        · simp only [h1, h2, h3, if_true, if_false, Option.some.injEq] at h
          exact single _ h.symm
        · simp only [h1, h2, h3, if_false] at h
          cases hrec : transport_rounds s fuel
            (rd (getNewRow s state).inds
              (getNewState (getNewRow s state).p_vals (getNewRow s state).row_length gen).1)
            (weight * rd (getNewRow s state).w_vals
              (getNewState (getNewRow s state).p_vals (getNewRow s state).row_length gen).1)
            initial_weight (stage + 1)
            (getNewState (getNewRow s state).p_vals (getNewRow s state).row_length gen).2 with
          | none => rw [hrec] at h; simp at h
          | some l1 =>
            rw [hrec] at h
            simp only [Option.map_some', Option.some.injEq] at h
            obtain ⟨⟨r0, l2, hl1, hs0, hw0, hg0⟩, hidx⟩ := ih _ _ _ _ _ l1 hrec
            subst h
            refine ⟨⟨_, _, rfl, rfl, rfl, rfl⟩, ?_⟩
            intro n r hn
            cases n with
            | zero =>
              simp only [List.getElem?_cons_zero, Option.some.injEq] at hn
              subst hn
              refine ⟨by simp, by simp, ?_⟩
              intro r1 hr1
              simp only [zero_add, List.getElem?_cons_succ, hl1, List.getElem?_cons_zero,
                Option.some.injEq] at hr1
              subst hr1
              exact ⟨_, rfl, hw0, hs0, hg0⟩
            | succ n =>
              simp only [List.getElem?_cons_succ] at hn
              obtain ⟨hst, hwt, hnext⟩ := hidx n r hn
              refine ⟨?_, ?_, ?_⟩
              · rw [hst]
                push_cast
                ring
              · rw [hwt]
                simp only [List.take_succ_cons, List.map_cons, List.prod_cons, Round.factor]
                ring
              · intro r1 hr1
                simp only [List.getElem?_cons_succ] at hr1
                exact hnext r1 hr1

/-- C20: in every history each transition through the sampled row position `k` multiplies
the weight by `W[k]`, moves the state to `inds[k]` and raises the stage by one; so at the
tally of round `n` the stage is the start stage plus `n` and the weight is the start weight
times the product of the `W` entries of the `n` transitions taken so far. -/
theorem history_weight_and_stage (s : AdjointMcParallelReduce) (gen : generator_type) :
    ∃ rounds, operator_rounds s gen = some rounds ∧
      (∀ y, operator_call s gen y = some (tally_rounds s rounds y)) ∧
      ∀ (n : ℕ) (r : Round), rounds[n]? = some r →
        r.stage = start_stage s + n ∧
        r.weight = rd s.d_start_wt (getNewState s.d_start_cdf s.value_count gen).1 *
          ((rounds.take n).map (Round.factor s)).prod ∧
        (n = 0 → r.state = (getNewState s.d_start_cdf s.value_count gen).1) ∧
        (rounds.take n).length = n ∧
        (∀ r0, r0 ∈ rounds.take n → r0.moves = true) ∧
        ∀ r1 : Round, rounds[n + 1]? = some r1 →
          ∃ k, r.leave = Leave.moved k ∧
            r1.weight = r.weight * rd (getNewRow s r.state).w_vals k ∧
            r1.state = rd (getNewRow s r.state).inds k ∧
            r1.stage = r.stage + 1 := by
  have key : ∃ rounds, operator_rounds s gen = some rounds ∧
      ∀ (n : ℕ) (r : Round), rounds[n]? = some r →
        r.stage = start_stage s + n ∧
        r.weight = rd s.d_start_wt (getNewState s.d_start_cdf s.value_count gen).1 *
          ((rounds.take n).map (Round.factor s)).prod ∧
        (n = 0 → r.state = (getNewState s.d_start_cdf s.value_count gen).1) ∧
        ∀ r1 : Round, rounds[n + 1]? = some r1 →
          ∃ k, r.leave = Leave.moved k ∧
            r1.weight = r.weight * rd (getNewRow s r.state).w_vals k ∧
            r1.state = rd (getNewRow s r.state).inds k ∧
            r1.stage = r.stage + 1 := by
    unfold operator_rounds
    by_cases h1 : (getNewState s.d_start_cdf s.value_count gen).1 = -1
    · simp only [h1, if_true]
      exact ⟨[], rfl, fun n r hn => by simp at hn⟩
    · by_cases h2 : |rd s.d_start_wt (getNewState s.d_start_cdf s.value_count gen).1| = 0
      · simp only [h1, h2, if_true, if_false]
        exact ⟨[], rfl, fun n r hn => by simp at hn⟩
      · obtain ⟨l, hl, _⟩ := transport_rounds_bound s
          ((s.d_max_history_length - start_stage s).toNat + 1)
          (getNewState s.d_start_cdf s.value_count gen).1
          (rd s.d_start_wt (getNewState s.d_start_cdf s.value_count gen).1)
          (rd s.d_start_wt (getNewState s.d_start_cdf s.value_count gen).1)
          (start_stage s) (getNewState s.d_start_cdf s.value_count gen).2 (by omega)
        simp only [h1, h2, if_false, hl]
        obtain ⟨⟨r0, l1, hl1, hs0, _, _⟩, hidx⟩ := transport_rounds_index s _ _ _ _ _ _ l hl
        refine ⟨l, rfl, fun n r hn => ?_⟩
        obtain ⟨hst, hwt, hnext⟩ := hidx n r hn
        refine ⟨hst, hwt, fun hn0 => ?_, hnext⟩
        subst hn0
        rw [hl1] at hn
        simp only [List.getElem?_cons_zero, Option.some.injEq] at hn
        rw [← hn, hs0]
  obtain ⟨rounds, hr, hidx⟩ := key
  refine ⟨rounds, hr, fun y => ?_, fun n r hn => ?_⟩
  · rw [operator_call_eq_rounds, hr]
    rfl
  · obtain ⟨hst, hwt, h0, hnext⟩ := hidx n r hn
    have hlt : n < rounds.length := by
      by_contra hc
      rw [List.getElem?_eq_none (by omega)] at hn
      exact Option.noConfusion hn
    refine ⟨hst, hwt, h0, by rw [List.length_take]; omega, fun r0 hr0 => ?_, hnext⟩
    obtain ⟨m, hm, hm2⟩ := List.getElem_of_mem hr0
    have hmn : m < n := by
      rw [List.length_take] at hm
      omega
    have hm3 : rounds[m]? = some r0 := by
      rw [List.getElem_take] at hm2
      rw [List.getElem?_eq_getElem (by omega), hm2]
    obtain ⟨_, _, _, hnext0⟩ := hidx m r0 hm3
    have hm4 : m + 1 < rounds.length := by omega
    obtain ⟨k, hk, _⟩ := hnext0 rounds[m + 1] (List.getElem?_eq_getElem hm4)
    simp [Round.moves, hk]


/-! ## The trivial 1x1 system -/

theorem solve_spec (pow : SCALAR → SCALAR → SCALAR) (pool : ℕ → generator_type)
    (s s1 : AdjointMcParallelReduce) (x y : List SCALAR) (T : ℕ → List SCALAR)
    (hy : y.length = s.value_count)
    (hb : build_initial_distribution pow s x = some s1)
    (hT : ∀ i, operator_call s1 (pool i) (init s1) = some (T i)) :
    ∃ y1, solve pow pool s x y = (some s1, y1) ∧ y1.length = s.value_count ∧
      ∀ j, j < s.value_count → y1.getD j 0 =
        if s.d_use_expected_value then
          1 / (s.d_num_histories : SCALAR) *
            (∑ i in Finset.range s.d_num_histories.toNat, (T i).getD j 0) +
            rd s.d_coeffs 0 * x.getD j 0
        else
          1 / (s.d_num_histories : SCALAR) *
            (∑ i in Finset.range s.d_num_histories.toNat, (T i).getD j 0) := by
  obtain ⟨hN, _, hc, hn, _, hev1, _, _⟩ := build_initial_distribution_frame pow s s1 x hb
  obtain ⟨T1, m, hT1, hm, hml, hmv⟩ := parallel_reduce_sum s1 pool
  have hTT : ∀ i, T1 i = T i := fun i => Option.some.inj ((hT1 i).symm.trans (hT i))
  obtain ⟨hal, hav⟩ := apply_scale_spec s1 (1 / (s1.d_num_histories : SCALAR)) m y
    (by rw [hN]; exact hy)
  refine ⟨_, solve_of_build pow pool s s1 x y m hb hm, ?_, fun j hj => ?_⟩
  · split
    · rw [(update_spec _ _ _ _).1, hal, hN]
    · rw [hal, hN]
  · rw [hev1]
    by_cases hev : s.d_use_expected_value = true
    · rw [if_pos hev, if_pos hev, (update_spec _ _ _ _).2 j (by rw [hal, hN]; exact hj),
        hav j (by rw [hN]; exact hj), hmv j (by rw [hN]; exact hj), hc, hn, one_mul]
      simp only [hTT]
    · rw [if_neg hev, if_neg hev, hav j (by rw [hN]; exact hj),
        hmv j (by rw [hN]; exact hj), hn]
      simp only [hTT]

theorem getNewState_single (gen : generator_type) (h : gen 0 < 1) :
    getNewState [1] 1 gen = (0, (draw gen).2) := by
  have h2 : ¬ (1 : SCALAR) ≤ gen 0 := not_le.mpr h
  simp [getNewState, lower_bound, lower_bound_loop, draw, h2]

theorem trivial_system_build (pow : SCALAR → SCALAR → SCALAR) (c0 c1 : SCALAR) (n : ℤ)
    (p x0 : SCALAR) (hpw : 0 < pow |x0| p) :
    build_initial_distribution pow (trivial_system c0 c1 n p) [x0] =
      some (trivial_started c0 c1 n p x0) := by
  have hr : List.range 1 = [0] := rfl
  have hraw : start_raw pow (trivial_system c0 c1 n p) [x0] = [pow |x0| p] := by
    simp [start_raw, trivial_system, hr]
  have hs : pdf_sum pow (trivial_system c0 c1 n p) [x0] = pow |x0| p := by
    simp [pdf_sum, hraw]
  have hpdf : start_pdf pow (trivial_system c0 c1 n p) [x0] = [1] := by
    simp [start_pdf, hs, hraw, div_self hpw.ne']
  rw [build_initial_distribution_eq _ _ _ (by rw [hs]; exact hpw)]
  simp only [start_weights, hpdf, partial_sum, partial_sum_from]
  simp [trivial_system, trivial_started]

theorem trivial_system_history (c0 c1 : SCALAR) (n : ℤ) (p x0 : SCALAR) (hx0 : x0 ≠ 0)
    (gen : generator_type) (h0 : gen 0 < 1) (h1 : gen 1 < 1) (v : SCALAR) :
    operator_call (trivial_started c0 c1 n p x0) gen [v] =
      some [v + c0 * x0 + c1 * (x0 * 1)] := by
  have hg : getNewState [1] 1 gen = (0, (draw gen).2) := getNewState_single gen h0
  have hg1 : getNewState [1] 1 (draw gen).2 = (0, (draw (draw gen).2).2) :=
    getNewState_single _ h1
  simp [operator_call, transport, tally_step, tallyContribution, getNewRow, trivial_system,
    trivial_started, rd, add_at, hg, hg1, hx0]


/-- C12: for the trivial 1x1 system with the collision estimator, `weight_cutoff = 0` and
`max_history_length = 1`, for every `x0 ≠ 0`, every `num_histories ≥ 1` and all draws in
`[0,1)`, the fused solve returns `y[0] = c0*x0 + c1*x0*W = (c0 + c1) * x0` (`pow` is
positive on positive magnitudes). -/
theorem trivial_system_solve (pow : SCALAR → SCALAR → SCALAR) (c0 c1 : SCALAR) (n : ℤ)
    (p x0 y0 : SCALAR) (pool : ℕ → generator_type)
    (hpw : ∀ a : SCALAR, 0 < a → 0 < pow a p) (hx0 : x0 ≠ 0) (hn : 1 ≤ n)
    (hpool : ∀ i k, 0 ≤ pool i k ∧ pool i k < 1) :
    ∃ s1, solve pow pool (trivial_system c0 c1 n p) [x0] [y0] =
        (some s1, [c0 * x0 + c1 * x0 * 1]) ∧
      c0 * x0 + c1 * x0 * 1 = (c0 + c1) * x0 := by
  have hb := trivial_system_build pow c0 c1 n p x0 (hpw _ (abs_pos.mpr hx0))
  have hT : ∀ i, operator_call (trivial_started c0 c1 n p x0) (pool i)
      (init (trivial_started c0 c1 n p x0)) =
      some [0 + c0 * x0 + c1 * (x0 * 1)] := fun i =>
    trivial_system_history c0 c1 n p x0 hx0 (pool i) (hpool i 0).2 (hpool i 1).2 0
  obtain ⟨y1, hs, hl, hv⟩ := solve_spec pow pool (trivial_system c0 c1 n p)
    (trivial_started c0 c1 n p x0) [x0] [y0]
    (fun _ => [0 + c0 * x0 + c1 * (x0 * 1)]) rfl hb hT
  refine ⟨trivial_started c0 c1 n p x0, ?_, by ring⟩
  rw [hs]
  congr 1
  apply list_ext_getD _ _ (by rw [hl]; rfl)
  intro j hj
  have hj0 : j = 0 := by
    rw [hl] at hj
    change j < 1 at hj
    omega
  subst hj0
  rw [hv 0 Nat.zero_lt_one]
  have hnq : (n : SCALAR) ≠ 0 := by
    have : (0 : ℤ) < n := by omega
    exact_mod_cast this.ne'
  have hcast : ((n.toNat : ℕ) : SCALAR) = (n : SCALAR) := by
    have : ((n.toNat : ℕ) : ℤ) = n := Int.toNat_of_nonneg (by omega)
    exact_mod_cast this
  simp only [trivial_system, Bool.false_eq_true, if_false, List.getD_cons_zero,
    Finset.sum_const, Finset.card_range, nsmul_eq_mul, hcast]
  field_simp

theorem demo_pool_unit (i k : ℕ) : 0 ≤ demo_pool i k ∧ demo_pool i k < 1 := by
  unfold demo_pool
  constructor <;> norm_num

theorem trivial_system_solve_witness :
    (∀ a : SCALAR, 0 < a → 0 < pow_nat a 1) ∧ (3 : SCALAR) ≠ 0 ∧ (1 : ℤ) ≤ 5 ∧
    (∀ i k, 0 ≤ demo_pool i k ∧ demo_pool i k < 1) ∧
    ∃ s1, solve pow_nat demo_pool (trivial_system 2 7 5 1) [3] [11] =
        (some s1, [2 * 3 + 7 * 3 * 1]) ∧
      (2 : SCALAR) * 3 + 7 * 3 * 1 = (2 + 7) * 3 :=
  ⟨pow_nat_one_pos, by decide!, by decide!, demo_pool_unit,
    trivial_system_solve pow_nat 2 7 5 1 3 11 demo_pool pow_nat_one_pos (by decide!)
      (by decide!) demo_pool_unit⟩


/-! ## The tally reducer -/

theorem foldl_set_add_spec (b a : List SCALAR) (n : ℕ) :
    ((List.range n).foldl (fun acc i => acc.set i (acc.getD i 0 + b.getD i 0)) a).length =
      a.length ∧
    ∀ j, j < a.length →
      ((List.range n).foldl (fun acc i => acc.set i (acc.getD i 0 + b.getD i 0)) a).getD j 0 =
        if j < n then a.getD j 0 + b.getD j 0 else a.getD j 0 := by
  induction n with
  | zero => exact ⟨rfl, fun j _ => by simp⟩
  | succ n ih =>
    obtain ⟨hl, hv⟩ := ih
    rw [List.range_succ, List.foldl_append]
    simp only [List.foldl_cons, List.foldl_nil]
    refine ⟨by rw [List.length_set, hl], fun j hj => ?_⟩
    have hj2 : j < ((List.range n).foldl
        (fun acc i => acc.set i (acc.getD i 0 + b.getD i 0)) a).length := by
      rw [hl]; exact hj
    rw [List.getD_eq_getElem _ _ (by rw [List.length_set]; exact hj2)]
    by_cases hjn : n = j
    · subst hjn
      rw [List.getElem_set_self, hv n hj, if_neg (lt_irrefl n), if_pos (Nat.lt_succ_self n)]
    · rw [List.getElem_set_ne hjn, ← List.getD_eq_getElem _ 0 hj2, hv j hj]
      by_cases h1 : j < n
      · rw [if_pos h1, if_pos (by omega)]
      · rw [if_neg h1, if_neg (by omega)]

theorem join_spec (s : AdjointMcParallelReduce) (a b : List SCALAR)
    (ha : a.length = s.value_count) :
    (join s a b).length = s.value_count ∧
    ∀ j, j < s.value_count → (join s a b).getD j 0 = a.getD j 0 + b.getD j 0 := by
  obtain ⟨hl, hv⟩ := foldl_set_add_spec b a s.value_count
  refine ⟨by rw [join, hl, ha], fun j hj => ?_⟩
  rw [join, hv j (by omega), if_pos hj]

theorem foldl_join_spec (s : AdjointMcParallelReduce) (l : List (List SCALAR))
    (a : List SCALAR) (ha : a.length = s.value_count) :
    (l.foldl (join s) a).length = s.value_count ∧
    ∀ j, j < s.value_count →
      (l.foldl (join s) a).getD j 0 = a.getD j 0 + (l.map (fun v => v.getD j 0)).sum := by
  induction l generalizing a with
  | nil => exact ⟨ha, fun j _ => by simp⟩
  | cons v l ih =>
    obtain ⟨h1, h2⟩ := join_spec s a v ha
    obtain ⟨h3, h4⟩ := ih (join s a v) h1
    refine ⟨h3, fun j hj => ?_⟩
    simp only [List.foldl_cons, List.map_cons, List.sum_cons]
    rw [h4 j hj, h2 j hj, add_assoc]

/-- C13: on vectors of length `N`, `join(update, input)` returns as the new `update` the
elementwise sum `update[i] + input[i]` (`input` is only read), `join` is commutative and
associative, merging a list of partial vectors in any order gives the same vector, and
`init` is the vector of `N` zeros, a left and right identity of `join`. -/
theorem join_commutative_monoid (s : AdjointMcParallelReduce) (a b c : List SCALAR)
    (ha : a.length = s.value_count) (hb : b.length = s.value_count)
    (hc : c.length = s.value_count) :
    (join s a b).length = s.value_count ∧
    (∀ i, i < s.value_count → (join s a b).getD i 0 = a.getD i 0 + b.getD i 0) ∧
    join s a b = join s b a ∧
    join s (join s a b) c = join s a (join s b c) ∧
    (init s).length = s.value_count ∧
    (∀ i, i < s.value_count → (init s).getD i 0 = 0) ∧
    join s (init s) a = a ∧
    join s a (init s) = a ∧
    (∀ l1 l2 : List (List SCALAR), l1.Perm l2 →
      l1.foldl (join s) (init s) = l2.foldl (join s) (init s)) := by
  obtain ⟨hab, vab⟩ := join_spec s a b ha
  obtain ⟨hba, vba⟩ := join_spec s b a hb
  obtain ⟨hbc, vbc⟩ := join_spec s b c hb
  obtain ⟨habc, vabc⟩ := join_spec s (join s a b) c hab
  obtain ⟨habc2, vabc2⟩ := join_spec s a (join s b c) ha
  obtain ⟨h0a, v0a⟩ := join_spec s (init s) a (init_length s)
  obtain ⟨ha0, va0⟩ := join_spec s a (init s) ha
  refine ⟨hab, vab, ?_, ?_, init_length s, fun i _ => init_getD s i, ?_, ?_, ?_⟩
  · apply list_ext_getD _ _ (by rw [hab, hba])
    intro j hj
    rw [vab j (by omega), vba j (by omega), add_comm]
  · apply list_ext_getD _ _ (by rw [habc, habc2])
    intro j hj
    rw [vabc j (by omega), vab j (by omega), vabc2 j (by omega), vbc j (by omega), add_assoc]
  · apply list_ext_getD _ _ (by rw [h0a, ha])
    intro j hj
    rw [v0a j (by omega), init_getD, zero_add]
  · apply list_ext_getD _ _ (by rw [ha0, ha])
    intro j hj
    rw [va0 j (by omega), init_getD, add_zero]
  · intro l1 l2 hp
    obtain ⟨h1, v1⟩ := foldl_join_spec s l1 (init s) (init_length s)
    obtain ⟨h2, v2⟩ := foldl_join_spec s l2 (init s) (init_length s)
    apply list_ext_getD _ _ (by rw [h1, h2])
    intro j hj
    rw [v1 j (by omega), v2 j (by omega)]
    congr 1
    exact (hp.map _).sum_eq

theorem join_commutative_monoid_witness :
    ([1, 2] : List SCALAR).length = (demo false 0).value_count ∧
    join (demo false 0) [1, 2] [3, 4] = [4, 6] ∧
    join (demo false 0) [1, 2] [3, 4] = join (demo false 0) [3, 4] [1, 2] ∧
    join (demo false 0) (join (demo false 0) [1, 2] [3, 4]) [5, 6] =
      join (demo false 0) [1, 2] (join (demo false 0) [3, 4] [5, 6]) ∧
    init (demo false 0) = [0, 0] ∧
    join (demo false 0) (init (demo false 0)) [1, 2] = [1, 2] :=
  ⟨by decide!, by decide!,
    (join_commutative_monoid (demo false 0) [1, 2] [3, 4] [5, 6] (by decide!) (by decide!)
      (by decide!)).2.2.1,
    (join_commutative_monoid (demo false 0) [1, 2] [3, 4] [5, 6] (by decide!) (by decide!)
      (by decide!)).2.2.2.1,
    by decide!,
    (join_commutative_monoid (demo false 0) [1, 2] [3, 4] [5, 6] (by decide!) (by decide!)
      (by decide!)).2.2.2.2.2.2.1⟩


/-! ## The constructors -/

theorem construct_eq_none_iff (mc_data : MC_Data_View) (coeffs : List SCALAR)
    (pl : ParameterList) :
    AdjointMcParallelReduce.construct mc_data coeffs pl = none ↔
      ¬ (pl.estimator.getD "expected_value" = "collision" ∨
         pl.estimator.getD "expected_value" = "expected_value") := by
  unfold AdjointMcParallelReduce.construct VALIDATE
  by_cases h : pl.estimator.getD "expected_value" = "collision" ∨
      pl.estimator.getD "expected_value" = "expected_value"
  · simp [h]
  · simp [h]

/-- C14: constructing the fused solver fails exactly when the effective estimator string
(the entry of the list, or the default `expected_value`) is neither `collision` nor
`expected_value`; the comparison is exact, so `Collision` and `EXPECTED_VALUE` fail; on
success the expected-value flag is set exactly when the string is `expected_value`. -/
theorem construct_validates_estimator (mc_data : MC_Data_View) (coeffs : List SCALAR)
    (pl : ParameterList) :
    (AdjointMcParallelReduce.construct mc_data coeffs pl = none ↔
      (pl.estimator.getD "expected_value" ≠ "collision" ∧
       pl.estimator.getD "expected_value" ≠ "expected_value")) ∧
    (∀ s, AdjointMcParallelReduce.construct mc_data coeffs pl = some s →
      (s.d_use_expected_value = true ↔
        pl.estimator.getD "expected_value" = "expected_value")) ∧
    AdjointMcParallelReduce.construct mc_data coeffs
      { pl with estimator := some "Collision" } = none ∧
    AdjointMcParallelReduce.construct mc_data coeffs
      { pl with estimator := some "EXPECTED_VALUE" } = none ∧
    (∃ s, AdjointMcParallelReduce.construct mc_data coeffs
      { pl with estimator := none } = some s ∧ s.d_use_expected_value = true) := by
  have hflag : ∀ (pl1 : ParameterList) (s : AdjointMcParallelReduce),
      AdjointMcParallelReduce.construct mc_data coeffs pl1 = some s →
      (s.d_use_expected_value = true ↔
        pl1.estimator.getD "expected_value" = "expected_value") := by
    intro pl1 s hs
    unfold AdjointMcParallelReduce.construct VALIDATE at hs
    by_cases h : pl1.estimator.getD "expected_value" = "collision" ∨
        pl1.estimator.getD "expected_value" = "expected_value"
    · simp only [h, decide_True, if_true, Option.some_bind, Option.some.injEq] at hs
      rw [← hs]
      simp
    · simp [h] at hs
  refine ⟨?_, hflag pl, ?_, ?_, ?_⟩
  · rw [construct_eq_none_iff, not_or]
  · rw [construct_eq_none_iff]
    simp
  · rw [construct_eq_none_iff]
    simp
  · cases hc : AdjointMcParallelReduce.construct mc_data coeffs
        { pl with estimator := none } with
    | none =>
      rw [construct_eq_none_iff] at hc
      simp at hc
    | some s => exact ⟨s, rfl, (hflag _ s hc).mpr rfl⟩

theorem event_construct_isSome_iff (mc_data : MC_Data_View) (coeffs : List SCALAR)
    (pl : ParameterList) :
    (∃ k, AdjointMcEventKernel.construct mc_data coeffs pl = some k ∧
      k.d_use_expected_value = false) ↔ pl.estimator.getD "expected_value" = "collision" := by
  unfold AdjointMcEventKernel.construct VALIDATE
  by_cases h1 : pl.estimator.getD "expected_value" = "collision"
  · have h2 : ¬ pl.estimator.getD "expected_value" = "expected_value" := by
      rw [h1]; decide
    simp [h1, h2]
  · by_cases h2 : pl.estimator.getD "expected_value" = "expected_value"
    · simp [h1, h2]
    · simp [h1, h2]

/-- C15: constructing the event-kernel solver fails whenever the effective estimator is
`expected_value`, before any solve exists; as the default is `expected_value`, the
construction succeeds exactly when the list sets the estimator to `collision`. -/
theorem event_construct_rejects_expected_value (mc_data : MC_Data_View)
    (coeffs : List SCALAR) (pl : ParameterList) :
    (pl.estimator.getD "expected_value" = "expected_value" →
      AdjointMcEventKernel.construct mc_data coeffs pl = none) ∧
    ((∃ k, AdjointMcEventKernel.construct mc_data coeffs pl = some k) ↔
      pl.estimator = some "collision") ∧
    (∀ k, AdjointMcEventKernel.construct mc_data coeffs pl = some k →
      k.d_use_expected_value = false) ∧
    AdjointMcEventKernel.construct mc_data coeffs { pl with estimator := none } = none := by
  have hsome : ∀ k, AdjointMcEventKernel.construct mc_data coeffs pl = some k →
      k.d_use_expected_value = false ∧ pl.estimator.getD "expected_value" = "collision" := by
    intro k hk
    unfold AdjointMcEventKernel.construct VALIDATE at hk
    by_cases h1 : pl.estimator.getD "expected_value" = "collision"
    · have h2 : ¬ pl.estimator.getD "expected_value" = "expected_value" := by
        rw [h1]; decide
      simp [h1] at hk
      subst hk
      exact ⟨by simp, h1⟩
    · by_cases h2 : pl.estimator.getD "expected_value" = "expected_value"
      · simp [h1, h2] at hk
      · simp [h1, h2] at hk
  have hdef : ∀ e : Option String, e.getD "expected_value" = "collision" ↔
      e = some "collision" := by
    intro e
    cases e with
    | none => simp
    | some v => simp
  refine ⟨?_, ?_, fun k hk => (hsome k hk).1, ?_⟩
  · intro h
    cases hc : AdjointMcEventKernel.construct mc_data coeffs pl with
    | none => rfl
    | some k =>
      have := (hsome k hc).2
      rw [h] at this
      exact absurd this (by decide)
  · rw [← hdef]
    constructor
    · rintro ⟨k, hk⟩
      exact (hsome k hk).2
    · intro h
      obtain ⟨k, hk, _⟩ := (event_construct_isSome_iff mc_data coeffs pl).mpr h
      exact ⟨k, hk⟩
  · cases hc : AdjointMcEventKernel.construct mc_data coeffs { pl with estimator := none } with
    | none => rfl
    | some k =>
      have hh : ∀ k1, AdjointMcEventKernel.construct mc_data coeffs
          { pl with estimator := none } = some k1 → False := by
        intro k1 hk1
        unfold AdjointMcEventKernel.construct VALIDATE at hk1
        simp at hk1
      exact absurd hc (fun h => hh k h)


/-! ## Rebuilding the start distribution -/

theorem start_weights_rebuild (pow : SCALAR → SCALAR → SCALAR) (s : AdjointMcParallelReduce)
    (x : List SCALAR) (hx : x.length = s.value_count) (cdf wt1 : List SCALAR)
    (hwt : wt1.length ≤ s.value_count) :
    start_weights pow { s with d_start_cdf := cdf, d_start_wt := wt1 ++ s.d_start_wt.drop wt1.length } x =
      start_weights pow s x := by
  have hl : (start_pdf pow s x).length = s.value_count := start_pdf_length pow s x
  have hz : (List.zipWith (fun a b : SCALAR => if b = 0 then 0 else a / b) x
      (start_pdf pow s x)).length = s.value_count := by
    simp [hl, hx]
  show List.zipWith (fun a b : SCALAR => if b = 0 then 0 else a / b) x (start_pdf pow s x) ++
      (wt1 ++ s.d_start_wt.drop wt1.length).drop
        (List.zipWith (fun a b : SCALAR => if b = 0 then 0 else a / b) x
          (start_pdf pow s x)).length =
    List.zipWith (fun a b : SCALAR => if b = 0 then 0 else a / b) x (start_pdf pow s x) ++
      s.d_start_wt.drop
        (List.zipWith (fun a b : SCALAR => if b = 0 then 0 else a / b) x
          (start_pdf pow s x)).length
  rw [hz]
  congr 1
  rw [List.drop_append_eq_append_drop, List.drop_of_length_le hwt, List.nil_append,
    List.drop_drop]
  congr 1
  omega

/-- C17: `build_initial_distribution` called with `x` after an earlier call with any other
vector `x1` gives what it gives without that call, and called twice with `x` gives the same
solver as called once: the pair `(start_cdf, start_wt)` depends on `x` and the exponent
only, not on the start distribution left behind. -/
theorem build_initial_distribution_idempotent (pow : SCALAR → SCALAR → SCALAR)
    (s sa : AdjointMcParallelReduce) (x x1 : List SCALAR) (hx : x.length = s.value_count)
    (ha : build_initial_distribution pow s x1 = some sa) :
    build_initial_distribution pow sa x = build_initial_distribution pow s x ∧
    (∀ s1, build_initial_distribution pow s x = some s1 →
      build_initial_distribution pow s1 x = some s1) := by
  have step : ∀ (t ta : AdjointMcParallelReduce) (z : List SCALAR),
      t.value_count = s.value_count →
      build_initial_distribution pow t z = some ta →
      build_initial_distribution pow ta x = build_initial_distribution pow t x := by
    intro t ta z ht hta
    have hpos : pdf_sum pow t z > 0 := by
      by_contra hneg
      rw [build_initial_distribution_none pow t z hneg] at hta
      cases hta
    rw [build_initial_distribution_eq pow t z hpos] at hta
    cases hta
    have hw := start_weights_rebuild pow t x (by rw [hx, ht])
      (partial_sum (start_pdf pow t z))
      (List.zipWith (fun a b : SCALAR => if b = 0 then 0 else a / b) z (start_pdf pow t z))
      (by
        rw [List.length_zipWith, start_pdf_length]
        exact Nat.min_le_right _ _)
    by_cases hp : pdf_sum pow t x > 0
    · rw [build_initial_distribution_eq pow t x hp,
        build_initial_distribution_eq pow _ x (by exact hp)]
      congr 1
      show ({ t with
          d_start_cdf := partial_sum (start_pdf pow t x)
          d_start_wt := start_weights pow { t with
            d_start_cdf := partial_sum (start_pdf pow t z)
            d_start_wt := start_weights pow t z } x } : AdjointMcParallelReduce) = _
      rw [show start_weights pow t z =
        List.zipWith (fun a b : SCALAR => if b = 0 then 0 else a / b) z (start_pdf pow t z) ++
          t.d_start_wt.drop
            (List.zipWith (fun a b : SCALAR => if b = 0 then 0 else a / b) z
              (start_pdf pow t z)).length from rfl, hw]
    · rw [build_initial_distribution_none pow t x hp,
        build_initial_distribution_none pow _ x (by exact hp)]
  refine ⟨step s sa x1 rfl ha, fun s1 h1 => ?_⟩
  rw [step s s1 x rfl h1, h1]

theorem build_initial_distribution_idempotent_witness :
    ([3, -1] : List SCALAR).length = (demo false 0).value_count ∧
    partial_sum (start_pdf pow_nat (demo false 0) [1, 1]) = [1/2, 1] ∧
    start_weights pow_nat (demo false 0) [1, 1] = [2, 2] ∧
    build_initial_distribution pow_nat
        { demo false 0 with
          d_start_cdf := partial_sum (start_pdf pow_nat (demo false 0) [1, 1])
          d_start_wt := start_weights pow_nat (demo false 0) [1, 1] } [3, -1] =
      build_initial_distribution pow_nat (demo false 0) [3, -1] ∧
    (∀ s1, build_initial_distribution pow_nat (demo false 0) [3, -1] = some s1 →
      build_initial_distribution pow_nat s1 [3, -1] = some s1) :=
  ⟨by decide!, by decide!, by decide!,
    build_initial_distribution_idempotent pow_nat (demo false 0) _ [3, -1] [1, 1]
      (by decide!) (build_initial_distribution_eq pow_nat (demo false 0) [1, 1] (by decide!))⟩


/-! ## Bounded histories at a concrete input -/

theorem history_terminates_witness :
    0 ≤ (demo_started false 0).d_max_history_length ∧
    (demo_started false 0).d_wt_cutoff = 0 ∧
    operator_rounds (demo_started false 0) (demo_pool 0) =
      some [{ state := 0, weight := 4, stage := 0, leave := Leave.moved 0 },
            { state := 0, weight := 8, stage := 1, leave := Leave.moved 0 },
            { state := 0, weight := 16, stage := 2, leave := Leave.stage_cutoff }] ∧
    ∃ rounds, operator_rounds (demo_started false 0) (demo_pool 0) = some rounds ∧
      rounds.length ≤ (demo_started false 0).d_max_history_length.toNat + 1 ∧
      (rounds.filter Round.moves).length ≤ (demo_started false 0).d_max_history_length.toNat ∧
      (∀ r, r ∈ rounds → r.leave ≠ Leave.weight_cutoff) := by
  obtain ⟨rounds, h1, _, h2, h3, h4, _⟩ :=
    history_terminates (demo_started false 0) (demo_pool 0) (by decide!) (by decide!)
  exact ⟨by decide!, by decide!, by decide!, rounds, h1, h2, h3, h4⟩


/-! ## The event-kernel shape against the fused shape -/

theorem getNewState_fst_eq_sample (cdf : List SCALAR) (cdf_length : ℤ)
    (gen : generator_type) :
    (getNewState cdf cdf_length gen).1 = sample cdf cdf_length (gen 0) := by
  unfold getNewState sample draw
  simp only []
  split <;> rfl

theorem getNewState_snd (cdf : List SCALAR) (cdf_length : ℤ) (gen : generator_type) :
    (getNewState cdf cdf_length gen).2 = fun n => gen (n + 1) := by
  unfold getNewState draw
  simp only []
  split <;> rfl

theorem sample_nonneg (cdf : List SCALAR) (cdf_length : ℤ) (rand : SCALAR)
    (h : sample cdf cdf_length rand ≠ -1) : 0 ≤ sample cdf cdf_length rand := by
  unfold sample at h ⊢
  split
  · rename_i h1
    rw [if_pos h1] at h
    exact absurd rfl h
  · unfold lower_bound
    exact Int.natCast_nonneg _

theorem rd_drop_ne (inds : List ℤ) (off : ℕ) (k : ℤ) (hk : 0 ≤ k)
    (hinds : ∀ e, e ∈ inds → e ≠ -1) : rd (inds.drop off) k ≠ -1 := by
  unfold rd
  rw [if_neg (by omega)]
  by_cases h : k.toNat < (inds.drop off).length
  · rw [List.getD_eq_getElem _ _ h]
    exact hinds _ (List.mem_of_mem_drop (List.getElem_mem h))
  · rw [List.getD_eq_default _ _ (by omega)]
    decide

theorem walk_succ_front (mc_data : MC_Data_View) (g : generator_type) (h : History)
    (m : ℕ) :
    walk mc_data g h (m + 1) =
      walk mc_data (fun n => g (n + 1)) (StateTransition mc_data (g 0) h) m := by
  induction m with
  | zero => rfl
  | succ m ih =>
    show StateTransition mc_data (g (m + 1)) (walk mc_data g h (m + 1)) = _
    rw [ih]
    rfl

theorem walk_dead (mc_data : MC_Data_View) (g : generator_type) (h : History)
    (hd : h.state = -1) (m : ℕ) : (walk mc_data g h m).state = -1 := by
  induction m with
  | zero => exact hd
  | succ m ih =>
    show (StateTransition mc_data (g m) (walk mc_data g h m)).state = -1
    unfold StateTransition
    rw [if_pos ih]
    exact ih

theorem tally_dead (coeffs : List SCALAR) (h : History) (hd : h.state = -1) (j : ℕ) :
    h.tally coeffs j = 0 := by
  unfold History.tally
  rw [if_pos hd]


theorem tally_step_collision_getD (s : AdjointMcParallelReduce)
    (hev : s.d_use_expected_value = false) (state stage : ℤ) (weight : SCALAR)
    (hst : state ≠ -1) (y : List SCALAR) :
    (tally_step s state stage weight y).length = y.length ∧
    ∀ j, j < y.length → (tally_step s state stage weight y).getD j 0 =
      y.getD j 0 +
        History.tally s.d_coeffs { state := state, weight := weight, stage := stage } j := by
  rw [tally_step_collision_eq s state stage weight y hev]
  refine ⟨add_at_length _ _ _, fun j hj => ?_⟩
  rw [add_at_getD _ _ _ j hj]
  unfold History.tally
  rw [if_neg hst]

theorem StateTransition_live (mc_data : MC_Data_View) (rand : SCALAR) (h : History)
    (hst : h.state ≠ -1) :
    StateTransition mc_data rand h =
      if sample (mc_data.P.drop (rd mc_data.offsets h.state).toNat)
          (rd mc_data.offsets (h.state + 1) - rd mc_data.offsets h.state) rand = -1 then
        { h with state := -1 }
      else
        { state := rd (mc_data.inds.drop (rd mc_data.offsets h.state).toNat)
            (sample (mc_data.P.drop (rd mc_data.offsets h.state).toNat)
              (rd mc_data.offsets (h.state + 1) - rd mc_data.offsets h.state) rand)
          weight := h.weight * rd (mc_data.W.drop (rd mc_data.offsets h.state).toNat)
            (sample (mc_data.P.drop (rd mc_data.offsets h.state).toNat)
              (rd mc_data.offsets (h.state + 1) - rd mc_data.offsets h.state) rand)
          stage := h.stage + 1 } := by
  unfold StateTransition
  rw [if_neg hst]

theorem transport_walk (s : AdjointMcParallelReduce) (N : ℕ)
    (hev : s.d_use_expected_value = false) (hcut : s.d_wt_cutoff = 0)
    (hinds : ∀ e, e ∈ s.d_mc_data.inds → e ≠ -1) :
    ∀ (fuel : ℕ) (state : ℤ) (weight initial_weight : SCALAR) (stage : ℤ)
      (g : generator_type) (y : List SCALAR), state ≠ -1 →
      (s.d_max_history_length - stage).toNat < fuel → y.length = N →
      ∃ y1, transport s fuel state weight initial_weight stage g y = some y1 ∧
        y1.length = N ∧
        ∀ j, j < N → y1.getD j 0 = y.getD j 0 +
          ∑ m in Finset.range ((s.d_max_history_length - stage).toNat + 1),
            (walk s.d_mc_data g { state := state, weight := weight, stage := stage } m).tally
              s.d_coeffs j := by
  intro fuel
  induction fuel with
  | zero => intro _ _ _ _ _ _ _ h; omega
  | succ fuel ih =>
    intro state weight initial_weight stage g y hst hfuel hy
    obtain ⟨hl, hv⟩ := tally_step_collision_getD s hev state stage weight hst y
    have hsmp : (getNewState (getNewRow s state).p_vals (getNewRow s state).row_length g).1 =
        sample (s.d_mc_data.P.drop (rd s.d_mc_data.offsets state).toNat)
          (rd s.d_mc_data.offsets (state + 1) - rd s.d_mc_data.offsets state) (g 0) :=
      getNewState_fst_eq_sample _ _ _
    have hT := StateTransition_live s.d_mc_data (g 0)
      { state := state, weight := weight, stage := stage } hst
    simp only [] at hT
    by_cases h1 : stage ≥ s.d_max_history_length
    · refine ⟨_, transport_stop s fuel state weight initial_weight stage g y (Or.inl h1),
        by rw [hl, hy], fun j hj => ?_⟩
      have hz : (s.d_max_history_length - stage).toNat = 0 := by omega
      rw [hv j (by omega), hz]
      simp [walk]
    · have h2 : ¬ |weight / initial_weight| < s.d_wt_cutoff := by
        rw [hcut]
        exact not_lt.mpr (abs_nonneg _)
      obtain ⟨q, hq⟩ : ∃ q, (s.d_max_history_length - stage).toNat = q + 1 :=
        ⟨(s.d_max_history_length - stage).toNat - 1, by omega⟩
      have hq2 : (s.d_max_history_length - (stage + 1)).toNat = q := by omega
      by_cases h3 : (getNewState (getNewRow s state).p_vals (getNewRow s state).row_length
          g).1 = -1
      · refine ⟨tally_step s state stage weight y, ?_, by rw [hl, hy], fun j hj => ?_⟩
        · unfold transport
          simp only [h1, h2, h3, if_true, if_false]
        · rw [hsmp] at h3
          rw [if_pos h3] at hT
          rw [hv j (by omega), hq, Finset.sum_range_succ']
          have hz : ∀ m, (walk s.d_mc_data g
              { state := state, weight := weight, stage := stage } (m + 1)).tally
              s.d_coeffs j = 0 := by
            intro m
            rw [walk_succ_front, hT]
            exact tally_dead _ _ (walk_dead _ _ _ rfl m) j
          simp only [hz, Finset.sum_const_zero, zero_add]
          rfl
      · have hk : 0 ≤ sample (s.d_mc_data.P.drop (rd s.d_mc_data.offsets state).toNat)
            (rd s.d_mc_data.offsets (state + 1) - rd s.d_mc_data.offsets state) (g 0) :=
          sample_nonneg _ _ _ (by rw [← hsmp]; exact h3)
        have hnext : rd (getNewRow s state).inds
            (getNewState (getNewRow s state).p_vals (getNewRow s state).row_length g).1
            ≠ -1 := by
          rw [hsmp]
          exact rd_drop_ne _ _ _ hk hinds
        obtain ⟨y1, he, hl1, hv1⟩ := ih
          (rd (getNewRow s state).inds
            (getNewState (getNewRow s state).p_vals (getNewRow s state).row_length g).1)
          (weight * rd (getNewRow s state).w_vals
            (getNewState (getNewRow s state).p_vals (getNewRow s state).row_length g).1)
          initial_weight (stage + 1)
          (getNewState (getNewRow s state).p_vals (getNewRow s state).row_length g).2
          (tally_step s state stage weight y) hnext (by omega) (by rw [hl, hy])
        refine ⟨y1, ?_, hl1, fun j hj => ?_⟩
        · unfold transport
          simp only [h1, h2, h3, if_false]
          exact he
        · rw [hv1 j hj, hv j (by omega), hq, hq2, Finset.sum_range_succ' _ (q + 1), add_assoc]
          congr 1
          rw [add_comm]
          congr 1
          apply Finset.sum_congr rfl
          intro m _
          rw [walk_succ_front, hT, if_neg (by rw [← hsmp]; exact h3), getNewState_snd,
            ← hsmp]
          rfl

theorem operator_call_no_start_eq (s : AdjointMcParallelReduce) (gen : generator_type)
    (y : List SCALAR)
    (h : (getNewState s.d_start_cdf s.value_count gen).1 = -1 ∨
      rd s.d_start_wt (getNewState s.d_start_cdf s.value_count gen).1 = 0) :
    operator_call s gen y = some y := by
  unfold operator_call
  by_cases h1 : (getNewState s.d_start_cdf s.value_count gen).1 = -1
  · simp only [h1, if_true]
  · rcases h with h | h
    · exact absurd h h1
    · simp only [h1, if_false, h, abs_zero, if_true]

theorem operator_call_walk (s : AdjointMcParallelReduce) (N : ℕ)
    (hev : s.d_use_expected_value = false) (hcut : s.d_wt_cutoff = 0)
    (hinds : ∀ e, e ∈ s.d_mc_data.inds → e ≠ -1)
    (hcdf : s.d_start_cdf.length = s.value_count)
    (gen : generator_type) (y : List SCALAR) (hy : y.length = N) :
    ∃ y1, operator_call s gen y = some y1 ∧ y1.length = N ∧
      ∀ j, j < N → y1.getD j 0 = y.getD j 0 +
        ∑ m in Finset.range (s.d_max_history_length.toNat + 1),
          (walk s.d_mc_data (fun n => gen (n + 1))
            (InitHistory (gen 0) s.d_start_cdf s.d_start_wt) m).tally s.d_coeffs j := by
  have hsmp : (getNewState s.d_start_cdf s.value_count gen).1 =
      sample s.d_start_cdf s.d_start_cdf.length (gen 0) := by
    rw [getNewState_fst_eq_sample, hcdf]
  have hdead : ∀ h : History, h.state = -1 → ∀ j,
      ∑ m in Finset.range (s.d_max_history_length.toNat + 1),
        (walk s.d_mc_data (fun n => gen (n + 1)) h m).tally s.d_coeffs j = 0 := by
    intro h hd j
    apply Finset.sum_eq_zero
    intro m _
    exact tally_dead _ _ (walk_dead _ _ _ hd m) j
  by_cases h1 : (getNewState s.d_start_cdf s.value_count gen).1 = -1
  · have hI : InitHistory (gen 0) s.d_start_cdf s.d_start_wt =
        { state := -1, weight := 0, stage := 0 } := by
      unfold InitHistory
      simp only [← hsmp, h1, if_true]
    refine ⟨y, operator_call_no_start_eq s gen y (Or.inl h1), hy, fun j _ => ?_⟩
    rw [hI, hdead _ rfl j, add_zero]
  · by_cases h2 : |rd s.d_start_wt (getNewState s.d_start_cdf s.value_count gen).1| = 0
    · have hI : InitHistory (gen 0) s.d_start_cdf s.d_start_wt =
          { state := -1, weight := 0, stage := 0 } := by
        unfold InitHistory
        simp only [← hsmp, h1, h2, if_true, if_false]
      refine ⟨y, operator_call_no_start_eq s gen y (Or.inr (abs_eq_zero.mp h2)), hy,
        fun j _ => ?_⟩
      rw [hI, hdead _ rfl j, add_zero]
    · have hI : InitHistory (gen 0) s.d_start_cdf s.d_start_wt =
          { state := (getNewState s.d_start_cdf s.value_count gen).1
            weight := rd s.d_start_wt (getNewState s.d_start_cdf s.value_count gen).1
            stage := 0 } := by
        unfold InitHistory
        simp only [← hsmp, h1, h2, if_false]
      obtain ⟨y1, he, hl1, hv1⟩ := transport_walk s N hev hcut hinds
        ((s.d_max_history_length - 0).toNat + 1)
        (getNewState s.d_start_cdf s.value_count gen).1
        (rd s.d_start_wt (getNewState s.d_start_cdf s.value_count gen).1)
        (rd s.d_start_wt (getNewState s.d_start_cdf s.value_count gen).1) 0
        (getNewState s.d_start_cdf s.value_count gen).2 y h1 (by omega) hy
      refine ⟨y1, ?_, hl1, fun j hj => ?_⟩
      · unfold operator_call
        simp only [h1, h2, if_false, hev]
        exact he
      · rw [hv1 j hj, hI, getNewState_snd, sub_zero]

theorem Shift_CollisionTally (N : ℕ) (coeffs : List SCALAR) (h : History) :
    Shift N (fun y => CollisionTally coeffs h y) (fun j => h.tally coeffs j) := by
  unfold CollisionTally History.tally
  by_cases hd : h.state = -1
  · simp only [hd, if_true]
    exact Shift_id N
  · simp only [hd, if_false]
    exact Shift_add_at N _ _

theorem Shift_tally_all (N : ℕ) (coeffs : List SCALAR) (hist : List History) :
    Shift N (fun y => tally_all coeffs hist y)
      (fun j => (hist.map (fun h => h.tally coeffs j)).sum) := by
  unfold tally_all
  induction hist using List.reverseRecOn with
  | nil => exact Shift_id N
  | append_singleton l h ih =>
    have hc := Shift_comp N _ _ _ _ ih (Shift_CollisionTally N coeffs h)
    intro y hy
    obtain ⟨h1, h2⟩ := hc y hy
    refine ⟨by simpa [List.foldl_append] using h1, fun j hj => ?_⟩
    have := h2 j hj
    simp only [List.foldl_append, List.foldl_cons, List.foldl_nil, List.map_append,
      List.map_cons, List.map_nil, List.sum_append, List.sum_cons, List.sum_nil, add_zero]
    exact this

theorem zipWith_range_map {β γ : Type} (f : ℕ → β) (g : ℕ → β → γ) (l : List ℕ) :
    List.zipWith g l (l.map f) = l.map (fun i => g i (f i)) := by
  induction l with
  | nil => rfl
  | cons a l ih => simp [ih]

theorem event_run_spec (k : AdjointMcEventKernel) (pool : ℕ → generator_type) (m : ℕ) :
    ∃ y1, (List.range' 1 m).foldl
        (fun p i =>
          (transition_all k.d_mc_data (fun j => pool j i) k.d_num_histories.toNat p.1,
            tally_all k.d_coeffs
              (transition_all k.d_mc_data (fun j => pool j i) k.d_num_histories.toNat p.1)
              p.2))
        ((List.range k.d_num_histories.toNat).map
            (fun j => InitHistory (pool j 0) k.d_start_cdf k.d_start_wt),
          tally_all k.d_coeffs
            ((List.range k.d_num_histories.toNat).map
              (fun j => InitHistory (pool j 0) k.d_start_cdf k.d_start_wt))
            (List.replicate k.d_N (0 : SCALAR))) =
      ((List.range k.d_num_histories.toNat).map
          (fun j => walk k.d_mc_data (fun n => pool j (n + 1))
            (InitHistory (pool j 0) k.d_start_cdf k.d_start_wt) m), y1) ∧
      y1.length = k.d_N ∧
      ∀ j, j < k.d_N → y1.getD j 0 =
        ∑ r in Finset.range (m + 1), ∑ i in Finset.range k.d_num_histories.toNat,
          (walk k.d_mc_data (fun n => pool i (n + 1))
            (InitHistory (pool i 0) k.d_start_cdf k.d_start_wt) r).tally k.d_coeffs j := by
  induction m with
  | zero =>
    obtain ⟨hl, hv⟩ := Shift_tally_all k.d_N k.d_coeffs
      ((List.range k.d_num_histories.toNat).map
        (fun j => InitHistory (pool j 0) k.d_start_cdf k.d_start_wt))
      (List.replicate k.d_N (0 : SCALAR)) (by simp)
    refine ⟨_, rfl, hl, fun j hj => ?_⟩
    rw [hv j hj, List.getD_eq_getElem _ _ (by simpa using hj)]
    simp only [List.getElem_replicate, zero_add, List.map_map, Finset.sum_range_one]
    rw [← sum_range_map]
    rfl
  | succ m ih =>
    obtain ⟨y1, he, hl, hv⟩ := ih
    have hstep : transition_all k.d_mc_data (fun j => pool j (1 + 1 * m))
        k.d_num_histories.toNat
        ((List.range k.d_num_histories.toNat).map
          (fun j => walk k.d_mc_data (fun n => pool j (n + 1))
            (InitHistory (pool j 0) k.d_start_cdf k.d_start_wt) m)) =
        (List.range k.d_num_histories.toNat).map
          (fun j => walk k.d_mc_data (fun n => pool j (n + 1))
            (InitHistory (pool j 0) k.d_start_cdf k.d_start_wt) (m + 1)) := by
      unfold transition_all
      rw [zipWith_range_map]
      apply List.map_congr_left
      intro j _
      show _ = StateTransition k.d_mc_data (pool j (m + 1)) _
      rw [show 1 + 1 * m = m + 1 by omega]
    obtain ⟨hl2, hv2⟩ := Shift_tally_all k.d_N k.d_coeffs
      ((List.range k.d_num_histories.toNat).map
        (fun j => walk k.d_mc_data (fun n => pool j (n + 1))
          (InitHistory (pool j 0) k.d_start_cdf k.d_start_wt) (m + 1))) y1 hl
    refine ⟨_, ?_, hl2, fun j hj => ?_⟩
    · rw [List.range'_concat, List.foldl_append, he]
      simp only [List.foldl_cons, List.foldl_nil, hstep]
    · have h3 := hv2 j hj
      simp only [List.map_map] at h3
      rw [h3, hv j hj, Finset.sum_range_succ _ (m + 1), ← sum_range_map]
      rfl

theorem event_mirror_eq_fused (k1 : AdjointMcEventKernel) (pool : ℕ → generator_type)
    (hev : k1.d_use_expected_value = false)
    (hinds : ∀ e, e ∈ k1.d_mc_data.inds → e ≠ -1)
    (hcdf : k1.d_start_cdf.length = k1.d_N) :
    parallel_reduce (k1.as_fused 0) pool = some (k1.run pool).2 := by
  obtain ⟨T, m, hT, hm, hml, hmv⟩ := parallel_reduce_sum (k1.as_fused 0) pool
  obtain ⟨y1, he, hl1, hv1⟩ := event_run_spec k1 pool k1.d_max_history_length.toNat
  have hrun : (k1.run pool).2 = y1 := by
    unfold AdjointMcEventKernel.run
    simp only []
    rw [he]
  rw [hm, hrun]
  congr 1
  apply list_ext_getD _ _ (by rw [hml, hl1]; rfl)
  intro j hj
  have hj2 : j < k1.d_N := by rw [hml] at hj; exact hj
  rw [hmv j hj2, hv1 j hj2, Finset.sum_comm]
  apply Finset.sum_congr rfl
  intro i _
  obtain ⟨t, ht, _, htv⟩ := operator_call_walk (k1.as_fused 0) k1.d_N hev rfl hinds hcdf
    (pool i) (init (k1.as_fused 0)) (init_length _)
  have hTi : T i = t := Option.some.inj ((hT i).symm.trans ht)
  rw [hTi, htv j hj2, init_getD, zero_add]
  rfl

theorem construct_as_fused (mc_data : MC_Data_View) (coeffs : List SCALAR)
    (pl : ParameterList) (k : AdjointMcEventKernel)
    (hk : AdjointMcEventKernel.construct mc_data coeffs pl = some k) :
    AdjointMcParallelReduce.construct mc_data coeffs { pl with weight_cutoff := some 0 } =
      some (k.as_fused 0) := by
  unfold AdjointMcEventKernel.construct VALIDATE at hk
  unfold AdjointMcParallelReduce.construct VALIDATE
  by_cases h1 : pl.estimator.getD "expected_value" = "collision"
  · simp [h1] at hk
    subst hk
    simp [h1, AdjointMcEventKernel.as_fused]
  · by_cases h2 : pl.estimator.getD "expected_value" = "expected_value"
    · simp [h1, h2] at hk
    · simp [h1, h2] at hk

theorem event_solve_eq_fused_aux (pow : SCALAR → SCALAR → SCALAR)
    (pool : ℕ → generator_type) (k : AdjointMcEventKernel) (x y : List SCALAR)
    (hev : k.d_use_expected_value = false)
    (hinds : ∀ e, e ∈ k.d_mc_data.inds → e ≠ -1) :
    (k.solve pow pool x y).2 = (solve pow pool (k.as_fused 0) x y).2 ∧
    ((k.solve pow pool x y).1 = none ↔ (solve pow pool (k.as_fused 0) x y).1 = none) := by
  by_cases hpos : pdf_sum pow (k.as_fused 0) x > 0
  · have hb := build_initial_distribution_eq pow (k.as_fused 0) x hpos
    have hkb : k.build_initial_distribution pow x = some
        { k with
          d_start_cdf := partial_sum (start_pdf pow (k.as_fused 0) x)
          d_start_wt := start_weights pow (k.as_fused 0) x } := by
      unfold AdjointMcEventKernel.build_initial_distribution
      rw [hb]
      rfl
    have hm := event_mirror_eq_fused
      { k with
        d_start_cdf := partial_sum (start_pdf pow (k.as_fused 0) x)
        d_start_wt := start_weights pow (k.as_fused 0) x } pool hev hinds
      (by
        show (partial_sum (start_pdf pow (k.as_fused 0) x)).length = k.d_N
        rw [partial_sum_length, start_pdf_length]
        rfl)
    have hf := solve_of_build pow pool (k.as_fused 0) _ x y _ hb hm
    have he : k.solve pow pool x y =
        (some { k with
          d_start_cdf := partial_sum (start_pdf pow (k.as_fused 0) x)
          d_start_wt := start_weights pow (k.as_fused 0) x },
        apply_scale (k.as_fused 0) (1 / (k.d_num_histories : SCALAR))
          (AdjointMcEventKernel.run { k with
            d_start_cdf := partial_sum (start_pdf pow (k.as_fused 0) x)
            d_start_wt := start_weights pow (k.as_fused 0) x } pool).2 y) := by
      unfold AdjointMcEventKernel.solve
      rw [hkb]
      simp only [hev, Bool.false_eq_true, if_false]
      rfl
    rw [hf, he]
    have hev2 : (k.as_fused 0).d_use_expected_value = false := hev
    refine ⟨?_, by simp⟩
    show _ = if (k.as_fused 0).d_use_expected_value = true then _ else _
    rw [hev2]
    rfl
  · have hb := build_initial_distribution_none pow (k.as_fused 0) x hpos
    have hkb : k.build_initial_distribution pow x = none := by
      unfold AdjointMcEventKernel.build_initial_distribution
      rw [hb]
      rfl
    have hf : solve pow pool (k.as_fused 0) x y = (none, y) := by
      simp only [solve, hb]
    have he : k.solve pow pool x y = (none, y) := by
      unfold AdjointMcEventKernel.solve
      rw [hkb]
    rw [hf, he]
    exact ⟨rfl, by simp⟩

/-- C16 as amended: the event-kernel solver has no weight cutoff (its constructor reads
none and its kernels are given none).  With the collision estimator, the same draws per
history and no `-1` among the column indices, its `solve` returns the output vector of the
fused `solve` run with `weight_cutoff = 0`, and fails exactly when that one fails; the
fused solver meant is the one constructed from the same parameter list with
`weight_cutoff` set to `0`. -/
theorem event_solve_eq_fused_without_cutoff (pow : SCALAR → SCALAR → SCALAR)
    (pool : ℕ → generator_type) (k : AdjointMcEventKernel) (x y : List SCALAR)
    (hev : k.d_use_expected_value = false)
    (hinds : ∀ e, e ∈ k.d_mc_data.inds → e ≠ -1) :
    (k.solve pow pool x y).2 = (solve pow pool (k.as_fused 0) x y).2 ∧
    ((k.solve pow pool x y).1 = none ↔ (solve pow pool (k.as_fused 0) x y).1 = none) ∧
    (∀ (mc_data : MC_Data_View) (coeffs : List SCALAR) (pl : ParameterList),
      AdjointMcEventKernel.construct mc_data coeffs pl = some k →
      AdjointMcParallelReduce.construct mc_data coeffs { pl with weight_cutoff := some 0 } =
        some (k.as_fused 0)) := by
  obtain ⟨h1, h2⟩ := event_solve_eq_fused_aux pow pool k x y hev hinds
  exact ⟨h1, h2, fun mc_data coeffs pl hk => construct_as_fused mc_data coeffs pl k hk⟩

theorem event_solve_eq_fused_without_cutoff_witness :
    demo_event.d_use_expected_value = false ∧
    (∀ e, e ∈ demo_event.d_mc_data.inds → e ≠ -1) ∧
    (demo_event.solve pow_nat demo_pool [3, -1] [7, 7]).2 = [12, 0] ∧
    (demo_event.solve pow_nat demo_pool [3, -1] [7, 7]).2 =
      (solve pow_nat demo_pool (demo_event.as_fused 0) [3, -1] [7, 7]).2 ∧
    ((demo_event.solve pow_nat demo_pool [3, -1] [7, 7]).1 = none ↔
      (solve pow_nat demo_pool (demo_event.as_fused 0) [3, -1] [7, 7]).1 = none) :=
  ⟨by decide!, by decide!, by decide!,
    (event_solve_eq_fused_without_cutoff pow_nat demo_pool demo_event [3, -1] [7, 7]
      (by decide!) (by decide!)).1,
    (event_solve_eq_fused_without_cutoff pow_nat demo_pool demo_event [3, -1] [7, 7]
      (by decide!) (by decide!)).2.1⟩

/-- C16 as stated fails: from one parameter list with the collision estimator and
`weight_cutoff = 2`, and with the same draws, the fused solve stops every history at the
weight cutoff after its first tally and returns `[4, 0]`, while the event-kernel solve
goes on transitioning and returns `[12, 0]`. -/
theorem event_kernel_cutoff_counterexample :
    (AdjointMcParallelReduce.construct demo_data [1, 1/2, 1/4] (demo_pl 2)).map
        (fun s => (solve pow_nat demo_pool s [3, -1] [7, 7]).2) = some [4, 0] ∧
    (AdjointMcEventKernel.construct demo_data [1, 1/2, 1/4] (demo_pl 2)).map
        (fun k => (k.solve pow_nat demo_pool [3, -1] [7, 7]).2) = some [12, 0] ∧
    ¬ (∀ (cutoff : SCALAR) (s : AdjointMcParallelReduce) (k : AdjointMcEventKernel),
        AdjointMcParallelReduce.construct demo_data [1, 1/2, 1/4] (demo_pl cutoff) = some s →
        AdjointMcEventKernel.construct demo_data [1, 1/2, 1/4] (demo_pl cutoff) = some k →
        (k.solve pow_nat demo_pool [3, -1] [7, 7]).2 =
          (solve pow_nat demo_pool s [3, -1] [7, 7]).2) := by
  have h1 : (AdjointMcParallelReduce.construct demo_data [1, 1/2, 1/4] (demo_pl 2)).map
      (fun s => (solve pow_nat demo_pool s [3, -1] [7, 7]).2) = some [4, 0] := by decide!
  have h2 : (AdjointMcEventKernel.construct demo_data [1, 1/2, 1/4] (demo_pl 2)).map
      (fun k => (k.solve pow_nat demo_pool [3, -1] [7, 7]).2) = some [12, 0] := by decide!
  refine ⟨h1, h2, fun h => ?_⟩
  cases hs : AdjointMcParallelReduce.construct demo_data [1, 1/2, 1/4] (demo_pl 2) with
  | none =>
    rw [hs] at h1
    exact Option.noConfusion h1
  | some s =>
    cases hk : AdjointMcEventKernel.construct demo_data [1, 1/2, 1/4] (demo_pl 2) with
    | none =>
      rw [hk] at h2
      exact Option.noConfusion h2
    | some k =>
      have h3 := h 2 s k hs hk
      rw [hs] at h1
      rw [hk] at h2
      simp only [Option.map_some', Option.some.injEq] at h1 h2
      rw [h1, h2] at h3
      exact absurd h3 (by decide!)

/-! ## Absorption, start stage and the cutoff divisor -/

theorem tally_rounds_append (s : AdjointMcParallelReduce) (l1 l2 : List Round)
    (y : List SCALAR) :
    tally_rounds s (l1 ++ l2) y = tally_rounds s l2 (tally_rounds s l1 y) := by
  simp [tally_rounds, List.foldl_append]

theorem operator_rounds_cases (s : AdjointMcParallelReduce) (gen : generator_type) :
    (((getNewState s.d_start_cdf s.value_count gen).1 = -1 ∨
        rd s.d_start_wt (getNewState s.d_start_cdf s.value_count gen).1 = 0) ∧
      operator_rounds s gen = some []) ∨
    ((getNewState s.d_start_cdf s.value_count gen).1 ≠ -1 ∧
      rd s.d_start_wt (getNewState s.d_start_cdf s.value_count gen).1 ≠ 0 ∧
      ∃ l, operator_rounds s gen = some l ∧
        transport_rounds s ((s.d_max_history_length - start_stage s).toNat + 1)
          (getNewState s.d_start_cdf s.value_count gen).1
          (rd s.d_start_wt (getNewState s.d_start_cdf s.value_count gen).1)
          (rd s.d_start_wt (getNewState s.d_start_cdf s.value_count gen).1)
          (start_stage s) (getNewState s.d_start_cdf s.value_count gen).2 = some l) := by
  by_cases h1 : (getNewState s.d_start_cdf s.value_count gen).1 = -1
  · refine Or.inl ⟨Or.inl h1, ?_⟩
    simp only [operator_rounds, h1, if_true]
  · by_cases h2 : rd s.d_start_wt (getNewState s.d_start_cdf s.value_count gen).1 = 0
    · refine Or.inl ⟨Or.inr h2, ?_⟩
      simp only [operator_rounds, h1, h2, abs_zero, if_true, if_false]
    · obtain ⟨l, hl, _⟩ := transport_rounds_bound s
        ((s.d_max_history_length - start_stage s).toNat + 1)
        (getNewState s.d_start_cdf s.value_count gen).1
        (rd s.d_start_wt (getNewState s.d_start_cdf s.value_count gen).1)
        (rd s.d_start_wt (getNewState s.d_start_cdf s.value_count gen).1)
        (start_stage s) (getNewState s.d_start_cdf s.value_count gen).2 (by omega)
      refine Or.inr ⟨h1, h2, l, ?_, hl⟩
      simp only [operator_rounds, h1, abs_eq_zero, h2, if_false, hl]

theorem operator_rounds_total (s : AdjointMcParallelReduce) (gen : generator_type) :
    ∃ rounds, operator_rounds s gen = some rounds ∧
      ∀ y, operator_call s gen y = some (tally_rounds s rounds y) := by
  have h : ∃ rounds, operator_rounds s gen = some rounds := by
    rcases operator_rounds_cases s gen with ⟨_, h⟩ | ⟨_, _, l, h, _⟩
    · exact ⟨_, h⟩
    · exact ⟨_, h⟩
  obtain ⟨rounds, hr⟩ := h
  refine ⟨rounds, hr, fun y => ?_⟩
  rw [operator_call_eq_rounds, hr]
  rfl

theorem transport_absorbed (s : AdjointMcParallelReduce) (fuel : ℕ) (state : ℤ)
    (weight initial_weight : SCALAR) (stage : ℤ) (gen : generator_type)
    (hstage : stage < s.d_max_history_length)
    (hcut : ¬ |weight / initial_weight| < s.d_wt_cutoff)
    (hnone : (getNewState (getNewRow s state).p_vals (getNewRow s state).row_length gen).1
      = -1) :
    transport_rounds s (fuel + 1) state weight initial_weight stage gen =
      some [{ state := state, weight := weight, stage := stage, leave := Leave.absorbed }] := by
  unfold transport_rounds
  have h1 : ¬ stage ≥ s.d_max_history_length := by omega
  simp only [h1, hcut, hnone, if_true, if_false]

/-- C21: a round of a fused history whose row sample is `-1` (the answer of the sampler on
an empty row and on a draw that the row cdf does not cover) ends the history without a
failure: the loop returns the buffer with the tally of the current stage added and nothing
else, the round is recorded with the state, weight and stage it had, and in every history
a round that ends this way is the last one, the tallies of the earlier rounds and its own
being all that the history has added. -/
theorem history_absorbed (s : AdjointMcParallelReduce) (fuel : ℕ) (state : ℤ)
    (weight initial_weight : SCALAR) (stage : ℤ) (gen : generator_type) (y : List SCALAR)
    (hstage : stage < s.d_max_history_length)
    (hcut : ¬ |weight / initial_weight| < s.d_wt_cutoff)
    (hnone : (getNewState (getNewRow s state).p_vals (getNewRow s state).row_length gen).1
      = -1) :
    transport s (fuel + 1) state weight initial_weight stage gen y =
      some (tally_step s state stage weight y) ∧
    transport_rounds s (fuel + 1) state weight initial_weight stage gen =
      some [{ state := state, weight := weight, stage := stage, leave := Leave.absorbed }] ∧
    (∀ (gen0 : generator_type), ∃ rounds, operator_rounds s gen0 = some rounds ∧
      ∀ (n : ℕ) (r : Round), rounds[n]? = some r → r.leave = Leave.absorbed →
        rounds.length = n + 1 ∧
        ∀ y0, operator_call s gen0 y0 =
          some (tally_step s r.state r.stage r.weight (tally_rounds s (rounds.take n) y0))) := by
  have hr := transport_absorbed s fuel state weight initial_weight stage gen hstage hcut hnone
  refine ⟨?_, hr, fun gen0 => ?_⟩
  · rw [transport_eq_rounds, hr]
    rfl
  · obtain ⟨rounds, hrounds, hcall⟩ := operator_rounds_total s gen0
    refine ⟨rounds, hrounds, fun n r hn hab => ?_⟩
    have hlt : n < rounds.length := by
      by_contra hc
      rw [List.getElem?_eq_none (by omega)] at hn
      exact Option.noConfusion hn
    have hlen : rounds.length = n + 1 := by
      rcases operator_rounds_cases s gen0 with ⟨_, h⟩ | ⟨_, _, l, h, ht⟩
      · rw [hrounds] at h
        cases h
        simp at hlt
      · rw [hrounds] at h
        cases h
        obtain ⟨_, hidx⟩ := transport_rounds_index s _ _ _ _ _ _ rounds ht
        by_contra hc
        have h2 : n + 1 < rounds.length := by omega
        obtain ⟨k, hk, _⟩ := (hidx n r hn).2.2 rounds[n + 1] (List.getElem?_eq_getElem h2)
        rw [hab] at hk
        exact Leave.noConfusion hk
    refine ⟨hlen, fun y0 => ?_⟩
    have hsplit : rounds = rounds.take n ++ [r] := by
      have h1 : rounds.take (n + 1) = rounds := List.take_of_length_le (by omega)
      rw [List.take_succ, hn] at h1
      exact h1.symm
    rw [hcall y0]
    congr 1
    conv_lhs => rw [hsplit]
    rw [tally_rounds_append]
    rfl

theorem history_absorbed_witness :
    (0 : ℤ) < (demo_started false 0).d_max_history_length ∧
    ¬ |(-4 : SCALAR) / (-4)| < (demo_started false 0).d_wt_cutoff ∧
    (getNewState (getNewRow (demo_started false 0) 1).p_vals
      (getNewRow (demo_started false 0) 1).row_length (demo_pool 0)).1 = -1 ∧
    transport (demo_started false 0) 1 1 (-4) (-4) 0 (demo_pool 0) [0, 0] =
      some (tally_step (demo_started false 0) 1 0 (-4) [0, 0]) ∧
    tally_step (demo_started false 0) 1 0 (-4) [0, 0] = [0, -4] :=
  ⟨by decide!, by decide!, by decide!,
    (history_absorbed (demo_started false 0) 0 1 (-4) (-4) 0 (demo_pool 0) [0, 0]
      (by decide!) (by decide!) (by decide!)).1, by decide!⟩

theorem getNewRow_coeffs (s : AdjointMcParallelReduce) (c : List SCALAR) (state : ℤ) :
    getNewRow { s with d_coeffs := c } state = getNewRow s state := rfl

theorem tally_step_coeffs (s : AdjointMcParallelReduce) (c : List SCALAR)
    (state stage : ℤ) (weight : SCALAR) (y : List SCALAR)
    (h : rd c stage = rd s.d_coeffs stage) :
    tally_step { s with d_coeffs := c } state stage weight y =
      tally_step s state stage weight y := by
  unfold tally_step tallyContribution
  simp only [getNewRow_coeffs, h]

theorem transport_coeffs (s : AdjointMcParallelReduce) (c : List SCALAR)
    (hc : ∀ i : ℤ, 1 ≤ i → rd c i = rd s.d_coeffs i) :
    ∀ (fuel : ℕ) (state : ℤ) (weight initial_weight : SCALAR) (stage : ℤ)
      (gen : generator_type) (y : List SCALAR), 1 ≤ stage →
      transport { s with d_coeffs := c } fuel state weight initial_weight stage gen y =
        transport s fuel state weight initial_weight stage gen y := by
  intro fuel
  induction fuel with
  | zero => intro _ _ _ _ _ _ _; rfl
  | succ fuel ih =>
    intro state weight initial_weight stage gen y hst
    unfold transport
    simp only [getNewRow_coeffs, tally_step_coeffs s c state stage weight y (hc stage hst)]
    rw [ih _ _ _ _ _ _ (by omega)]

theorem operator_call_coeffs (s : AdjointMcParallelReduce) (c : List SCALAR)
    (hev : s.d_use_expected_value = true)
    (hc : ∀ i : ℤ, 1 ≤ i → rd c i = rd s.d_coeffs i) (gen : generator_type)
    (y : List SCALAR) :
    operator_call { s with d_coeffs := c } gen y = operator_call s gen y := by
  have hst : (1 : ℤ) ≤ if s.d_use_expected_value = true then 1 else 0 := by
    rw [if_pos hev]
  by_cases h1 : (getNewState s.d_start_cdf s.value_count gen).1 = -1
  · simp only [operator_call, h1, if_true]
  · by_cases h2 : |rd s.d_start_wt (getNewState s.d_start_cdf s.value_count gen).1| = 0
    · simp only [operator_call, h1, h2, if_true, if_false]
    · simp only [operator_call, h1, h2, if_false]
      exact transport_coeffs s c hc _ _ _ _ _ _ _ hst

/-- C22: a history starts at stage `1` under the expected-value estimator and at stage `0`
under the collision estimator, and the stage of round `n` is the start stage plus `n`.
Under the expected-value estimator every tally of a history has stage at least `1`, what a
history tallies does not change when the coefficients are replaced by others that agree
from index `1` on, and `coeffs[0]` enters the result of a solve through the term
`coeffs[0] * x[j]` added to the scaled sum of the tallies.  Under the collision estimator
the first round of a started history is at the start state with the start weight at stage
`0`, so its tally adds `coeffs[0] * start_weight` at the start state. -/
theorem start_stage_by_estimator (s : AdjointMcParallelReduce) (gen : generator_type) :
    ∃ rounds, operator_rounds s gen = some rounds ∧
      (∀ y, operator_call s gen y = some (tally_rounds s rounds y)) ∧
      (∀ (n : ℕ) (r : Round), rounds[n]? = some r → r.stage = start_stage s + n) ∧
      (s.d_use_expected_value = true →
        start_stage s = 1 ∧ (∀ r, r ∈ rounds → 1 ≤ r.stage) ∧
        (∀ (c : List SCALAR) (y : List SCALAR),
          (∀ i : ℤ, 1 ≤ i → rd c i = rd s.d_coeffs i) →
          operator_call { s with d_coeffs := c } gen y = operator_call s gen y) ∧
        (∀ (pow : SCALAR → SCALAR → SCALAR) (pool : ℕ → generator_type)
          (s0 : AdjointMcParallelReduce) (x y : List SCALAR),
          y.length = s0.value_count → build_initial_distribution pow s0 x = some s →
          ∃ (T : ℕ → List SCALAR) (y1 : List SCALAR),
            (∀ i, operator_call s (pool i) (init s) = some (T i)) ∧
            solve pow pool s0 x y = (some s, y1) ∧
            ∀ j, j < s.value_count → y1.getD j 0 =
              1 / (s.d_num_histories : SCALAR) *
                (∑ i in Finset.range s.d_num_histories.toNat, (T i).getD j 0) +
              rd s.d_coeffs 0 * x.getD j 0)) ∧
      (s.d_use_expected_value = false →
        start_stage s = 0 ∧
        ((getNewState s.d_start_cdf s.value_count gen).1 ≠ -1 →
          rd s.d_start_wt (getNewState s.d_start_cdf s.value_count gen).1 ≠ 0 →
          ∃ r0 rest, rounds = r0 :: rest ∧
            r0.state = (getNewState s.d_start_cdf s.value_count gen).1 ∧
            r0.weight = rd s.d_start_wt (getNewState s.d_start_cdf s.value_count gen).1 ∧
            r0.stage = 0 ∧
            ∀ y, operator_call s gen y =
              some (tally_rounds s rest
                (add_at y (getNewState s.d_start_cdf s.value_count gen).1
                  (rd s.d_coeffs 0 *
                    rd s.d_start_wt (getNewState s.d_start_cdf s.value_count gen).1))))) := by
  obtain ⟨rounds, hrounds, hcall⟩ := operator_rounds_total s gen
  have hstage : ∀ (n : ℕ) (r : Round), rounds[n]? = some r → r.stage = start_stage s + n := by
    intro n r hn
    rcases operator_rounds_cases s gen with ⟨_, h⟩ | ⟨_, _, l, h, ht⟩
    · rw [hrounds] at h
      cases h
      simp at hn
    · rw [hrounds] at h
      cases h
      exact ((transport_rounds_index s _ _ _ _ _ _ rounds ht).2 n r hn).1
  refine ⟨rounds, hrounds, hcall, hstage, fun hev => ?_, fun hev => ?_⟩
  · have hs1 : start_stage s = 1 := by simp [start_stage, hev]
    refine ⟨hs1, fun r hr => ?_, fun c y hc => operator_call_coeffs s c hev hc gen y, ?_⟩
    · obtain ⟨n, hn, hn2⟩ := List.getElem_of_mem hr
      have := hstage n r (by rw [List.getElem?_eq_getElem hn, hn2])
      rw [this, hs1]
      omega
    · intro pow pool s0 x y hy hb
      obtain ⟨hN, _, hco, hnh, _, hev1, _, _⟩ := build_initial_distribution_frame pow s0 s x hb
      obtain ⟨T, m, hT, _⟩ := parallel_reduce_sum s pool
      obtain ⟨y1, h1, _, hv⟩ := solve_spec pow pool s0 s x y T hy hb hT
      refine ⟨T, y1, hT, h1, fun j hj => ?_⟩
      rw [hv j (by rw [← hN]; exact hj), if_pos (by rw [← hev1]; exact hev), hco, hnh]
  · have hs0 : start_stage s = 0 := by simp [start_stage, hev]
    refine ⟨hs0, fun h1 h2 => ?_⟩
    rcases operator_rounds_cases s gen with ⟨h | h, _⟩ | ⟨_, _, l, h, ht⟩
    · exact absurd h h1
    · exact absurd h h2
    · rw [hrounds] at h
      cases h
      obtain ⟨⟨r0, rest, hl, hst, hw, hsg⟩, _⟩ := transport_rounds_index s _ _ _ _ _ _ rounds ht
      refine ⟨r0, rest, hl, hst, hw, by rw [hsg, hs0], fun y => ?_⟩
      rw [hcall y, hl]
      simp only [tally_rounds, List.foldl_cons]
      rw [tally_step_collision_eq s _ _ _ _ hev, hst, hw, hsg, hs0]

theorem transport_rounds_stage_le (s : AdjointMcParallelReduce) (fuel : ℕ) (state : ℤ)
    (weight initial_weight : SCALAR) (stage : ℤ) (gen : generator_type) (l : List Round)
    (hle : stage ≤ s.d_max_history_length)
    (hfuel : (s.d_max_history_length - stage).toNat < fuel)
    (h : transport_rounds s fuel state weight initial_weight stage gen = some l) :
    ∀ r, r ∈ l → stage ≤ r.stage ∧ r.stage ≤ s.d_max_history_length := by
  obtain ⟨l1, hl1, hlen, _⟩ := transport_rounds_bound s fuel state weight initial_weight
    stage gen hfuel
  rw [h] at hl1
  cases hl1
  intro r hr
  obtain ⟨n, hn, hn2⟩ := List.getElem_of_mem hr
  have hst := ((transport_rounds_index s _ _ _ _ _ _ l h).2 n r
    (by rw [List.getElem?_eq_getElem hn, hn2])).1
  omega

/-- The stages of a history stay inside the coefficient sequence when the history can start
at all inside it: with `start_stage ≤ max_history_length` every round has
`start_stage ≤ stage ≤ max_history_length`. -/
theorem operator_rounds_stage_le (s : AdjointMcParallelReduce) (gen : generator_type)
    (hle : start_stage s ≤ s.d_max_history_length) :
    ∃ rounds, operator_rounds s gen = some rounds ∧
      ∀ r, r ∈ rounds → 0 ≤ r.stage ∧ r.stage ≤ s.d_max_history_length := by
  have h0 : 0 ≤ start_stage s := by
    unfold start_stage
    split <;> decide
  rcases operator_rounds_cases s gen with ⟨_, h⟩ | ⟨_, _, l, h, ht⟩
  · exact ⟨[], h, fun r hr => by simp at hr⟩
  · refine ⟨l, h, fun r hr => ?_⟩
    have := transport_rounds_stage_le s _ _ _ _ _ _ l hle (by omega) ht r hr
    omega

/-- C24, at the failing configuration: under the expected-value estimator with the
one-element coefficient sequence `[1]` (so `max_history_length = 0`) the history started by
the draw `1/4` tallies once, at stage `1`: the tally reads `coeffs(1)`, one past the end of
the sequence, and `1 > max_history_length`. -/
theorem single_coefficient_stage_outside :
    demo_single.d_coeffs.length = 1 ∧
    demo_single.d_max_history_length = (demo_single.d_coeffs.length : ℤ) - 1 ∧
    demo_single.d_use_expected_value = true ∧
    operator_rounds demo_single (demo_pool 0) =
      some [{ state := 0, weight := 4, stage := 1, leave := Leave.stage_cutoff }] ∧
    operator_call demo_single (demo_pool 0) [0, 0] =
      some (tally_step demo_single 0 1 4 [0, 0]) ∧
    ¬ ((1 : ℤ) ≤ demo_single.d_max_history_length) ∧
    ¬ (1 < demo_single.d_coeffs.length) := by
  refine ⟨by decide, by decide, by decide, by decide!, by decide!, by decide, by decide⟩

theorem lower_bound_loop_bounds (cdf : List SCALAR) (val : SCALAR) :
    ∀ (fuel first count : ℕ),
      first ≤ lower_bound_loop cdf val fuel first count ∧
      lower_bound_loop cdf val fuel first count ≤ first + count := by
  intro fuel
  induction fuel with
  | zero =>
    intro first count
    simp only [lower_bound_loop]
    omega
  | succ fuel ih =>
    intro first count
    unfold lower_bound_loop
    by_cases hc0 : count = 0
    · simp only [hc0, if_true]
      omega
    · simp only [hc0, if_false]
      have hstep : count / 2 < count := Nat.div_lt_self (Nat.pos_of_ne_zero hc0) (by decide)
      by_cases hle : cdf.getD (first + count / 2) 0 ≤ val
      · simp only [hle, if_true]
        have h := ih (first + count / 2 + 1) (count - (count / 2 + 1))
        omega
      · simp only [hle, if_false]
        have h := ih first (count / 2)
        omega

theorem getNewState_range (cdf : List SCALAR) (L : ℤ) (gen : generator_type)
    (hL : 0 ≤ L) :
    (getNewState cdf L gen).1 = -1 ∨
      (0 ≤ (getNewState cdf L gen).1 ∧ (getNewState cdf L gen).1 < L) := by
  have hb := lower_bound_loop_bounds cdf (draw gen).1 L.toNat 0 L.toNat
  simp only [getNewState, lower_bound]
  by_cases h : ((lower_bound_loop cdf (draw gen).1 L.toNat 0 L.toNat : ℕ) : ℤ) = L
  · left
    rw [if_pos h]
  · right
    rw [if_neg h]
    constructor
    · positivity
    · show ((lower_bound_loop cdf (draw gen).1 L.toNat 0 L.toNat : ℕ) : ℤ) < L
      omega

theorem transport_ratios_eq_rounds (s : AdjointMcParallelReduce) :
    ∀ (fuel : ℕ) (state : ℤ) (weight initial_weight : SCALAR) (stage : ℤ)
      (gen : generator_type),
      transport_ratios s fuel state weight initial_weight stage gen =
        (transport_rounds s fuel state weight initial_weight stage gen).map
          (fun l => (l.filter Round.tests_cutoff).map (fun r => (r.weight, initial_weight))) := by
  intro fuel
  induction fuel with
  | zero => intro _ _ _ _ _; rfl
  | succ fuel ih =>
    intro state weight initial_weight stage gen
    unfold transport_ratios transport_rounds
    by_cases h1 : stage ≥ s.d_max_history_length
    · simp [h1, Round.tests_cutoff]
    · by_cases h2 : |weight / initial_weight| < s.d_wt_cutoff
      · simp [h1, h2, Round.tests_cutoff]
      · by_cases h3 : (getNewState (getNewRow s state).p_vals (getNewRow s state).row_length
            gen).1 = -1
        · simp [h1, h2, h3, Round.tests_cutoff]
        · simp only [h1, h2, h3, if_false, ih, Option.map_map]
          congr 1

theorem operator_ratios_eq_rounds (s : AdjointMcParallelReduce) (gen : generator_type) :
    operator_ratios s gen = (operator_rounds s gen).map
      (fun l => (l.filter Round.tests_cutoff).map
        (fun r => (r.weight, rd s.d_start_wt (getNewState s.d_start_cdf s.value_count gen).1))) := by
  unfold operator_ratios operator_rounds
  by_cases h1 : (getNewState s.d_start_cdf s.value_count gen).1 = -1
  · simp only [h1, if_true, Option.map_some', List.filter_nil, List.map_nil]
  · by_cases h2 : |rd s.d_start_wt (getNewState s.d_start_cdf s.value_count gen).1| = 0
    · simp only [h1, h2, if_true, if_false, Option.map_some', List.filter_nil, List.map_nil]
    · simp only [h1, h2, if_false, start_stage]
      exact transport_ratios_eq_rounds s _ _ _ _ _ _

/-- C26: the divisor of the weight-cutoff test is never zero.  Every quotient
`weight/initial_weight` that a history evaluates (one for each round that gets past the
stage cutoff) has as divisor the start weight of the sampled start state, which is not
`0`; a history whose sampled start weight is `0` evaluates none, and so does one whose draw
selects a start state `i` with `x[i] = 0` after `build_initial_distribution` on `x`. -/
theorem cutoff_divisor_nonzero (s : AdjointMcParallelReduce) (gen : generator_type) :
    ∃ l rounds, operator_ratios s gen = some l ∧ operator_rounds s gen = some rounds ∧
      l = (rounds.filter Round.tests_cutoff).map
        (fun r => (r.weight, rd s.d_start_wt (getNewState s.d_start_cdf s.value_count gen).1)) ∧
      (∀ p, p ∈ l →
        p.2 = rd s.d_start_wt (getNewState s.d_start_cdf s.value_count gen).1 ∧ p.2 ≠ 0) ∧
      (rd s.d_start_wt (getNewState s.d_start_cdf s.value_count gen).1 = 0 → l = []) ∧
      (∀ (pow : SCALAR → SCALAR → SCALAR) (s0 : AdjointMcParallelReduce) (x : List SCALAR),
        x.length = s0.value_count → build_initial_distribution pow s0 x = some s →
        rd x (getNewState s.d_start_cdf s.value_count gen).1 = 0 → l = []) := by
  have hzero : rd s.d_start_wt (getNewState s.d_start_cdf s.value_count gen).1 = 0 →
      operator_rounds s gen = some [] := by
    intro h0
    rcases operator_rounds_cases s gen with ⟨_, h⟩ | ⟨_, h2, _⟩
    · exact h
    · exact absurd h0 h2
  obtain ⟨rounds, hrounds, _⟩ := operator_rounds_total s gen
  have hl : operator_ratios s gen = some ((rounds.filter Round.tests_cutoff).map
      (fun r => (r.weight, rd s.d_start_wt (getNewState s.d_start_cdf s.value_count gen).1))) := by
    rw [operator_ratios_eq_rounds, hrounds]
    rfl
  have hnil : rd s.d_start_wt (getNewState s.d_start_cdf s.value_count gen).1 = 0 →
      (rounds.filter Round.tests_cutoff).map
        (fun r => (r.weight, rd s.d_start_wt (getNewState s.d_start_cdf s.value_count gen).1))
        = [] := by
    intro h0
    have := hzero h0
    rw [hrounds] at this
    cases this
    rfl
  refine ⟨_, rounds, hl, hrounds, rfl, fun p hp => ?_, hnil, fun pow s0 x hx hb hx0 => ?_⟩
  · obtain ⟨r, hr, hrp⟩ := List.mem_map.mp hp
    refine ⟨by rw [← hrp], fun hc => ?_⟩
    rw [← hrp] at hc
    have := hzero hc
    rw [hrounds] at this
    cases this
    simp at hr
  · apply hnil
    by_cases hpos : pdf_sum pow s0 x > 0
    · rw [build_initial_distribution_eq pow s0 x hpos] at hb
      cases hb
      show rd (start_weights pow s0 x)
        (getNewState (partial_sum (start_pdf pow s0 x)) s0.value_count gen).1 = 0
      change rd x (getNewState (partial_sum (start_pdf pow s0 x)) s0.value_count gen).1 = 0
        at hx0
      rcases getNewState_range (partial_sum (start_pdf pow s0 x)) s0.value_count gen
        (by positivity) with h | ⟨h1, h2⟩
      · rw [h]
        rfl
      · generalize (getNewState (partial_sum (start_pdf pow s0 x)) s0.value_count gen).1 = i
          at h1 h2 hx0
        have hi : i.toNat < s0.value_count := by omega
        unfold rd at hx0 ⊢
        rw [if_neg (by omega)] at hx0 ⊢
        rw [start_weights_getD pow s0 x hx _ hi, hx0]
        split
        · rfl
        · exact zero_div _
    · rw [build_initial_distribution_none pow s0 x hpos] at hb
      cases hb

/-! ## Index safety on a well-formed view -/

theorem offsets_mono (s : AdjointMcParallelReduce) (hwf : well_formed s) :
    ∀ (j i : ℕ), i ≤ j → j ≤ s.value_count →
      s.d_mc_data.offsets.getD i 0 ≤ s.d_mc_data.offsets.getD j 0 := by
  intro j
  induction j with
  | zero =>
    intro i hi _
    have : i = 0 := by omega
    rw [this]
  | succ j ih =>
    intro i hi hj
    by_cases h : i = j + 1
    · rw [h]
    · exact le_trans (ih i (by omega) (by omega)) (hwf.2.2.1 j (by omega))

theorem getNewRow_inside (s : AdjointMcParallelReduce) (hwf : well_formed s) (state : ℤ)
    (h0 : 0 ≤ state) (h1 : state < s.value_count) :
    0 ≤ rd s.d_mc_data.offsets state ∧ 0 ≤ (getNewRow s state).row_length ∧
    rd s.d_mc_data.offsets state + (getNewRow s state).row_length ≤
      (s.d_mc_data.inds.length : ℤ) ∧
    ∀ i : ℕ, (i : ℤ) < (getNewRow s state).row_length →
      0 ≤ (getNewRow s state).inds.getD i 0 ∧
      (getNewRow s state).inds.getD i 0 < s.value_count := by
  have ha : rd s.d_mc_data.offsets state = s.d_mc_data.offsets.getD state.toNat 0 := by
    unfold rd
    rw [if_neg (by omega)]
  have hb : rd s.d_mc_data.offsets (state + 1) =
      s.d_mc_data.offsets.getD (state.toNat + 1) 0 := by
    unfold rd
    rw [if_neg (by omega)]
    congr 1
    omega
  have hlo := offsets_mono s hwf state.toNat 0 (by omega) (by omega)
  have hmid := offsets_mono s hwf (state.toNat + 1) state.toNat (by omega) (by omega)
  have hhi := offsets_mono s hwf s.value_count (state.toNat + 1) (by omega) le_rfl
  rw [hwf.2.1] at hlo
  rw [hwf.2.2.2.1] at hhi
  have hrl : (getNewRow s state).row_length =
      s.d_mc_data.offsets.getD (state.toNat + 1) 0 -
        s.d_mc_data.offsets.getD state.toNat 0 := by
    simp only [getNewRow, ha, hb]
  refine ⟨by rw [ha]; exact hlo, by rw [hrl]; omega, by rw [ha, hrl]; omega, ?_⟩
  intro i hi
  rw [hrl] at hi
  have hin : (s.d_mc_data.offsets.getD state.toNat 0).toNat + i <
      s.d_mc_data.inds.length := by omega
  have hget : (getNewRow s state).inds.getD i 0 =
      s.d_mc_data.inds[(s.d_mc_data.offsets.getD state.toNat 0).toNat + i] := by
    simp only [getNewRow, ha]
    rw [List.getD_eq_getElem _ _ (by rw [List.length_drop]; omega), List.getElem_drop]
  rw [hget]
  exact hwf.2.2.2.2.2.2.2 _ (List.getElem_mem _)

theorem transport_rounds_safe (s : AdjointMcParallelReduce) (hwf : well_formed s) :
    ∀ (fuel : ℕ) (state : ℤ) (weight initial_weight : SCALAR) (stage : ℤ)
      (gen : generator_type) (l : List Round), 0 ≤ state → state < s.value_count →
      transport_rounds s fuel state weight initial_weight stage gen = some l →
      ∀ r, r ∈ l → 0 ≤ r.state ∧ r.state < s.value_count ∧
        ∀ k, r.leave = Leave.moved k → 0 ≤ k ∧ k < (getNewRow s r.state).row_length := by
  intro fuel
  induction fuel with
  | zero => intro _ _ _ _ _ _ _ _ h; simp [transport_rounds] at h
  | succ fuel ih =>
    intro state weight initial_weight stage gen l hs0 hs1 h
    unfold transport_rounds at h
    have single : ∀ lv : Leave, (∀ k, lv ≠ Leave.moved k) →
        l = [{ state := state, weight := weight, stage := stage, leave := lv }] →
        ∀ r, r ∈ l → 0 ≤ r.state ∧ r.state < s.value_count ∧
          ∀ k, r.leave = Leave.moved k → 0 ≤ k ∧ k < (getNewRow s r.state).row_length := by
      intro lv hlv hl r hr
      rw [hl, List.mem_singleton] at hr
      subst hr
      exact ⟨hs0, hs1, fun k hk => absurd hk (hlv k)⟩
    by_cases h1 : stage ≥ s.d_max_history_length
    · simp only [h1, if_true, Option.some.injEq] at h
      exact single _ (fun k hk => Leave.noConfusion hk) h.symm
    · by_cases h2 : |weight / initial_weight| < s.d_wt_cutoff
      · simp only [h1, h2, if_true, if_false, Option.some.injEq] at h
        exact single _ (fun k hk => Leave.noConfusion hk) h.symm
      · by_cases h3 : (getNewState (getNewRow s state).p_vals (getNewRow s state).row_length
            gen).1 = -1
        · simp only [h1, h2, h3, if_true, if_false, Option.some.injEq] at h
          exact single _ (fun k hk => Leave.noConfusion hk) h.symm
        · simp only [h1, h2, h3, if_false] at h
          obtain ⟨_, hrl0, _, hinds⟩ := getNewRow_inside s hwf state hs0 hs1
          have hk : 0 ≤ (getNewState (getNewRow s state).p_vals
              (getNewRow s state).row_length gen).1 ∧
              (getNewState (getNewRow s state).p_vals (getNewRow s state).row_length gen).1 <
                (getNewRow s state).row_length := by
            rcases getNewState_range (getNewRow s state).p_vals
              (getNewRow s state).row_length gen hrl0 with hc | hc
            · exact absurd hc h3
            · exact hc
          have hnext : 0 ≤ rd (getNewRow s state).inds
              (getNewState (getNewRow s state).p_vals (getNewRow s state).row_length gen).1 ∧
              rd (getNewRow s state).inds
                (getNewState (getNewRow s state).p_vals (getNewRow s state).row_length gen).1 <
                s.value_count := by
            generalize (getNewState (getNewRow s state).p_vals
              (getNewRow s state).row_length gen).1 = k at hk
            unfold rd
            rw [if_neg (by omega)]
            exact hinds k.toNat (by omega)
          cases hrec : transport_rounds s fuel
            (rd (getNewRow s state).inds
              (getNewState (getNewRow s state).p_vals (getNewRow s state).row_length gen).1)
            (weight * rd (getNewRow s state).w_vals
              (getNewState (getNewRow s state).p_vals (getNewRow s state).row_length gen).1)
            initial_weight (stage + 1)
            (getNewState (getNewRow s state).p_vals (getNewRow s state).row_length gen).2 with
          | none => rw [hrec] at h; simp at h
          | some l1 =>
            rw [hrec] at h
            simp only [Option.map_some', Option.some.injEq] at h
            have hl1 := ih _ _ _ _ _ l1 hnext.1 hnext.2 hrec
            subst h
            intro r hr
            rcases List.mem_cons.mp hr with hr | hr
            · subst hr
              refine ⟨hs0, hs1, fun k hkk => ?_⟩
              simp only [Leave.moved.injEq] at hkk
              rw [← hkk]
              exact hk
            · exact hl1 r hr

/-- C25: on a well-formed view every state visited by a history lies in `[0, N)`, the row
slice that `getNewRow` returns for it starts at a non-negative offset, has a non-negative
length and ends inside `H`, `P`, `W` and `inds`, every sampled transition index lies in
`[0, row_length)`, and the output indices a tally writes (the state under the collision
estimator, the entries `inds[i]`, `i < row_length`, of the row under the expected-value
estimator) lie in `[0, N)`. -/
theorem history_indices_inside (s : AdjointMcParallelReduce) (gen : generator_type)
    (hwf : well_formed s) :
    ∃ rounds, operator_rounds s gen = some rounds ∧
      (∀ y, operator_call s gen y = some (tally_rounds s rounds y)) ∧
      ∀ r, r ∈ rounds →
        (0 ≤ r.state ∧ r.state < s.value_count) ∧
        (0 ≤ rd s.d_mc_data.offsets r.state ∧ 0 ≤ (getNewRow s r.state).row_length ∧
          rd s.d_mc_data.offsets r.state + (getNewRow s r.state).row_length ≤
            (s.d_mc_data.H.length : ℤ) ∧
          rd s.d_mc_data.offsets r.state + (getNewRow s r.state).row_length ≤
            (s.d_mc_data.P.length : ℤ) ∧
          rd s.d_mc_data.offsets r.state + (getNewRow s r.state).row_length ≤
            (s.d_mc_data.W.length : ℤ) ∧
          rd s.d_mc_data.offsets r.state + (getNewRow s r.state).row_length ≤
            (s.d_mc_data.inds.length : ℤ)) ∧
        (∀ k, r.leave = Leave.moved k → 0 ≤ k ∧ k < (getNewRow s r.state).row_length) ∧
        (s.d_use_expected_value = false → ∀ y,
          tally_step s r.state r.stage r.weight y =
            add_at y r.state (rd s.d_coeffs r.stage * r.weight)) ∧
        (∀ i : ℕ, (i : ℤ) < (getNewRow s r.state).row_length →
          0 ≤ (getNewRow s r.state).inds.getD i 0 ∧
          (getNewRow s r.state).inds.getD i 0 < s.value_count) := by
  obtain ⟨rounds, hrounds, hcall⟩ := operator_rounds_total s gen
  refine ⟨rounds, hrounds, hcall, fun r hr => ?_⟩
  have hsafe : 0 ≤ r.state ∧ r.state < s.value_count ∧
      ∀ k, r.leave = Leave.moved k → 0 ≤ k ∧ k < (getNewRow s r.state).row_length := by
    rcases operator_rounds_cases s gen with ⟨_, h⟩ | ⟨h1, _, l, h, ht⟩
    · rw [hrounds] at h
      cases h
      simp at hr
    · rw [hrounds] at h
      cases h
      rcases getNewState_range s.d_start_cdf s.value_count gen (by positivity) with hc | hc
      · exact absurd hc h1
      · exact transport_rounds_safe s hwf _ _ _ _ _ _ rounds hc.1 hc.2 ht r hr
  obtain ⟨hs0, hs1, hk⟩ := hsafe
  obtain ⟨ho, hrl, hend, hinds⟩ := getNewRow_inside s hwf r.state hs0 hs1
  obtain ⟨_, _, _, _, hH, hP, hW, _⟩ := hwf
  refine ⟨⟨hs0, hs1⟩, ⟨ho, hrl, by rw [hH]; exact hend, by rw [hP]; exact hend,
    by rw [hW]; exact hend, hend⟩, hk, fun hev y => ?_, hinds⟩
  exact tally_step_collision_eq s _ _ _ _ hev

theorem history_indices_inside_witness :
    well_formed (demo_started false 0) ∧
    ∃ rounds, operator_rounds (demo_started false 0) (demo_pool 0) = some rounds ∧
      (∀ y, operator_call (demo_started false 0) (demo_pool 0) y =
        some (tally_rounds (demo_started false 0) rounds y)) ∧
      ∀ r, r ∈ rounds →
        (0 ≤ r.state ∧ r.state < (demo_started false 0).value_count) ∧
        (0 ≤ rd (demo_started false 0).d_mc_data.offsets r.state ∧
          0 ≤ (getNewRow (demo_started false 0) r.state).row_length ∧
          rd (demo_started false 0).d_mc_data.offsets r.state +
            (getNewRow (demo_started false 0) r.state).row_length ≤
            ((demo_started false 0).d_mc_data.H.length : ℤ) ∧
          rd (demo_started false 0).d_mc_data.offsets r.state +
            (getNewRow (demo_started false 0) r.state).row_length ≤
            ((demo_started false 0).d_mc_data.P.length : ℤ) ∧
          rd (demo_started false 0).d_mc_data.offsets r.state +
            (getNewRow (demo_started false 0) r.state).row_length ≤
            ((demo_started false 0).d_mc_data.W.length : ℤ) ∧
          rd (demo_started false 0).d_mc_data.offsets r.state +
            (getNewRow (demo_started false 0) r.state).row_length ≤
            ((demo_started false 0).d_mc_data.inds.length : ℤ)) ∧
        (∀ k, r.leave = Leave.moved k →
          0 ≤ k ∧ k < (getNewRow (demo_started false 0) r.state).row_length) ∧
        ((demo_started false 0).d_use_expected_value = false → ∀ y,
          tally_step (demo_started false 0) r.state r.stage r.weight y =
            add_at y r.state (rd (demo_started false 0).d_coeffs r.stage * r.weight)) ∧
        (∀ i : ℕ, (i : ℤ) < (getNewRow (demo_started false 0) r.state).row_length →
          0 ≤ (getNewRow (demo_started false 0) r.state).inds.getD i 0 ∧
          (getNewRow (demo_started false 0) r.state).inds.getD i 0 <
            (demo_started false 0).value_count) :=
  ⟨by decide, history_indices_inside (demo_started false 0) (demo_pool 0) (by decide)⟩

/-! ## Homogeneity of the solve -/

theorem getD_map_mul (c : SCALAR) (x : List SCALAR) (i : ℕ) :
    (x.map (fun v => c * v)).getD i 0 = c * x.getD i 0 := by
  by_cases h : i < x.length
  · rw [List.getD_eq_getElem _ _ (by simpa using h), List.getD_eq_getElem _ _ h,
      List.getElem_map]
  · rw [List.getD_eq_default _ _ (by simpa using h), List.getD_eq_default _ _ (by omega),
      mul_zero]

theorem pdf_sum_scale (pow : SCALAR → SCALAR → SCALAR) (s : AdjointMcParallelReduce)
    (x : List SCALAR) (c : SCALAR)
    (hmul : ∀ a : SCALAR, 0 ≤ a → pow (|c| * a) s.d_start_wt_factor =
      pow |c| s.d_start_wt_factor * pow a s.d_start_wt_factor) :
    pdf_sum pow s (x.map (fun v => c * v)) =
      pow |c| s.d_start_wt_factor * pdf_sum pow s x := by
  rw [pdf_sum_eq, pdf_sum_eq, Finset.mul_sum]
  apply Finset.sum_congr rfl
  intro j _
  rw [getD_map_mul, abs_mul, hmul _ (abs_nonneg _)]

theorem start_pdf_scale (pow : SCALAR → SCALAR → SCALAR) (s : AdjointMcParallelReduce)
    (x : List SCALAR) (c : SCALAR) (hpc : 0 < pow |c| s.d_start_wt_factor)
    (hmul : ∀ a : SCALAR, 0 ≤ a → pow (|c| * a) s.d_start_wt_factor =
      pow |c| s.d_start_wt_factor * pow a s.d_start_wt_factor) :
    start_pdf pow s (x.map (fun v => c * v)) = start_pdf pow s x := by
  rw [start_pdf_eq, start_pdf_eq, pdf_sum_scale pow s x c hmul]
  apply List.map_congr_left
  intro i _
  rw [getD_map_mul, abs_mul, hmul _ (abs_nonneg _), mul_div_mul_left _ _ (ne_of_gt hpc)]

theorem start_weights_scale (pow : SCALAR → SCALAR → SCALAR) (s : AdjointMcParallelReduce)
    (x : List SCALAR) (c : SCALAR) (hx : x.length = s.value_count)
    (hpc : 0 < pow |c| s.d_start_wt_factor)
    (hmul : ∀ a : SCALAR, 0 ≤ a → pow (|c| * a) s.d_start_wt_factor =
      pow |c| s.d_start_wt_factor * pow a s.d_start_wt_factor)
    (i : ℕ) (hi : i < s.value_count) :
    (start_weights pow s (x.map (fun v => c * v))).getD i 0 =
      c * (start_weights pow s x).getD i 0 := by
  rw [start_weights_getD pow s _ (by simpa using hx) i hi, start_weights_getD pow s x hx i hi,
    start_pdf_scale pow s x c hpc hmul, getD_map_mul]
  split
  · rw [mul_zero]
  · rw [mul_div_assoc]

theorem tally_delta_scale (ev : Bool) (state : ℤ) (a w c : SCALAR) (h_vals : List SCALAR)
    (inds : List ℤ) (row_length : ℤ) (j : ℕ) :
    tally_delta ev state (a * (c * w)) h_vals inds row_length j =
      c * tally_delta ev state (a * w) h_vals inds row_length j := by
  unfold tally_delta
  cases ev
  · simp only [Bool.false_eq_true, if_false]
    split
    · ring
    · rw [mul_zero]
  · simp only [if_true]
    rw [Finset.mul_sum]
    apply Finset.sum_congr rfl
    intro k _
    split
    · ring
    · rw [mul_zero]

theorem getNewRow_start_wt (s : AdjointMcParallelReduce) (w : List SCALAR) (state : ℤ) :
    getNewRow { s with d_start_wt := w } state = getNewRow s state := rfl

theorem transport_rounds_scale (s : AdjointMcParallelReduce) (w1 : List SCALAR) (c : SCALAR)
    (hc : c ≠ 0) :
    ∀ (fuel : ℕ) (state : ℤ) (weight initial_weight : SCALAR) (stage : ℤ)
      (gen : generator_type),
      transport_rounds { s with d_start_wt := w1 } fuel state (c * weight)
        (c * initial_weight) stage gen =
        (transport_rounds s fuel state weight initial_weight stage gen).map
          (List.map (Round.scale c)) := by
  intro fuel
  induction fuel with
  | zero => intro _ _ _ _ _; rfl
  | succ fuel ih =>
    intro state weight initial_weight stage gen
    unfold transport_rounds
    simp only [getNewRow_start_wt, mul_div_mul_left _ _ hc]
    by_cases h1 : stage ≥ s.d_max_history_length
    · simp [h1, Round.scale]
    · by_cases h2 : |weight / initial_weight| < s.d_wt_cutoff
      · simp [h1, h2, Round.scale]
      · by_cases h3 : (getNewState (getNewRow s state).p_vals (getNewRow s state).row_length
            gen).1 = -1
        · simp [h1, h2, h3, Round.scale]
        · simp only [h1, h2, h3, if_false, mul_assoc, ih, Option.map_map]
          congr 1

theorem tally_step_start_wt (s : AdjointMcParallelReduce) (w : List SCALAR) (state stage : ℤ)
    (weight : SCALAR) (y : List SCALAR) :
    tally_step { s with d_start_wt := w } state stage weight y =
      tally_step s state stage weight y := rfl

theorem tally_rounds_scale (N : ℕ) (s : AdjointMcParallelReduce) (w1 : List SCALAR)
    (c : SCALAR) :
    ∀ l : List Round, ∃ d, Shift N (tally_rounds s l) d ∧
      Shift N (tally_rounds { s with d_start_wt := w1 } (l.map (Round.scale c)))
        (fun j => c * d j) := by
  intro l
  induction l with
  | nil =>
    refine ⟨fun _ => 0, Shift_id N, ?_⟩
    intro y hy
    exact ⟨hy, fun j _ => by simp [tally_rounds]⟩
  | cons r l ih =>
    obtain ⟨d, hd, hd1⟩ := ih
    have ht := Shift_tallyContribution N s r.state (rd s.d_coeffs r.stage * r.weight)
      (getNewRow s r.state).h_vals (getNewRow s r.state).inds (getNewRow s r.state).row_length
    have ht1 := Shift_tallyContribution N s r.state (rd s.d_coeffs r.stage * (c * r.weight))
      (getNewRow s r.state).h_vals (getNewRow s r.state).inds (getNewRow s r.state).row_length
    refine ⟨fun j => tally_delta s.d_use_expected_value r.state
      (rd s.d_coeffs r.stage * r.weight) (getNewRow s r.state).h_vals
      (getNewRow s r.state).inds (getNewRow s r.state).row_length j + d j, ?_, ?_⟩
    · intro y hy
      obtain ⟨h1, h2⟩ := ht y hy
      obtain ⟨h3, h4⟩ := hd _ h1
      refine ⟨h3, fun j hj => ?_⟩
      have h5 := h4 j hj
      rw [h2 j hj, add_assoc] at h5
      exact h5
    · intro y hy
      obtain ⟨h1, h2⟩ := ht1 y hy
      obtain ⟨h3, h4⟩ := hd1 _ h1
      refine ⟨h3, fun j hj => ?_⟩
      have h5 := h4 j hj
      rw [h2 j hj, tally_delta_scale, add_assoc, ← mul_add] at h5
      exact h5

theorem operator_rounds_scale (s : AdjointMcParallelReduce) (w1 : List SCALAR) (c : SCALAR)
    (hc : c ≠ 0)
    (hw : ∀ i : ℕ, i < s.value_count → w1.getD i 0 = c * s.d_start_wt.getD i 0)
    (gen : generator_type) :
    operator_rounds { s with d_start_wt := w1 } gen =
      (operator_rounds s gen).map (List.map (Round.scale c)) := by
  by_cases h1 : (getNewState s.d_start_cdf s.value_count gen).1 = -1
  · simp only [operator_rounds, h1, if_true, Option.map_some', List.map_nil]
  · have hr : 0 ≤ (getNewState s.d_start_cdf s.value_count gen).1 ∧
        (getNewState s.d_start_cdf s.value_count gen).1 < s.value_count := by
      rcases getNewState_range s.d_start_cdf s.value_count gen (by positivity) with h | h
      · exact absurd h h1
      · exact h
    have hrd : rd w1 (getNewState s.d_start_cdf s.value_count gen).1 =
        c * rd s.d_start_wt (getNewState s.d_start_cdf s.value_count gen).1 := by
      unfold rd
      rw [if_neg (by omega), if_neg (by omega)]
      exact hw _ (by omega)
    by_cases h2 : rd s.d_start_wt (getNewState s.d_start_cdf s.value_count gen).1 = 0
    · simp only [operator_rounds, h1, hrd, h2, mul_zero, abs_zero, if_true, if_false,
        Option.map_some', List.map_nil]
    · have h3 : c * rd s.d_start_wt (getNewState s.d_start_cdf s.value_count gen).1 ≠ 0 :=
        mul_ne_zero hc h2
      simp only [operator_rounds, h1, hrd, abs_eq_zero, h2, h3, if_false]
      exact transport_rounds_scale s w1 c hc _ _ _ _ _ _

theorem operator_call_scale (s : AdjointMcParallelReduce) (w1 : List SCALAR) (c : SCALAR)
    (hc : c ≠ 0)
    (hw : ∀ i : ℕ, i < s.value_count → w1.getD i 0 = c * s.d_start_wt.getD i 0)
    (gen : generator_type) (t t1 : List SCALAR)
    (ht : operator_call s gen (init s) = some t)
    (ht1 : operator_call { s with d_start_wt := w1 } gen (init s) = some t1) :
    ∀ j, j < s.value_count → t1.getD j 0 = c * t.getD j 0 := by
  obtain ⟨rounds, hrounds, hcall⟩ := operator_rounds_total s gen
  rw [hcall] at ht
  rw [operator_call_eq_rounds, operator_rounds_scale s w1 c hc hw gen, hrounds] at ht1
  simp only [Option.map_some', Option.some.injEq] at ht ht1
  obtain ⟨d, hd, hd1⟩ := tally_rounds_scale s.value_count s w1 c rounds
  intro j hj
  rw [← ht, ← ht1, (hd (init s) (init_length s)).2 j hj,
    (hd1 (init s) (init_length s)).2 j hj, init_getD, zero_add, zero_add]

/-- C27: the fused solve is homogeneous.  For `c ≠ 0` and an input `x` of length `N` with
a positive pdf sum, with a power function that is multiplicative in `|c|`
(`pow(|c|·a, p) = pow(|c|, p)·pow(a, p)` for `a ≥ 0`, and `pow(|c|, p) > 0`, as the real
power is), under either estimator, any weight cutoff and any generators: the start cdf
built from `c·x` is the one built from `x`, every start weight is multiplied by `c`, every
history has the same rounds (states, stages and exits) with its weights multiplied by `c`,
and `solve(c·x)[j] = c · solve(x)[j]` for every `j < N`. -/
theorem solve_homogeneous (pow : SCALAR → SCALAR → SCALAR) (pool : ℕ → generator_type)
    (s : AdjointMcParallelReduce) (x y y0 : List SCALAR) (c : SCALAR) (hc : c ≠ 0)
    (hx : x.length = s.value_count) (hy : y.length = s.value_count)
    (hy0 : y0.length = s.value_count) (hS : 0 < pdf_sum pow s x)
    (hpc : 0 < pow |c| s.d_start_wt_factor)
    (hmul : ∀ a : SCALAR, 0 ≤ a → pow (|c| * a) s.d_start_wt_factor =
      pow |c| s.d_start_wt_factor * pow a s.d_start_wt_factor) :
    ∃ (s1 s2 : AdjointMcParallelReduce) (y1 y2 : List SCALAR),
      build_initial_distribution pow s x = some s1 ∧
      build_initial_distribution pow s (x.map (fun v => c * v)) = some s2 ∧
      s2.d_start_cdf = s1.d_start_cdf ∧
      (∀ i, i < s.value_count → s2.d_start_wt.getD i 0 = c * s1.d_start_wt.getD i 0) ∧
      (∀ gen, operator_rounds s2 gen =
        (operator_rounds s1 gen).map (List.map (Round.scale c))) ∧
      solve pow pool s x y = (some s1, y1) ∧
      solve pow pool s (x.map (fun v => c * v)) y0 = (some s2, y2) ∧
      ∀ j, j < s.value_count → y2.getD j 0 = c * y1.getD j 0 := by
  have hS2 : 0 < pdf_sum pow s (x.map (fun v => c * v)) := by
    rw [pdf_sum_scale pow s x c hmul]
    exact mul_pos hpc hS
  have hb1 := build_initial_distribution_eq pow s x hS
  have hb2 := build_initial_distribution_eq pow s (x.map (fun v => c * v)) hS2
  rw [start_pdf_scale pow s x c hpc hmul] at hb2
  have hw := start_weights_scale pow s x c hx hpc hmul
  obtain ⟨T1, _, hT1, _⟩ := parallel_reduce_sum
    { s with d_start_cdf := partial_sum (start_pdf pow s x)
             d_start_wt := start_weights pow s x } pool
  obtain ⟨T2, _, hT2, _⟩ := parallel_reduce_sum
    { s with d_start_cdf := partial_sum (start_pdf pow s x)
             d_start_wt := start_weights pow s (x.map (fun v => c * v)) } pool
  obtain ⟨y1, hs1, _, hv1⟩ := solve_spec pow pool s _ x y T1 hy hb1 hT1
  obtain ⟨y2, hs2, _, hv2⟩ := solve_spec pow pool s _ (x.map (fun v => c * v)) y0 T2 hy0 hb2
    hT2
  have hT : ∀ i j, j < s.value_count → (T2 i).getD j 0 = c * (T1 i).getD j 0 := fun i =>
    operator_call_scale
      { s with d_start_cdf := partial_sum (start_pdf pow s x)
               d_start_wt := start_weights pow s x }
      (start_weights pow s (x.map (fun v => c * v))) c hc hw (pool i) (T1 i) (T2 i)
      (hT1 i) (hT2 i)
  refine ⟨_, _, y1, y2, hb1, hb2, rfl, hw, fun gen => ?_, hs1, hs2, fun j hj => ?_⟩
  · exact operator_rounds_scale
      { s with d_start_cdf := partial_sum (start_pdf pow s x)
               d_start_wt := start_weights pow s x }
      (start_weights pow s (x.map (fun v => c * v))) c hc hw gen
  · rw [hv1 j hj, hv2 j hj]
    have hsum : ∑ i in Finset.range s.d_num_histories.toNat, (T2 i).getD j 0 =
        c * ∑ i in Finset.range s.d_num_histories.toNat, (T1 i).getD j 0 := by
      rw [Finset.mul_sum]
      exact Finset.sum_congr rfl (fun i _ => hT i j hj)
    rw [hsum, getD_map_mul]
    split <;> ring

theorem pow_nat_one_mul (c a : SCALAR) :
    pow_nat (c * a) (demo false 0).d_start_wt_factor =
      pow_nat c (demo false 0).d_start_wt_factor *
        pow_nat a (demo false 0).d_start_wt_factor := by
  simp [pow_nat, demo]

theorem solve_homogeneous_witness :
    (-2 : SCALAR) ≠ 0 ∧ 0 < pdf_sum pow_nat (demo false 0) [3, -1] ∧
    ∃ (s1 s2 : AdjointMcParallelReduce) (y1 y2 : List SCALAR),
      build_initial_distribution pow_nat (demo false 0) [3, -1] = some s1 ∧
      build_initial_distribution pow_nat (demo false 0)
        (([3, -1] : List SCALAR).map (fun v => -2 * v)) = some s2 ∧
      s2.d_start_cdf = s1.d_start_cdf ∧
      (∀ i, i < (demo false 0).value_count →
        s2.d_start_wt.getD i 0 = -2 * s1.d_start_wt.getD i 0) ∧
      (∀ gen, operator_rounds s2 gen =
        (operator_rounds s1 gen).map (List.map (Round.scale (-2)))) ∧
      solve pow_nat demo_pool (demo false 0) [3, -1] [0, 0] = (some s1, y1) ∧
      solve pow_nat demo_pool (demo false 0)
        (([3, -1] : List SCALAR).map (fun v => -2 * v)) [7, 7] = (some s2, y2) ∧
      ∀ j, j < (demo false 0).value_count → y2.getD j 0 = -2 * y1.getD j 0 :=
  ⟨by decide!, by decide!,
    solve_homogeneous pow_nat demo_pool (demo false 0) [3, -1] [0, 0] [7, 7] (-2)
      (by decide!) (by decide!) (by decide!) (by decide!) (by decide!) (by decide!)
      (fun a _ => pow_nat_one_mul _ a)⟩

end alea

namespace profugus

/-! ## Cross sections -/

theorem vec_resize_clear {α : Type} (v : List α) (n : ℕ) (d : α) :
    vec_resize (vec_clear v) n d = List.replicate n d := by
  simp [vec_resize, vec_clear]

theorem XS_set_eq (END_XS_TYPES : ℕ) (xs : XS) (Pn_order num_groups : ℤ)
    (hpn : Pn_order ≥ 0) (hng : num_groups > 0) :
    XS.set END_XS_TYPES xs Pn_order num_groups = some
      { d_pn := Pn_order, d_Ng := num_groups, d_Nm := 0
        d_totals := vec_resize (vec_clear xs.d_totals) END_XS_TYPES []
        d_scatter := vec_resize (vec_clear xs.d_scatter) (Pn_order + 1).toNat []
        d_inst_totals := vec_resize (vec_clear xs.d_inst_totals) END_XS_TYPES []
        d_inst_scat := vec_resize (vec_clear xs.d_inst_scat) (Pn_order + 1).toNat []
        d_v := List.replicate num_groups.toNat 0
        d_bnds := List.replicate (num_groups + 1).toNat 0 } := by
  unfold XS.set REQUIRE
  rw [decide_eq_true hpn, decide_eq_true hng]
  rfl

/-- C18: for every prior state of an `XS` object, `Pn_order ≥ 0` and `num_groups > 0`,
`set(Pn_order, num_groups)` succeeds and clears all data: no material, `END_XS_TYPES` empty
tables in the totals and inserted-totals containers, `Pn_order + 1` empty tables in the
scattering and inserted-scattering containers, velocities of length `num_groups` and bounds
of length `num_groups + 1`. -/
theorem XS_set_clears (END_XS_TYPES : ℕ) (xs : XS) (Pn_order num_groups : ℤ)
    (hpn : Pn_order ≥ 0) (hng : num_groups > 0) :
    ∃ xs1, XS.set END_XS_TYPES xs Pn_order num_groups = some xs1 ∧
      xs1.d_pn = Pn_order ∧ xs1.d_Ng = num_groups ∧ xs1.d_Nm = 0 ∧
      xs1.d_totals = List.replicate END_XS_TYPES [] ∧
      xs1.d_inst_totals = List.replicate END_XS_TYPES [] ∧
      xs1.d_scatter = List.replicate (Pn_order + 1).toNat [] ∧
      xs1.d_inst_scat = List.replicate (Pn_order + 1).toNat [] ∧
      ((xs1.d_scatter.length : ℤ) = Pn_order + 1) ∧
      ((xs1.d_inst_scat.length : ℤ) = Pn_order + 1) ∧
      ((xs1.d_v.length : ℤ) = num_groups) ∧
      ((xs1.d_bnds.length : ℤ) = num_groups + 1) := by
  refine ⟨_, XS_set_eq END_XS_TYPES xs Pn_order num_groups hpn hng, rfl, rfl, rfl,
    ?_, ?_, ?_, ?_, ?_, ?_, ?_, ?_⟩
  · exact vec_resize_clear _ _ _
  · exact vec_resize_clear _ _ _
  · exact vec_resize_clear _ _ _
  · exact vec_resize_clear _ _ _
  · show ((vec_resize (vec_clear xs.d_scatter) (Pn_order + 1).toNat []).length : ℤ) = _
    rw [vec_resize_clear, List.length_replicate]
    omega
  · show ((vec_resize (vec_clear xs.d_inst_scat) (Pn_order + 1).toNat []).length : ℤ) = _
    rw [vec_resize_clear, List.length_replicate]
    omega
  · show (((List.replicate num_groups.toNat (0 : ℚ)).length : ℕ) : ℤ) = _
    rw [List.length_replicate]
    omega
  · show (((List.replicate (num_groups + 1).toNat (0 : ℚ)).length : ℕ) : ℤ) = _
    rw [List.length_replicate]
    omega

theorem XS_set_clears_witness :
    (2 : ℤ) ≥ 0 ∧ (3 : ℤ) > 0 ∧
    ∃ xs1, XS.set 4 xs_demo 2 3 = some xs1 ∧
      xs1.d_pn = 2 ∧ xs1.d_Ng = 3 ∧ xs1.d_Nm = 0 ∧
      xs1.d_totals = List.replicate 4 [] ∧
      xs1.d_inst_totals = List.replicate 4 [] ∧
      xs1.d_scatter = List.replicate ((2 : ℤ) + 1).toNat [] ∧
      xs1.d_inst_scat = List.replicate ((2 : ℤ) + 1).toNat [] ∧
      ((xs1.d_scatter.length : ℤ) = 2 + 1) ∧
      ((xs1.d_inst_scat.length : ℤ) = 2 + 1) ∧
      ((xs1.d_v.length : ℤ) = 3) ∧
      ((xs1.d_bnds.length : ℤ) = 3 + 1) :=
  ⟨by decide, by decide, XS_set_clears 4 xs_demo 2 3 (by decide) (by decide)⟩


/-! ## The axial KDE kernel -/

theorem fiss_rej_loop_spec (k : Axial_KDE_Kernel) (orig_position : Space_Vector)
    (cellid : ℤ) (bw : ℚ) (rng : ℕ → ℚ)
    (hcount : (k.b_bndwidth_map.filter (fun e => e.1 = cellid)).length = 1)
    (hlook : k.b_bndwidth_map.lookup cellid = some bw) (hbw : 0 ≤ bw) :
    ∀ (fuel failures : ℕ), failures < 1000 → 1000 - failures ≤ fuel →
      (∃ n, failures ≤ n ∧ n < 1000 ∧
        (∀ m, failures ≤ m → m < n → ¬ accepted k orig_position bw rng m) ∧
        accepted k orig_position bw rng n ∧
        fiss_rej_loop k orig_position cellid fuel failures (fun i => rng (failures + i)) =
          some (Sample_Result.returned (new_pos orig_position (rng n) bw),
            { k with b_num_sampled := k.b_num_sampled + (n + 1)
                     b_num_accepted := k.b_num_accepted + 1 })) ∨
      ((∀ m, failures ≤ m → m < 1000 → ¬ accepted k orig_position bw rng m) ∧
        fiss_rej_loop k orig_position cellid fuel failures (fun i => rng (failures + i)) =
          some (Sample_Result.thrown, { k with b_num_sampled := k.b_num_sampled + 1000 })) := by
  intro fuel
  induction fuel with
  | zero => intro f h1 h2; omega
  | succ fuel ih =>
    intro f hf hfuel
    have hstep : fiss_rej_loop k orig_position cellid (fuel + 1) f (fun i => rng (f + i)) =
        if accepted k orig_position bw rng f then
          some (Sample_Result.returned (new_pos orig_position (rng f) bw),
            { k with b_num_sampled := k.b_num_sampled + (f + 1)
                     b_num_accepted := k.b_num_accepted + 1 })
        else if f + 1 ≠ 1000 then
          fiss_rej_loop k orig_position cellid fuel (f + 1) (fun i => rng (f + 1 + i))
        else
          some (Sample_Result.thrown, { k with b_num_sampled := k.b_num_sampled + (f + 1) }) := by
      have hfun : (fun n => rng (f + (n + 1))) = (fun i => rng (f + 1 + i)) := by
        funext n
        congr 1
        omega
      rw [fiss_rej_loop]
      simp only [CHECK, hcount, decide_True, if_true, hlook, Option.getD_some, ge_iff_le, hbw,
        Nat.add_zero, accepted, hfun]
    rw [hstep]
    by_cases hacc : accepted k orig_position bw rng f
    · left
      refine ⟨f, le_rfl, hf, fun m h1 h2 => by omega, hacc, ?_⟩
      rw [if_pos hacc]
    · rw [if_neg hacc]
      by_cases hlast : f + 1 ≠ 1000
      · rw [if_pos hlast]
        rcases ih (f + 1) (by omega) (by omega) with ⟨n, h1, h2, h3, h4, h5⟩ | ⟨h1, h2⟩
        · left
          refine ⟨n, by omega, h2, fun m hm1 hm2 => ?_, h4, h5⟩
          by_cases hmf : m = f
          · rw [hmf]; exact hacc
          · exact h3 m (by omega) hm2
        · right
          refine ⟨fun m hm1 hm2 => ?_, h2⟩
          by_cases hmf : m = f
          · rw [hmf]; exact hacc
          · exact h1 m (by omega) hm2
      · rw [if_neg hlast]
        right
        have hf2 : f + 1 = 1000 := by omega
        refine ⟨fun m hm1 hm2 => ?_, by rw [hf2]⟩
        have hmf : m = f := by omega
        rw [hmf]; exact hacc

/-- C19, as the code has it: when the bandwidth map holds exactly one bandwidth for the
cell of the original position and it is not negative (the two checks of every round),
`sample_position_fiss_rej` draws at most 1000 candidates, each with the `X` and `Y` of the
original position.  Either it returns the first candidate that is INSIDE the geometry and
in a fissionable material, after `n < 1000` rejections, with the sampled counter raised by
`n + 1` and the accepted counter by one; or all 1000 candidates are rejected and it throws,
with the sampled counter raised by 1000 and the accepted counter as it was. -/
theorem sample_position_fiss_rej_spec (k : Axial_KDE_Kernel) (orig_position : Space_Vector)
    (bw : ℚ) (rng : ℕ → ℚ)
    (hcount : (k.b_bndwidth_map.filter
      (fun e => e.1 = k.b_geometry.cell orig_position)).length = 1)
    (hlook : k.b_bndwidth_map.lookup (k.b_geometry.cell orig_position) = some bw)
    (hbw : 0 ≤ bw) :
    (∀ n, (new_pos orig_position (rng n) bw).x = orig_position.x ∧
      (new_pos orig_position (rng n) bw).y = orig_position.y) ∧
    ((∃ n, n < 1000 ∧
        (∀ m, m < n → ¬ accepted k orig_position bw rng m) ∧
        accepted k orig_position bw rng n ∧
        sample_position_fiss_rej k orig_position rng =
          some (Sample_Result.returned (new_pos orig_position (rng n) bw),
            { k with b_num_sampled := k.b_num_sampled + (n + 1)
                     b_num_accepted := k.b_num_accepted + 1 })) ∨
      ((∀ m, m < 1000 → ¬ accepted k orig_position bw rng m) ∧
        sample_position_fiss_rej k orig_position rng =
          some (Sample_Result.thrown,
            { k with b_num_sampled := k.b_num_sampled + 1000 }))) := by
  refine ⟨fun n => ⟨rfl, rfl⟩, ?_⟩
  have h := fiss_rej_loop_spec k orig_position (k.b_geometry.cell orig_position) bw rng
    hcount hlook hbw 1000 0 (by decide) (by decide)
  have hfun : (fun i => rng (0 + i)) = rng := by
    funext i
    rw [Nat.zero_add]
  rw [hfun] at h
  rcases h with ⟨n, _, h2, h3, h4, h5⟩ | ⟨h1, h2⟩
  · exact Or.inl ⟨n, h2, fun m hm => h3 m (Nat.zero_le m) hm, h4, h5⟩
  · exact Or.inr ⟨fun m hm => h1 m (Nat.zero_le m) hm, h2⟩

theorem sample_position_fiss_rej_spec_witness :
    (kde_demo.b_bndwidth_map.filter
      (fun e => e.1 = kde_demo.b_geometry.cell { x := 0, y := 0, z := 9/2 })).length = 1 ∧
    kde_demo.b_bndwidth_map.lookup (kde_demo.b_geometry.cell { x := 0, y := 0, z := 9/2 }) =
      some 2 ∧
    (0 : ℚ) ≤ 2 ∧
    (sample_position_fiss_rej kde_demo { x := 0, y := 0, z := 9/2 } kde_stream).map
        (fun r => (r.1, r.2.b_num_sampled, r.2.b_num_accepted)) =
      some (Sample_Result.returned { x := 0, y := 0, z := 5 }, 13, 5) ∧
    (∀ n, (new_pos { x := 0, y := 0, z := 9/2 } (kde_stream n) 2).x = 0 ∧
      (new_pos { x := 0, y := 0, z := 9/2 } (kde_stream n) 2).y = 0) ∧
    ((∃ n, n < 1000 ∧
        (∀ m, m < n → ¬ accepted kde_demo { x := 0, y := 0, z := 9/2 } 2 kde_stream m) ∧
        accepted kde_demo { x := 0, y := 0, z := 9/2 } 2 kde_stream n ∧
        sample_position_fiss_rej kde_demo { x := 0, y := 0, z := 9/2 } kde_stream =
          some (Sample_Result.returned (new_pos { x := 0, y := 0, z := 9/2 } (kde_stream n) 2),
            { kde_demo with b_num_sampled := kde_demo.b_num_sampled + (n + 1)
                            b_num_accepted := kde_demo.b_num_accepted + 1 })) ∨
      ((∀ m, m < 1000 → ¬ accepted kde_demo { x := 0, y := 0, z := 9/2 } 2 kde_stream m) ∧
        sample_position_fiss_rej kde_demo { x := 0, y := 0, z := 9/2 } kde_stream =
          some (Sample_Result.thrown,
            { kde_demo with b_num_sampled := kde_demo.b_num_sampled + 1000 }))) :=
  ⟨by decide!, by decide!, by decide!, by decide!,
    sample_position_fiss_rej_spec kde_demo { x := 0, y := 0, z := 9/2 } 2 kde_stream
      (by decide!) (by decide!) (by decide!)⟩

/-- A kernel whose bandwidth map does not hold exactly one bandwidth for the cell of the
original position, or holds a negative one, fails the check of the first round: nothing is
returned, nothing is thrown by the loop, and both counters are as they were. -/
theorem sample_position_fiss_rej_check_failed (k : Axial_KDE_Kernel)
    (orig_position : Space_Vector) (rng : ℕ → ℚ)
    (h : (k.b_bndwidth_map.filter
        (fun e => e.1 = k.b_geometry.cell orig_position)).length ≠ 1 ∨
      (k.b_bndwidth_map.lookup (k.b_geometry.cell orig_position)).getD 0 < 0) :
    sample_position_fiss_rej k orig_position rng = some (Sample_Result.check_failed, k) := by
  unfold sample_position_fiss_rej
  rw [fiss_rej_loop]
  by_cases h1 : (k.b_bndwidth_map.filter
      (fun e => e.1 = k.b_geometry.cell orig_position)).length = 1
  · rcases h with h | h
    · exact absurd h1 h
    · have h2 : ¬ (k.b_bndwidth_map.lookup (k.b_geometry.cell orig_position)).getD 0 ≥ 0 :=
        not_le.mpr h
      simp only [CHECK, h1, decide_True, if_true, h2, decide_False]
      rfl
  · simp only [CHECK, h1, decide_False]
    rfl

/-- C19 as stated fails: with no bandwidth stored for the cell of the original position,
or with a negative one, `sample_position_fiss_rej` neither returns a candidate nor throws
after 1000 rejections: it ends in the failed check of the first round, and the sampled
counter stays at `10` although one kernel value was drawn. -/
theorem sample_position_fiss_rej_check_counterexample :
    (sample_position_fiss_rej { kde_demo with b_bndwidth_map := [] }
        { x := 0, y := 0, z := 9/2 } kde_stream).map
        (fun r => (r.1, r.2.b_num_sampled, r.2.b_num_accepted)) =
      some (Sample_Result.check_failed, 10, 4) ∧
    (sample_position_fiss_rej { kde_demo with b_bndwidth_map := [(7, -2)] }
        { x := 0, y := 0, z := 9/2 } kde_stream).map
        (fun r => (r.1, r.2.b_num_sampled, r.2.b_num_accepted)) =
      some (Sample_Result.check_failed, 10, 4) ∧
    (sample_position_fiss_rej { kde_demo with b_bndwidth_map := [(7, 2), (7, 2)] }
        { x := 0, y := 0, z := 9/2 } kde_stream).map
        (fun r => (r.1, r.2.b_num_sampled, r.2.b_num_accepted)) =
      some (Sample_Result.check_failed, 10, 4) ∧
    kde_demo.b_num_sampled = 10 ∧ kde_demo.b_num_accepted = 4 := by
  refine ⟨by decide!, by decide!, by decide!, by decide, by decide⟩

/-! ## Crossing a surface of the mesh geometry -/

/-- The demo state reflects on the low `x` face: the cell index is kept and
`boundary_state` reports `REFLECT`. -/
theorem move_to_surface_demo :
    (mesh_demo.move_to_surface unit_dir_demo face_demo mesh_state_demo).map
      (fun st => (st.ijk, st.exiting_face, st.reflecting_face, mesh_demo.boundary_state st)) =
      some ({ I := 0, J := 1, K := 1 }, Face.MINUS_X, Face.MINUS_X, Boundary_State.REFLECT) := by
  decide!

/-! ## Adding cross sections twice -/

/-- The 1-D `add` rejects data for a material and type that already have some: its fifth
requirement fails. -/
theorem XS_add_rejects_repeated (END_XS_TYPES : ℕ) (xs : XS) (matid type : ℤ)
    (data : List ℚ) (h : set_count (vec_get xs.d_inst_totals type) matid ≠ 0) :
    XS.add END_XS_TYPES xs matid type data = none := by
  unfold XS.add REQUIRE
  by_cases h1 : (data.length : ℤ) = xs.d_Ng
  · by_cases h2 : type < END_XS_TYPES
    · by_cases h3 : xs.d_totals.length = END_XS_TYPES
      · by_cases h4 : xs.d_inst_totals.length = END_XS_TYPES
        · simp [h1, h2, h3, h4, h]
        · simp [h1, h2, h3, h4]
      · simp [h1, h2, h3]
    · simp [h1, h2]
  · simp [h1]

/-- After the 1-D `add` has accepted data for `(matid, type)`, it accepts none for the same
pair again. -/
theorem XS_add_twice (END_XS_TYPES : ℕ) (xs xs1 : XS) (matid type : ℤ) (data data1 : List ℚ)
    (h : XS.add END_XS_TYPES xs matid type data = some xs1) :
    XS.add END_XS_TYPES xs1 matid type data1 = none := by
  apply XS_add_rejects_repeated
  unfold XS.add REQUIRE ENSURE at h
  by_cases h1 : (data.length : ℤ) = xs.d_Ng
  · by_cases h2 : type < END_XS_TYPES
    · by_cases h3 : xs.d_totals.length = END_XS_TYPES
      · by_cases h4 : xs.d_inst_totals.length = END_XS_TYPES
        · by_cases h5 : set_count (vec_get xs.d_inst_totals type) matid ≠ 0
          · simp [h1, h2, h3, h4, h5] at h
          · by_cases h6 : set_count (vec_get (vec_put xs.d_inst_totals type
                (set_insert (vec_get xs.d_inst_totals type) matid)) type) matid ≠ 0
            · simp only [h1, h2, h3, h4, h5, decide_True, decide_False, not_false_eq_true,
                if_true, Option.some_bind] at h
              rw [if_pos (decide_eq_true h6)] at h
              simp only [Option.some_bind, Option.some.injEq] at h
              rw [← h]
              exact h6
            · simp [h1, h2, h3, h4, h5, h6] at h
        · simp [h1, h2, h3, h4] at h
      · simp [h1, h2, h3] at h
    · simp [h1, h2] at h
  · simp [h1] at h

/-- C29, at the failing input: with `Pn_order = 1` and one group, scattering data for
material `3` and moment `0` is accepted twice.  After `set(1, 1)` the first
`add(3, 0, data)` records material `3` for moment `0`; the second `add(3, 0, data)` passes
every requirement, because the requirement on repeated data reads the set of moment
`d_pn = 1`, and leaves two entries for material `3` in the table of moment `0`.  For the
same reason data for `(3, 0)` is refused once data for `(3, 1)` is there.  The 1-D `add` on
the same object accepts `(3, 0)` once and rejects it the second time. -/
theorem add_scattering_accepts_repeated :
    ((XS.set 2 xs_empty 1 1).bind fun xs0 =>
      (xs0.add_scattering 3 0 scat_demo).map fun xs1 =>
        (xs0.d_pn, set_count (vec_get xs1.d_inst_scat 0) 3)) = some (1, 1) ∧
    ((XS.set 2 xs_empty 1 1).bind fun xs0 =>
      (xs0.add_scattering 3 0 scat_demo).bind fun xs1 =>
        (xs1.add_scattering 3 0 scat_demo).map fun xs2 => vec_get xs2.d_scatter 0) =
      some [(3, [[1]]), (3, [[1]])] ∧
    ((XS.set 2 xs_empty 1 1).bind fun xs0 =>
      (xs0.add_scattering 3 0 scat_demo).bind fun xs1 =>
        (xs1.add_scattering 3 0 scat_demo).map fun xs2 =>
          (vec_get xs2.d_inst_scat 0, vec_get xs2.d_inst_scat 1)) = some ([3], []) ∧
    ((XS.set 2 xs_empty 1 1).bind fun xs0 =>
      (xs0.add_scattering 3 1 scat_demo).map fun xs1 =>
        (xs1.add_scattering 3 0 scat_demo).isSome) = some false ∧
    ((XS.set 2 xs_empty 1 1).bind fun xs0 =>
      (XS.add 2 xs0 3 0 [1]).map fun xs1 =>
        (set_count (vec_get xs1.d_inst_totals 0) 3, (XS.add 2 xs1 3 0 [1]).isSome)) =
      some (1, false) := by
  refine ⟨by decide!, by decide!, by decide!, by decide!, by decide!⟩

end profugus

namespace cuda_profugus

/-! ## Index conversions of the Cartesian mesh -/

theorem to_int_eq (z : ℤ) (h0 : -2 ^ 31 ≤ z) (h1 : z < 2 ^ 31) : to_int z = z := by
  unfold to_int
  norm_num at h0 h1 ⊢
  omega

theorem cardinal_eq (dbc : Bool) (to_cell : ℤ → ℤ) (m : Cartesian_Mesh) (cell : ℤ)
    (hx : 0 < m.d_cells_x) (hy : 0 < m.d_cells_y)
    (hn : m.d_num_cells = m.d_cells_x * m.d_cells_y * m.d_cells_z)
    (hsize : m.d_num_cells < 2 ^ 31)
    (hconv : ∀ z : ℤ, 0 ≤ z → z ≤ m.d_num_cells → to_cell z = z)
    (h0 : 0 ≤ cell) (h1 : cell < m.d_num_cells) :
    m.cardinal dbc to_cell cell = some (cell % (m.d_cells_x * m.d_cells_y) % m.d_cells_x,
      cell % (m.d_cells_x * m.d_cells_y) / m.d_cells_x,
      cell / (m.d_cells_x * m.d_cells_y)) ∧
    0 ≤ cell % (m.d_cells_x * m.d_cells_y) % m.d_cells_x ∧
    cell % (m.d_cells_x * m.d_cells_y) % m.d_cells_x < m.d_cells_x ∧
    0 ≤ cell % (m.d_cells_x * m.d_cells_y) / m.d_cells_x ∧
    cell % (m.d_cells_x * m.d_cells_y) / m.d_cells_x < m.d_cells_y ∧
    0 ≤ cell / (m.d_cells_x * m.d_cells_y) ∧
    cell / (m.d_cells_x * m.d_cells_y) < m.d_cells_z := by
  have hxy : 0 < m.d_cells_x * m.d_cells_y := mul_pos hx hy
  have hz : 0 < m.d_cells_z := by
    by_contra hc
    have : m.d_cells_x * m.d_cells_y * m.d_cells_z ≤ 0 :=
      mul_nonpos_of_nonneg_of_nonpos (le_of_lt hxy) (by omega)
    omega
  have hxyn : m.d_cells_x * m.d_cells_y ≤ m.d_num_cells := by
    rw [hn]
    exact le_mul_of_one_le_right (le_of_lt hxy) (by omega)
  have hxle : m.d_cells_x ≤ m.d_cells_x * m.d_cells_y :=
    le_mul_of_one_le_right (le_of_lt hx) (by omega)
  have hr0 : 0 ≤ cell % (m.d_cells_x * m.d_cells_y) := Int.emod_nonneg _ (ne_of_gt hxy)
  have hr1 : cell % (m.d_cells_x * m.d_cells_y) < m.d_cells_x * m.d_cells_y :=
    Int.emod_lt_of_pos _ hxy
  have hk0 : 0 ≤ cell / (m.d_cells_x * m.d_cells_y) := Int.ediv_nonneg h0 (le_of_lt hxy)
  have hk1 : cell / (m.d_cells_x * m.d_cells_y) < m.d_cells_z := by
    apply Int.ediv_lt_of_lt_mul hxy
    rw [hn] at h1
    linarith [mul_comm m.d_cells_z (m.d_cells_x * m.d_cells_y)]
  have hk2 : cell / (m.d_cells_x * m.d_cells_y) ≤ cell := Int.ediv_le_self _ h0
  have hi0 : 0 ≤ cell % (m.d_cells_x * m.d_cells_y) % m.d_cells_x :=
    Int.emod_nonneg _ (ne_of_gt hx)
  have hi1 : cell % (m.d_cells_x * m.d_cells_y) % m.d_cells_x < m.d_cells_x :=
    Int.emod_lt_of_pos _ hx
  have hj0 : 0 ≤ cell % (m.d_cells_x * m.d_cells_y) / m.d_cells_x :=
    Int.ediv_nonneg hr0 (le_of_lt hx)
  have hj1 : cell % (m.d_cells_x * m.d_cells_y) / m.d_cells_x < m.d_cells_y := by
    apply Int.ediv_lt_of_lt_mul hx
    linarith [mul_comm m.d_cells_x m.d_cells_y]
  have hj2 : cell % (m.d_cells_x * m.d_cells_y) / m.d_cells_x ≤
      cell % (m.d_cells_x * m.d_cells_y) := Int.ediv_le_self _ hr0
  have hdxy : to_cell (int_mul m.d_cells_x m.d_cells_y) = m.d_cells_x * m.d_cells_y := by
    rw [int_mul, to_int_eq _ (by omega) (by omega)]
    exact hconv _ (le_of_lt hxy) hxyn
  have hdx : to_cell m.d_cells_x = m.d_cells_x := hconv _ (le_of_lt hx) (by omega)
  have hki : to_int (cell / (m.d_cells_x * m.d_cells_y)) =
      cell / (m.d_cells_x * m.d_cells_y) := to_int_eq _ (by omega) (by omega)
  have hji : to_int (cell % (m.d_cells_x * m.d_cells_y) / m.d_cells_x) =
      cell % (m.d_cells_x * m.d_cells_y) / m.d_cells_x := to_int_eq _ (by omega) (by omega)
  have hii : to_int (cell % (m.d_cells_x * m.d_cells_y) % m.d_cells_x) =
      cell % (m.d_cells_x * m.d_cells_y) % m.d_cells_x := to_int_eq _ (by omega) (by omega)
  refine ⟨?_, hi0, hi1, hj0, hj1, hk0, hk1⟩
  simp only [Cartesian_Mesh.cardinal, DEVICE_REQUIRE, DEVICE_ENSURE, hdxy, hdx,
    Int.tdiv_eq_ediv h0 (le_of_lt hxy), Int.tmod_eq_emod h0 (le_of_lt hxy),
    Int.tdiv_eq_ediv hr0 (le_of_lt hx), Int.tmod_eq_emod hr0 (le_of_lt hx), hki, hji, hii,
    if_neg (ne_of_gt hxy), if_neg (ne_of_gt hx)]
  simp only [h1, hk1, hj1, hi1, decide_True, Bool.not_true, Bool.and_false,
    Bool.false_eq_true, if_false, Option.some_bind]

theorem index_in_range (dbc : Bool) (to_cell : ℤ → ℤ) (m : Cartesian_Mesh)
    (hn : m.d_num_cells = m.d_cells_x * m.d_cells_y * m.d_cells_z)
    (hsize : m.d_num_cells < 2 ^ 31)
    (hconv : ∀ z : ℤ, 0 ≤ z → z ≤ m.d_num_cells → to_cell z = z)
    (i j k : ℤ) (hi0 : 0 ≤ i) (hi1 : i < m.d_cells_x) (hj0 : 0 ≤ j) (hj1 : j < m.d_cells_y)
    (hk0 : 0 ≤ k) (hk1 : k < m.d_cells_z) :
    m.index dbc to_cell i j k = some (true, i + m.d_cells_x * (j + m.d_cells_y * k)) ∧
    0 ≤ i + m.d_cells_x * (j + m.d_cells_y * k) ∧
    i + m.d_cells_x * (j + m.d_cells_y * k) < m.d_num_cells ∧
    m.cardinal dbc to_cell (i + m.d_cells_x * (j + m.d_cells_y * k)) = some (i, j, k) := by
  have hx : 0 < m.d_cells_x := by omega
  have hy : 0 < m.d_cells_y := by omega
  have hxy : 0 < m.d_cells_x * m.d_cells_y := mul_pos hx hy
  have h1 : m.d_cells_y * k ≤ m.d_cells_y * (m.d_cells_z - 1) :=
    mul_le_mul_of_nonneg_left (by omega) (le_of_lt hy)
  have h2 : m.d_cells_x * (j + m.d_cells_y * k) ≤
      m.d_cells_x * (m.d_cells_y - 1 + m.d_cells_y * (m.d_cells_z - 1)) :=
    mul_le_mul_of_nonneg_left (by omega) (le_of_lt hx)
  have h3 : 0 ≤ m.d_cells_x * (j + m.d_cells_y * k) :=
    mul_nonneg (le_of_lt hx) (add_nonneg hj0 (mul_nonneg (le_of_lt hy) hk0))
  have hc0 : 0 ≤ i + m.d_cells_x * (j + m.d_cells_y * k) := by omega
  have hc1 : i + m.d_cells_x * (j + m.d_cells_y * k) < m.d_num_cells := by
    rw [hn]
    have : m.d_cells_x * (m.d_cells_y - 1 + m.d_cells_y * (m.d_cells_z - 1)) =
        m.d_cells_x * m.d_cells_y * m.d_cells_z - m.d_cells_x := by ring
    omega
  have hr0 : 0 ≤ i + m.d_cells_x * j := add_nonneg hi0 (mul_nonneg (le_of_lt hx) hj0)
  have hr1 : i + m.d_cells_x * j < m.d_cells_x * m.d_cells_y := by
    have h4 : m.d_cells_x * j ≤ m.d_cells_x * (m.d_cells_y - 1) :=
      mul_le_mul_of_nonneg_left (by omega) (le_of_lt hx)
    have : m.d_cells_x * (m.d_cells_y - 1) = m.d_cells_x * m.d_cells_y - m.d_cells_x := by
      ring
    omega
  have hsplit : i + m.d_cells_x * (j + m.d_cells_y * k) =
      (i + m.d_cells_x * j) + (m.d_cells_x * m.d_cells_y) * k := by ring
  have hk : (i + m.d_cells_x * (j + m.d_cells_y * k)) / (m.d_cells_x * m.d_cells_y) = k := by
    rw [hsplit, Int.add_mul_ediv_left _ _ (ne_of_gt hxy), Int.ediv_eq_zero_of_lt hr0 hr1,
      zero_add]
  have hr : (i + m.d_cells_x * (j + m.d_cells_y * k)) % (m.d_cells_x * m.d_cells_y) =
      i + m.d_cells_x * j := by
    rw [hsplit, Int.add_mul_emod_self_left, Int.emod_eq_of_lt hr0 hr1]
  have hj : (i + m.d_cells_x * j) / m.d_cells_x = j := by
    rw [Int.add_mul_ediv_left _ _ (ne_of_gt hx), Int.ediv_eq_zero_of_lt hi0 hi1, zero_add]
  have hi : (i + m.d_cells_x * j) % m.d_cells_x = i := by
    rw [Int.add_mul_emod_self_left, Int.emod_eq_of_lt hi0 hi1]
  have hyk0 : 0 ≤ m.d_cells_y * k := mul_nonneg (le_of_lt hy) hk0
  have hxle : m.d_cells_x * (j + m.d_cells_y * k) ≤ i + m.d_cells_x * (j + m.d_cells_y * k) := by
    omega
  have hin : j + m.d_cells_y * k ≤ m.d_cells_x * (j + m.d_cells_y * k) :=
    le_mul_of_one_le_left (by omega) (by omega)
  have e1 : int_mul m.d_cells_y k = m.d_cells_y * k := by
    rw [int_mul, to_int_eq _ (by omega) (by omega)]
  have e2 : int_add j (m.d_cells_y * k) = j + m.d_cells_y * k := by
    rw [int_add, to_int_eq _ (by omega) (by omega)]
  have e3 : int_mul m.d_cells_x (j + m.d_cells_y * k) =
      m.d_cells_x * (j + m.d_cells_y * k) := by
    rw [int_mul, to_int_eq _ (by omega) (by omega)]
  have e4 : int_add i (m.d_cells_x * (j + m.d_cells_y * k)) =
      i + m.d_cells_x * (j + m.d_cells_y * k) := by
    rw [int_add, to_int_eq _ (by omega) (by omega)]
  refine ⟨?_, hc0, hc1, ?_⟩
  · simp [Cartesian_Mesh.index, DEVICE_REQUIRE, DEVICE_ENSURE, hi1, hj1, hk1, e1, e2, e3, e4,
      hconv _ hc0 (le_of_lt hc1), hc1]
  · rw [(cardinal_eq dbc to_cell m _ hx hy hn hsize hconv hc0 hc1).1, hr, hk, hj, hi]

theorem index_true_bounds (dbc : Bool) (to_cell : ℤ → ℤ) (m : Cartesian_Mesh)
    (i j k cell : ℤ) (h : m.index dbc to_cell i j k = some (true, cell)) :
    i < m.d_cells_x ∧ j < m.d_cells_y ∧ k < m.d_cells_z := by
  by_contra hc
  have h2 : m.index dbc to_cell i j k = none ∨
      m.index dbc to_cell i j k = some (false, to_cell (-1)) := by
    unfold Cartesian_Mesh.index DEVICE_REQUIRE
    rw [if_neg hc]
    cases dbc
    · right
      simp
    · by_cases h1 : i < m.d_cells_x
      · by_cases h2 : j < m.d_cells_y
        · by_cases h3 : k < m.d_cells_z
          · exact absurd ⟨h1, h2, h3⟩ hc
          · left
            simp [h1, h2, h3]
        · left
          simp [h1, h2]
      · left
        simp [h1]
  rcases h2 with h2 | h2
  · rw [h2] at h
    exact Option.noConfusion h
  · rw [h2] at h
    simp at h

/-- C28, as the code has it: on a mesh with positive cell counts and
`num_cells = cells_x * cells_y * cells_z < 2^31`, so that the `int` arithmetic of the two
functions does not overflow (and a `cell_type` that holds every value up to `num_cells`),
`index` and `cardinal` are mutually inverse on the triples with `0 ≤ i < cells_x`,
`0 ≤ j < cells_y`, `0 ≤ k < cells_z` and the cells `0 ≤ cell < num_cells`: `index` returns
true with `cell = i + cells_x*(j + cells_y*k) < num_cells` and `cardinal` gives the triple
back; `cardinal` of a cell is a triple of those ranges on which `index` returns the cell.
`index` returns true only when `i < cells_x`, `j < cells_y` and `k < cells_z`, the three
tests it makes: among the triples with no negative component, only for triples inside the
ranges. -/
theorem index_cardinal_inverse (dbc : Bool) (to_cell : ℤ → ℤ) (m : Cartesian_Mesh)
    (hx : 0 < m.d_cells_x) (hy : 0 < m.d_cells_y)
    (hn : m.d_num_cells = m.d_cells_x * m.d_cells_y * m.d_cells_z)
    (hsize : m.d_num_cells < 2 ^ 31)
    (hconv : ∀ z : ℤ, 0 ≤ z → z ≤ m.d_num_cells → to_cell z = z) :
    (∀ i j k : ℤ, 0 ≤ i → i < m.d_cells_x → 0 ≤ j → j < m.d_cells_y → 0 ≤ k →
      k < m.d_cells_z →
      m.index dbc to_cell i j k = some (true, i + m.d_cells_x * (j + m.d_cells_y * k)) ∧
      0 ≤ i + m.d_cells_x * (j + m.d_cells_y * k) ∧
      i + m.d_cells_x * (j + m.d_cells_y * k) < m.d_num_cells ∧
      m.cardinal dbc to_cell (i + m.d_cells_x * (j + m.d_cells_y * k)) = some (i, j, k)) ∧
    (∀ cell : ℤ, 0 ≤ cell → cell < m.d_num_cells →
      ∃ i j k : ℤ, m.cardinal dbc to_cell cell = some (i, j, k) ∧
        0 ≤ i ∧ i < m.d_cells_x ∧ 0 ≤ j ∧ j < m.d_cells_y ∧ 0 ≤ k ∧ k < m.d_cells_z ∧
        m.index dbc to_cell i j k = some (true, cell)) ∧
    (∀ i j k cell : ℤ, m.index dbc to_cell i j k = some (true, cell) →
      i < m.d_cells_x ∧ j < m.d_cells_y ∧ k < m.d_cells_z) ∧
    (∀ i j k cell : ℤ, 0 ≤ i → 0 ≤ j → 0 ≤ k →
      m.index dbc to_cell i j k = some (true, cell) →
      (0 ≤ i ∧ i < m.d_cells_x) ∧ (0 ≤ j ∧ j < m.d_cells_y) ∧ (0 ≤ k ∧ k < m.d_cells_z)) := by
  refine ⟨fun i j k hi0 hi1 hj0 hj1 hk0 hk1 =>
      index_in_range dbc to_cell m hn hsize hconv i j k hi0 hi1 hj0 hj1 hk0 hk1,
    fun cell h0 h1 => ?_, fun i j k cell h => index_true_bounds dbc to_cell m i j k cell h,
    fun i j k cell hi hj hk h => ?_⟩
  · obtain ⟨hc, hi0, hi1, hj0, hj1, hk0, hk1⟩ :=
      cardinal_eq dbc to_cell m cell hx hy hn hsize hconv h0 h1
    refine ⟨_, _, _, hc, hi0, hi1, hj0, hj1, hk0, hk1, ?_⟩
    rw [(index_in_range dbc to_cell m hn hsize hconv _ _ _ hi0 hi1 hj0 hj1 hk0 hk1).1]
    congr 2
    have e1 := Int.emod_add_ediv (cell % (m.d_cells_x * m.d_cells_y)) m.d_cells_x
    have e2 := Int.emod_add_ediv cell (m.d_cells_x * m.d_cells_y)
    calc cell % (m.d_cells_x * m.d_cells_y) % m.d_cells_x +
          m.d_cells_x * (cell % (m.d_cells_x * m.d_cells_y) / m.d_cells_x +
            m.d_cells_y * (cell / (m.d_cells_x * m.d_cells_y)))
        = (cell % (m.d_cells_x * m.d_cells_y) % m.d_cells_x +
            m.d_cells_x * (cell % (m.d_cells_x * m.d_cells_y) / m.d_cells_x)) +
          m.d_cells_x * m.d_cells_y * (cell / (m.d_cells_x * m.d_cells_y)) := by ring
      _ = cell := by rw [e1, e2]
  · obtain ⟨h1, h2, h3⟩ := index_true_bounds dbc to_cell m i j k cell h
    exact ⟨⟨hi, h1⟩, ⟨hj, h2⟩, ⟨hk, h3⟩⟩

theorem to_unsigned_small (z : ℤ) (h0 : 0 ≤ z) (h1 : z ≤ mesh_221.d_num_cells) :
    to_unsigned 32 z = z :=
  Int.emod_eq_of_lt h0 (lt_of_le_of_lt h1 (by decide : mesh_221.d_num_cells < 2 ^ 32))

theorem index_cardinal_inverse_witness :
    (0 : ℤ) < mesh_221.d_cells_x ∧ (0 : ℤ) < mesh_221.d_cells_y ∧
    mesh_221.d_num_cells = mesh_221.d_cells_x * mesh_221.d_cells_y * mesh_221.d_cells_z ∧
    mesh_221.d_num_cells < 2 ^ 31 ∧
    mesh_221.index true (to_unsigned 32) 1 1 0 = some (true, 3) ∧
    mesh_221.cardinal true (to_unsigned 32) 3 = some (1, 1, 0) ∧
    ((∀ i j k : ℤ, 0 ≤ i → i < mesh_221.d_cells_x → 0 ≤ j → j < mesh_221.d_cells_y → 0 ≤ k →
      k < mesh_221.d_cells_z →
      mesh_221.index true (to_unsigned 32) i j k =
        some (true, i + mesh_221.d_cells_x * (j + mesh_221.d_cells_y * k)) ∧
      0 ≤ i + mesh_221.d_cells_x * (j + mesh_221.d_cells_y * k) ∧
      i + mesh_221.d_cells_x * (j + mesh_221.d_cells_y * k) < mesh_221.d_num_cells ∧
      mesh_221.cardinal true (to_unsigned 32)
          (i + mesh_221.d_cells_x * (j + mesh_221.d_cells_y * k)) =
        some (i, j, k)) ∧
    (∀ cell : ℤ, 0 ≤ cell → cell < mesh_221.d_num_cells →
      ∃ i j k : ℤ, mesh_221.cardinal true (to_unsigned 32) cell = some (i, j, k) ∧
        0 ≤ i ∧ i < mesh_221.d_cells_x ∧ 0 ≤ j ∧ j < mesh_221.d_cells_y ∧ 0 ≤ k ∧
        k < mesh_221.d_cells_z ∧
        mesh_221.index true (to_unsigned 32) i j k = some (true, cell)) ∧
    (∀ i j k cell : ℤ, mesh_221.index true (to_unsigned 32) i j k = some (true, cell) →
      i < mesh_221.d_cells_x ∧ j < mesh_221.d_cells_y ∧ k < mesh_221.d_cells_z) ∧
    (∀ i j k cell : ℤ, 0 ≤ i → 0 ≤ j → 0 ≤ k →
      mesh_221.index true (to_unsigned 32) i j k = some (true, cell) →
      (0 ≤ i ∧ i < mesh_221.d_cells_x) ∧ (0 ≤ j ∧ j < mesh_221.d_cells_y) ∧
        (0 ≤ k ∧ k < mesh_221.d_cells_z))) :=
  ⟨by decide, by decide, by decide, by decide, by decide, by decide,
    index_cardinal_inverse true (to_unsigned 32) mesh_221 (by decide) (by decide) (by decide)
      (by decide) to_unsigned_small⟩

/-- C28 as stated fails, in two ways.  On the `2 x 2 x 1` mesh the triple `(-1, 1, 0)`,
whose first component is outside `[0, cells_x)`, passes the three tests of `index`, which
returns true with `cell = -1 + 2*(1 + 2*0) = 1 < num_cells`; this holds with the contract
checks compiled in or out, for an unsigned 32-bit `cell_type` as for a signed one.  On the
`65536 x 65536 x 1` mesh, with positive cell counts and `num_cells = 2^32` their product,
the `int` product `d_cells_x * d_cells_y` is `0`: `cardinal` of cell `5 < num_cells`
divides by zero and yields no triple, for a 64-bit unsigned `cell_type` as for a signed
one. -/
theorem index_negative_counterexample :
    (0 : ℤ) < mesh_221.d_cells_x ∧ (0 : ℤ) < mesh_221.d_cells_y ∧
    (0 : ℤ) < mesh_221.d_cells_z ∧
    mesh_221.d_num_cells = mesh_221.d_cells_x * mesh_221.d_cells_y * mesh_221.d_cells_z ∧
    mesh_221.index true (to_unsigned 32) (-1) 1 0 = some (true, 1) ∧
    mesh_221.index false (to_unsigned 32) (-1) 1 0 = some (true, 1) ∧
    mesh_221.index true id (-1) 1 0 = some (true, 1) ∧
    ¬ ((0 : ℤ) ≤ -1 ∧ (-1 : ℤ) < mesh_221.d_cells_x) ∧
    (0 : ℤ) < mesh_wide.d_cells_x ∧ (0 : ℤ) < mesh_wide.d_cells_y ∧
    (0 : ℤ) < mesh_wide.d_cells_z ∧
    mesh_wide.d_num_cells = mesh_wide.d_cells_x * mesh_wide.d_cells_y * mesh_wide.d_cells_z ∧
    (5 : ℤ) < mesh_wide.d_num_cells ∧
    int_mul mesh_wide.d_cells_x mesh_wide.d_cells_y = 0 ∧
    mesh_wide.cardinal true (to_unsigned 64) 5 = none ∧
    mesh_wide.cardinal false (to_unsigned 64) 5 = none ∧
    mesh_wide.cardinal false id 5 = none := by
  decide

end cuda_profugus
